import Mathlib

/-!
# NeonOps: the animation engine of `src/neon.jsx`

A shallow embedding of the hook `useCountUp` (lines 29-55), of the particle
generator of `Particles` (lines 220-235), of the node layout of
`OrbitIntegrations` (lines 288-369), of the telemetry series of `DemoConsole`
(lines 402-433, 624-629) and `Hero` (lines 960-967), of the index scheduling
of `TestimonialCarousel` (lines 790-880) and of the pointer tracking of
`CursorGlow` (lines 1215-1246) of `src/neon.jsx`.

Modelling conventions.

* A JavaScript number is a `JSNum`: a rational, `+Infinity`, `-Infinity` or
  `NaN`; the special values follow the IEEE-754 rules that JavaScript uses, so
  that a division by zero is visible.  There is one zero, the positive one.
* The operators on `JSNum` are exact.  The tick of `useCountUp` is also given
  in the machine's arithmetic: a `Rounding` says what each operator and
  `Math.pow(x, 3)` return for an exact result, `Rounding.IEEE` lists the
  properties of the rounding of doubles that the proofs use, and
  `Rounding.ideal` is the arithmetic without rounding, where the two versions
  of the tick agree (`ideal_tick`, `ideal_steps`), and `Rounding.binary64` is
  the arithmetic of doubles: round to nearest, ties to even, with subnormal
  numbers and overflow to an infinity (`binary64_IEEE`).  What is stated for
  every `Rounding` with these properties does not depend on how the machine
  rounds; `binary64_early_stop`, `binary64_value_135` and `binary64_overflow`
  are runs of the tick in doubles where exact arithmetic gives another result.
* The hook instance is a state `Hook`; the browser's list of animation frame
  callbacks and its callback identifier are part of that state, and every
  call of `setValue` is logged in `emitted`.
* The carousel instance is a state `TestimonialCarousel.State` with the
  browser's active intervals; the delay between firings is not modelled, a
  firing is an event.
* The library items `Math.cos`, `Math.sin` and `Math.PI` are parameters of
  the orbit layout.  The theorems on bounds and on distinct nodes take them to
  be the real cosine, sine and `π`; the theorems on the formula take the
  functions as they come and, for the position of a single node, the constant
  to be `mathPI`, the double that `Math.PI` is.  `Math.random()` is a stream
  of rationals that the generator reads in order.
* A render of a component with `useMemo` cells is a function from the state of
  the instance (the cells and the position in the random stream) to the new
  state and what the charts receive.
-/

namespace NeonOps

/-! ## JavaScript numbers -/

/-- A JavaScript number: a finite value, one of the two infinities, or NaN. -/
inductive JSNum where
  | fin (q : ℚ)
  | pinf
  | ninf
  | nan
  deriving DecidableEq

namespace JSNum

/-- Unary minus. -/
def neg : JSNum → JSNum
  | fin a => fin (-a)
  | pinf => ninf
  | ninf => pinf
  | nan => nan

/-- The operator `+`. -/
def add : JSNum → JSNum → JSNum
  | fin a, fin b => fin (a + b)
  | fin _, pinf => pinf
  | fin _, ninf => ninf
  | pinf, fin _ => pinf
  | pinf, pinf => pinf
  | pinf, ninf => nan
  | ninf, fin _ => ninf
  | ninf, ninf => ninf
  | ninf, pinf => nan
  | nan, _ => nan
  | _, nan => nan

/-- The operator `-`. -/
def sub (a b : JSNum) : JSNum := add a (neg b)

/-- The infinity with the sign of a non-zero rational. -/
def signedInf (a : ℚ) : JSNum := if 0 < a then pinf else ninf

/-- The operator `*`. -/
def mul : JSNum → JSNum → JSNum
  | fin a, fin b => fin (a * b)
  | fin a, pinf => if a = 0 then nan else signedInf a
  | fin a, ninf => if a = 0 then nan else signedInf (-a)
  | pinf, fin b => if b = 0 then nan else signedInf b
  | ninf, fin b => if b = 0 then nan else signedInf (-b)
  | pinf, pinf => pinf
  | pinf, ninf => ninf
  | ninf, pinf => ninf
  | ninf, ninf => pinf
  | nan, _ => nan
  | _, nan => nan

/-- The operator `/`; a zero divisor is the positive zero. -/
def div : JSNum → JSNum → JSNum
  | fin a, fin b => if b = 0 then (if a = 0 then nan else signedInf a) else fin (a / b)
  | fin _, pinf => fin 0
  | fin _, ninf => fin 0
  | pinf, fin b => if 0 ≤ b then pinf else ninf
  | ninf, fin b => if 0 ≤ b then ninf else pinf
  | pinf, pinf => nan
  | pinf, ninf => nan
  | ninf, pinf => nan
  | ninf, ninf => nan
  | nan, _ => nan
  | _, nan => nan

/-- The library function `Math.min` on two arguments. -/
def min : JSNum → JSNum → JSNum
  | fin a, fin b => fin (Min.min a b)
  | fin a, pinf => fin a
  | pinf, fin b => fin b
  | pinf, pinf => pinf
  | fin _, ninf => ninf
  | pinf, ninf => ninf
  | ninf, fin _ => ninf
  | ninf, pinf => ninf
  | ninf, ninf => ninf
  | nan, _ => nan
  | _, nan => nan

/-- The library function `Math.pow` with a natural number exponent. -/
def pow (x : JSNum) (n : ℕ) : JSNum :=
  if n = 0 then fin 1 else
  match x with
  | fin a => fin (a ^ n)
  | pinf => pinf
  | ninf => if n % 2 = 1 then ninf else pinf
  | nan => nan

/-- The library function `Math.round`: the nearest integer, halves go up. -/
def round : JSNum → JSNum
  | fin a => fin (⌊a + 1 / 2⌋ : ℤ)
  | pinf => pinf
  | ninf => ninf
  | nan => nan

/-- The comparison `<`; it is false as soon as one side is NaN. -/
def lt : JSNum → JSNum → Bool
  | fin a, fin b => decide (a < b)
  | fin _, pinf => true
  | ninf, fin _ => true
  | ninf, pinf => true
  | _, _ => false

/-- The comparison `<=`; it is false as soon as one side is NaN. -/
def le : JSNum → JSNum → Bool
  | fin a, fin b => decide (a ≤ b)
  | fin _, pinf => true
  | ninf, fin _ => true
  | ninf, pinf => true
  | pinf, pinf => true
  | ninf, ninf => true
  | _, _ => false

/-- The predicate `Number.isFinite`. -/
def isFinite : JSNum → Bool
  | fin _ => true
  | _ => false

/-- The integer part of a rational, rounded towards zero. -/
def trunc (q : ℚ) : ℤ := if 0 ≤ q then ⌊q⌋ else ⌈q⌉

/-- The operator `%`: the remainder has the sign of the dividend; it is NaN
for a zero divisor or an infinite dividend. -/
def mod : JSNum → JSNum → JSNum
  | fin a, fin b => if b = 0 then nan else fin (a - b * (trunc (a / b) : ℤ))
  | fin a, pinf => fin a
  | fin a, ninf => fin a
  | pinf, _ => nan
  | ninf, _ => nan
  | nan, _ => nan
  | fin _, nan => nan

end JSNum

open JSNum

/-! ## The tick of `useCountUp` -/

/-- The constant `from` of `useCountUp` (line 42). -/
def countFrom : JSNum := fin 0

/-- Line 44 in exact arithmetic: `p = Math.min(1, (t - start) / durationMs)`;
`Rounding.tickProgress` is the same line with the machine's rounding. -/
def tickProgress (start durationMs t : JSNum) : JSNum :=
  JSNum.min (fin 1) (JSNum.div (JSNum.sub t start) durationMs)

/-- Line 46 in exact arithmetic: `eased = 1 - Math.pow(1 - p, 3)`. -/
def easeOutCubic (p : JSNum) : JSNum :=
  JSNum.sub (fin 1) (JSNum.pow (JSNum.sub (fin 1) p) 3)

/-- Line 47 in exact arithmetic: the argument of `setValue`,
`Math.round(from + (target - from) * eased)`; `Rounding.tickValue` is the same
line with the machine's rounding. -/
def tickValue (target p : JSNum) : JSNum :=
  JSNum.round (JSNum.add countFrom (JSNum.mul (JSNum.sub target countFrom) (easeOutCubic p)))

/-- Line 48: the guard `p < 1` of the next `requestAnimationFrame`. -/
def tickAgain (p : JSNum) : Bool := JSNum.lt p (fin 1)

/-! ## The hook instance and the browser's frame callbacks -/

/-- The closure environment of one run of the effect (lines 40-42): the
dependencies it captured, its `start` and its variable `raf`. -/
structure Run where
  target : JSNum
  durationMs : JSNum
  start : JSNum
  raf : ℕ

/-- An entry of the browser's list of animation frame callbacks: the handle
that `requestAnimationFrame` returned and the run whose `tick` was passed. -/
structure Callback where
  handle : ℕ
  run : ℕ
  deriving DecidableEq

/-- The state of one instance of `useCountUp`, with the part of the browser it
talks to. -/
structure Hook where
  /-- The React state `value` (line 30). -/
  value : JSNum
  /-- Every argument of `setValue` so far, oldest first. -/
  emitted : List JSNum
  /-- The closure environments of the effect runs so far. -/
  runs : List Run
  /-- The run whose cleanup `() => cancelAnimationFrame(raf)` React holds. -/
  cleanup : Option ℕ
  /-- The browser's list of animation frame callbacks. -/
  pending : List Callback
  /-- The browser's animation frame callback identifier. -/
  frameId : ℕ
  /-- Whether the component is mounted. -/
  mounted : Bool

/-- The state setter `setValue`. -/
def setValue (s : Hook) (v : JSNum) : Hook :=
  { s with value := v, emitted := s.emitted ++ [v] }

/-- Assignment to the variable `raf` of run `i`. -/
def setRaf (s : Hook) (i h : ℕ) : Hook :=
  { s with runs := s.runs.modify (fun r => { r with raf := h }) i }

/-- The browser's `requestAnimationFrame(tick)` for the `tick` of run `i`: the
identifier is incremented, the callback is appended, the identifier is the
handle. -/
def requestAnimationFrame (s : Hook) (i : ℕ) : Hook × ℕ :=
  ({ s with frameId := s.frameId + 1,
            pending := s.pending ++ [{ handle := s.frameId + 1, run := i }] },
   s.frameId + 1)

/-- The browser's `cancelAnimationFrame(h)`. -/
def cancelAnimationFrame (s : Hook) (h : ℕ) : Hook :=
  { s with pending := s.pending.filter (fun c => decide (c.handle ≠ h)) }

/-- The callback `tick` of run `i`, called with the frame timestamp `t`
(lines 43-49). -/
def tick (s : Hook) (i : ℕ) (t : JSNum) : Hook :=
  match s.runs[i]? with
  | none => s
  | some r =>
    let p := tickProgress r.start r.durationMs t
    let s1 := setValue s (tickValue r.target p)
    if tickAgain p then
      let (s2, h) := requestAnimationFrame s1 i
      setRaf s2 i h
    else s1

/-- The body of the effect (lines 33-51) for the dependencies
`target, durationMs, startWhen, reduce`; `now` is the result of
`performance.now()`. -/
def effect (s : Hook) (target durationMs : JSNum) (startWhen reduce : Bool)
    (now : JSNum) : Hook :=
  if !startWhen then { s with cleanup := none }
  else if reduce then { setValue s target with cleanup := none }
  else
    let i := s.runs.length
    let s1 := { s with runs := s.runs ++
      [{ target := target, durationMs := durationMs, start := now, raf := 0 }] }
    let (s2, h) := requestAnimationFrame s1 i
    { setRaf s2 i h with cleanup := some i }

/-- The cleanup React holds for the last effect run, if there is one
(line 51). -/
def runCleanup (s : Hook) : Hook :=
  match s.cleanup with
  | none => s
  | some i =>
    match s.runs[i]? with
    | none => { s with cleanup := none }
    | some r => cancelAnimationFrame { s with cleanup := none } r.raf

/-- One animation frame with timestamp `t`: the browser empties its callback
list and calls the callbacks it held, in order. -/
def frame (s : Hook) (t : JSNum) : Hook :=
  s.pending.foldl (fun acc c => tick acc c.run t) { s with pending := [] }

/-- What can happen to a mounted instance. -/
inductive Event where
  /-- An animation frame with its timestamp. -/
  | frame (t : JSNum)
  /-- A render with changed dependencies; `now` is the clock when the effect
  runs again. -/
  | update (target durationMs : JSNum) (startWhen reduce : Bool) (now : JSNum)
  /-- The component is unmounted. -/
  | unmount

/-- The instance right after `useState(0)`, before its first effect; `id0` is
the browser's callback identifier at that time. -/
def initial (id0 : ℕ) : Hook :=
  { value := fin 0, emitted := [], runs := [], cleanup := none, pending := [],
    frameId := id0, mounted := true }

/-- The first commit of the component: the effect runs for the first time. -/
def mount (id0 : ℕ) (target durationMs : JSNum) (startWhen reduce : Bool)
    (now : JSNum) : Hook :=
  effect (initial id0) target durationMs startWhen reduce now

/-- One event on an instance.  React runs the cleanup of the previous effect
before the effect of a render with changed dependencies, and runs it on
unmount; an unmounted instance has no more renders. -/
def step (s : Hook) : Event → Hook
  | Event.frame t => frame s t
  | Event.update target durationMs startWhen reduce now =>
    if s.mounted then effect (runCleanup s) target durationMs startWhen reduce now
    else s
  | Event.unmount =>
    if s.mounted then { runCleanup s with mounted := false } else s

/-- A sequence of events, oldest first. -/
def steps (s : Hook) (es : List Event) : Hook := es.foldl step s

/-- The values the hook has exposed: the initial `0`, then every value set. -/
def exposed (s : Hook) : List JSNum := fin 0 :: s.emitted

/-- The progress the specification describes:
`clamp((now - startTime) / durationMs, 0, 1)`. -/
def specProgress (start durationMs now : ℚ) : ℚ :=
  max 0 (min 1 ((now - start) / durationMs))

/-- The timestamps of a list whose frames call `tick` in a run with the given
`start` and `durationMs`: all up to and including the first one that is not
below `start + durationMs`. -/
def ticked (start durationMs : ℚ) : List ℚ → List ℚ
  | [] => []
  | u :: us => if u < start + durationMs then u :: ticked start durationMs us else [u]

/-- The value a tick of a run sets at the finite timestamp `u`. -/
def valueAt (target : JSNum) (start durationMs u : ℚ) : JSNum :=
  tickValue target (tickProgress (fin start) (fin durationMs) (fin u))

/-- The integer a tick sets at `u` for an integer target and a non-zero
duration: `round(target * (1 - (1 - p)^3))` with `p = min(1, (u - start)/d)`. -/
def valueInt (target : ℤ) (start durationMs u : ℚ) : ℤ :=
  ⌊(target : ℚ) * (1 - (1 - min 1 ((u - start) / durationMs)) ^ 3) + 1 / 2⌋

/-- Frame events with arbitrary timestamps. -/
def anyFrames (ts : List JSNum) : List Event := ts.map Event.frame

/-- The frame events of a list of finite timestamps. -/
def frames (ts : List ℚ) : List Event := anyFrames (ts.map fin)

/-- A run `i` with the given closure environment is animating: its `tick` is
the one pending callback, under the handle stored in its `raf`, and its
cleanup is the one React holds. -/
structure Live (s : Hook) (i : ℕ) (target durationMs start : JSNum) : Prop where
  pending : ∃ h, s.pending = [{ handle := h, run := i }] ∧
    ∃ r, s.runs[i]? = some r ∧ r.raf = h ∧ r.target = target ∧
      r.durationMs = durationMs ∧ r.start = start
  cleanup : s.cleanup = some i

/-- At most one callback is pending, and it is the `tick` of the run whose
cleanup React holds, under the handle stored in that run's `raf`. -/
def SinglePending (s : Hook) : Prop :=
  s.pending.length ≤ 1 ∧
  ∀ c ∈ s.pending, s.cleanup = some c.run ∧ ∃ r, s.runs[c.run]? = some r ∧ r.raf = c.handle

/-- The invariant of the reachable states, as the proofs use it. -/
def Inv (s : Hook) : Prop :=
  (s.pending = [] ∨ ∃ i T d st, Live s i T d st) ∧ (s.mounted = false → s.pending = [])

/-! ## The tick in rounded arithmetic -/

/-- The library function `Math.max` on two arguments. -/
def JSNum.max : JSNum → JSNum → JSNum
  | fin a, fin b => fin (Max.max a b)
  | fin _, pinf => pinf
  | pinf, fin _ => pinf
  | pinf, pinf => pinf
  | fin a, ninf => fin a
  | pinf, ninf => pinf
  | ninf, fin b => fin b
  | ninf, pinf => pinf
  | ninf, ninf => ninf
  | nan, _ => nan
  | _, nan => nan

/-- The clamp the specification describes, `clamp(x, 0, 1)`, as
`Math.max(0, Math.min(1, x))`. -/
def specClamp (x : JSNum) : JSNum := JSNum.max (fin 0) (JSNum.min (fin 1) x)

/-- The rounding of the machine's arithmetic.  `rnd q` is what an operator
`+`, `-`, `*`, `/` returns when the exact result of the operation is the
rational `q` (for doubles: the nearest double, or an infinity on overflow), and
`cube x` is what `Math.pow(x, 3)` returns for a finite `x`. -/
structure Rounding where
  rnd : ℚ → JSNum
  cube : ℚ → JSNum

/-- The arithmetic without rounding: every operator returns its exact
result. -/
def Rounding.ideal : Rounding := { rnd := fin, cube := fun q => fin (q ^ 3) }

/-- What an operator returns when its result in exact arithmetic is `x`: a
finite result is rounded, an infinity or NaN is returned as it is. -/
def Rounding.lift (R : Rounding) : JSNum → JSNum
  | fin q => R.rnd q
  | pinf => pinf
  | ninf => ninf
  | nan => nan

/-- The operator `+` of the machine. -/
def Rounding.add (R : Rounding) (a b : JSNum) : JSNum := R.lift (JSNum.add a b)

/-- The operator `-` of the machine. -/
def Rounding.sub (R : Rounding) (a b : JSNum) : JSNum := R.lift (JSNum.sub a b)

/-- The operator `*` of the machine. -/
def Rounding.mul (R : Rounding) (a b : JSNum) : JSNum := R.lift (JSNum.mul a b)

/-- The operator `/` of the machine; a zero divisor is the positive zero. -/
def Rounding.div (R : Rounding) (a b : JSNum) : JSNum := R.lift (JSNum.div a b)

/-- The call `Math.pow(x, 3)` of the machine. -/
def Rounding.pow3 (R : Rounding) : JSNum → JSNum
  | fin q => R.cube q
  | pinf => pinf
  | ninf => ninf
  | nan => nan

/-- What the proofs use of the rounding of IEEE-754 doubles: it is monotone
(so it never yields NaN), it keeps `0` and `1`, a rounded value is kept by a
second rounding, the difference of two different machine numbers is not
rounded to zero, and `Math.pow(0, 3)` is `0`. -/
structure Rounding.IEEE (R : Rounding) : Prop where
  mono : ∀ a b : ℚ, a ≤ b → JSNum.le (R.rnd a) (R.rnd b) = true
  zero : R.rnd 0 = fin 0
  one : R.rnd 1 = fin 1
  idem : ∀ a b : ℚ, R.rnd a = fin b → R.rnd b = fin b
  sub_ne : ∀ a b : ℚ, R.rnd a = fin a → R.rnd b = fin b → a ≠ b → R.rnd (a - b) ≠ fin 0
  cube_zero : R.cube 0 = fin 0

/-! ### The rounding of IEEE-754 doubles -/

/-- The integer nearest to a rational; a tie goes to the even neighbour. -/
def roundEven (m : ℚ) : ℤ :=
  if m - ⌊m⌋ < 1 / 2 then ⌊m⌋
  else if 1 / 2 < m - ⌊m⌋ then ⌊m⌋ + 1
  else if ⌊m⌋ % 2 = 0 then ⌊m⌋ else ⌊m⌋ + 1

/-- The exponent of the doubles next to a rational `a ≥ 0`: that of its
binade, and `-1022` for what lies below the normal numbers. -/
def binade (a : ℚ) : ℤ := Max.max (Int.log 2 a) (-1022)

/-- The double nearest to a rational `a ≥ 0` if the exponent had no upper
bound: `a` is rounded to a multiple of `2 ^ (binade a - 52)`. -/
def nearest (a : ℚ) : ℚ := roundEven (a / 2 ^ (binade a - 52)) * 2 ^ (binade a - 52)

/-- Rounding to the nearest IEEE-754 binary64 number, ties to even; a result
of magnitude `2 ^ 1024` overflows to an infinity. -/
def rnd64 (q : ℚ) : JSNum :=
  if (2 : ℚ) ^ 1024 ≤ nearest |q| then (if 0 < q then pinf else ninf)
  else fin (if 0 ≤ q then nearest q else -nearest (-q))

/-- The arithmetic of IEEE-754 doubles.  `Math.pow(x, 3)` is taken as the
cube rounded once; an engine may return a neighbour of that double, and of
`Math.pow` the theorems on every rounding use `Math.pow(0, 3) = 0` only. -/
def Rounding.binary64 : Rounding := { rnd := rnd64, cube := fun q => rnd64 (q ^ 3) }

/-! ### The tick with a rounding -/

/-- Line 44 in the machine's arithmetic:
`p = Math.min(1, (t - start) / durationMs)`. -/
def Rounding.tickProgress (R : Rounding) (start durationMs t : JSNum) : JSNum :=
  JSNum.min (fin 1) (R.div (R.sub t start) durationMs)

/-- Line 46 in the machine's arithmetic: `eased = 1 - Math.pow(1 - p, 3)`. -/
def Rounding.easeOutCubic (R : Rounding) (p : JSNum) : JSNum :=
  R.sub (fin 1) (R.pow3 (R.sub (fin 1) p))

/-- Line 47 in the machine's arithmetic: the argument of `setValue`,
`Math.round(from + (target - from) * eased)`. -/
def Rounding.tickValue (R : Rounding) (target p : JSNum) : JSNum :=
  JSNum.round (R.add countFrom (R.mul (R.sub target countFrom) (R.easeOutCubic p)))

/-- The callback `tick` of run `i` (lines 43-49) in the machine's
arithmetic. -/
def Rounding.tick (R : Rounding) (s : Hook) (i : ℕ) (t : JSNum) : Hook :=
  match s.runs[i]? with
  | none => s
  | some r =>
    let p := R.tickProgress r.start r.durationMs t
    let s1 := setValue s (R.tickValue r.target p)
    if tickAgain p then
      let (s2, h) := requestAnimationFrame s1 i
      setRaf s2 i h
    else s1

/-- One animation frame with timestamp `t` in the machine's arithmetic. -/
def Rounding.frame (R : Rounding) (s : Hook) (t : JSNum) : Hook :=
  s.pending.foldl (fun acc c => R.tick acc c.run t) { s with pending := [] }

/-- One event on an instance in the machine's arithmetic; only a frame
computes. -/
def Rounding.step (R : Rounding) (s : Hook) : Event → Hook
  | Event.frame t => R.frame s t
  | Event.update target durationMs startWhen reduce now =>
    NeonOps.step s (Event.update target durationMs startWhen reduce now)
  | Event.unmount => NeonOps.step s Event.unmount

/-- A sequence of events, oldest first, in the machine's arithmetic. -/
def Rounding.steps (R : Rounding) (s : Hook) (es : List Event) : Hook :=
  es.foldl R.step s

/-! ## The testimonial carousel (`TestimonialCarousel`, lines 790-880) -/

/-- An entry of the array `items` of `TestimonialCarousel`. -/
structure Testimonial where
  quote : String
  name : String
  org : String
  deriving DecidableEq

namespace TestimonialCarousel

/-- The array `items` of the component (lines 791-816). -/
def items : List Testimonial :=
  [{ quote := "NeonOps gave us a single command surface for detection → decision → execution. We cut MTTR without adding headcount.",
     name := "SRE Lead", org := "Global FinTech" },
   { quote := "The policy engine is the difference. We finally have automation that’s governed, audited, and reversible.",
     name := "Platform Director", org := "Enterprise SaaS" },
   { quote := "Observability is everywhere now. NeonOps is the first product that feels like an operating system — not a dashboard.",
     name := "Head of Reliability", org := "Cloud Infrastructure Co." },
   { quote := "We shipped faster because incident response became a workflow — not a war room. The interface is shockingly clear.",
     name := "VP Engineering", org := "Consumer Platform" }]

/-- The updater `(v) => (v + 1) % items.length` of line 823, for an array of
`len` items. -/
def advance (len : ℕ) (v : JSNum) : JSNum :=
  JSNum.mod (JSNum.add v (fin 1)) (fin len)

/-- An interval of the browser: its id and its delay in milliseconds. -/
structure Timer where
  id : ℕ
  delay : ℕ
  deriving DecidableEq

/-- The state of one instance of the carousel, with the browser's intervals
whose callback is the updater of this instance. -/
structure State where
  /-- The React state `idx` (line 819). -/
  idx : JSNum
  /-- The active intervals. -/
  timers : List Timer
  /-- The last timer id the browser has handed out. -/
  timerId : ℕ
  /-- The interval whose cleanup `() => clearInterval(t)` React holds. -/
  cleanup : Option ℕ
  /-- Whether the component is mounted. -/
  mounted : Bool

/-- The browser's `setInterval(callback, delay)`. -/
def setInterval (s : State) (delay : ℕ) : State × ℕ :=
  ({ s with timerId := s.timerId + 1,
            timers := s.timers ++ [{ id := s.timerId + 1, delay := delay }] },
   s.timerId + 1)

/-- The browser's `clearInterval(t)`. -/
def clearInterval (s : State) (t : ℕ) : State :=
  { s with timers := s.timers.filter (fun x => decide (x.id ≠ t)) }

/-- The body of the effect (lines 821-825). -/
def effect (s : State) (reduce : Bool) : State :=
  if reduce then { s with cleanup := none }
  else
    let (s1, t) := setInterval s 5200
    { s1 with cleanup := some t }

/-- The cleanup React holds for the last effect run, if there is one. -/
def runCleanup (s : State) : State :=
  match s.cleanup with
  | none => s
  | some t => clearInterval { s with cleanup := none } t

/-- The instance right after `useState(0)`; `id0` is the browser's last timer
id at that time. -/
def initial (id0 : ℕ) : State :=
  { idx := fin 0, timers := [], timerId := id0, cleanup := none, mounted := true }

/-- The first commit: the effect runs for the first time.  The render that
comes before it reads `items[0]`, which the array of the component has; see
`commit`. -/
def mount (id0 : ℕ) (reduce : Bool) : State := effect (initial id0) reduce

/-- What can happen to an instance. -/
inductive Event where
  /-- The browser fires the interval with id `t`. -/
  | fire (t : ℕ)
  /-- A click on the dot of item `i` (line 871): `setIdx(i)`. -/
  | goTo (i : ℕ)
  /-- A render with a changed reduced-motion flag. -/
  | update (reduce : Bool)
  /-- The component is unmounted. -/
  | unmount

/-- One event on an instance with `len` items.  An interval runs its callback
only while it is active; a dot exists only for an index below `len`. -/
def step (len : ℕ) (s : State) : Event → State
  | Event.fire t =>
    if t ∈ s.timers.map Timer.id then { s with idx := advance len s.idx } else s
  | Event.goTo i =>
    if s.mounted && decide (i < len) then { s with idx := fin i } else s
  | Event.update reduce =>
    if s.mounted then effect (runCleanup s) reduce else s
  | Event.unmount =>
    if s.mounted then { runCleanup s with mounted := false } else s

/-- A sequence of events, oldest first. -/
def steps (len : ℕ) (s : State) (es : List Event) : State := es.foldl (step len) s

/-- The array access `items[idx]` of line 827: `undefined` (here `none`)
unless `idx` is an index of the array. -/
def itemAt (its : List Testimonial) (idx : JSNum) : Option Testimonial :=
  match idx with
  | fin q => if q.den = 1 ∧ 0 ≤ q.num then its[q.num.toNat]? else none
  | _ => none

/-- The part of the render that reads the active item (lines 827, 859-864):
reading `item.quote` of `undefined` throws a `TypeError`. -/
def render (its : List Testimonial) (s : State) : Except String (String × String × String) :=
  match itemAt its s.idx with
  | none => Except.error "TypeError: item is undefined"
  | some item => Except.ok (item.quote, item.name, item.org)

/-- The argument of the last `goTo` among the events, if there is one that hit
an existing dot. -/
def lastGoTo (len : ℕ) : List Event → Option ℕ
  | [] => none
  | Event.goTo i :: es =>
    match lastGoTo len es with
    | some j => some j
    | none => if i < len then some i else none
  | _ :: es => lastGoTo len es

/-- The first render and the commit that follows it: the render reads
`items[0]` (lines 827, 859-864) before any effect runs, so an array without
that element makes the render throw and nothing is mounted; otherwise the
instance is `mount`. -/
def commit (its : List Testimonial) (id0 : ℕ) (reduce : Bool) : Except String State :=
  match render its (initial id0) with
  | Except.error e => Except.error e
  | Except.ok _ => Except.ok (mount id0 reduce)

end TestimonialCarousel

/-! ## The orbit layout (`OrbitIntegrations`, lines 288-369) -/

/-- An entry of the array `items` of `OrbitIntegrations`. -/
structure OrbitItem where
  name : String
  tint : String
  deriving DecidableEq

namespace OrbitIntegrations

/-- The array `items` of the component (lines 289-298), with the colours of
`TOKENS`. -/
def items : List OrbitItem :=
  [{ name := "Slack", tint := "#00F5FF" }, { name := "GitHub", tint := "#7A2CFF" },
   { name := "Jira", tint := "#FF2EEA" }, { name := "AWS", tint := "#3AA0FF" },
   { name := "GCP", tint := "#00F5FF" }, { name := "Okta", tint := "#7A2CFF" },
   { name := "Datadog", tint := "#FF2EEA" }, { name := "Splunk", tint := "#3AA0FF" }]

/-- The library constant `Math.PI`: the double nearest to `π`, which is
`884279719003555 / 2^48`, a little below `π`. -/
def mathPI : ℚ := 884279719003555 / 281474976710656

/-- The radius of node `i` (line 366): `i % 2 === 0 ? 44 : 36`. -/
def radius {α : Type} [Field α] (i : ℕ) : α := if i % 2 = 0 then 44 else 36

/-- The angle of node `i` of `len` (line 365):
`(i / items.length) * Math.PI * 2`; the library constant `Math.PI` is the
parameter `pi`. -/
def angle {α : Type} [Field α] (pi : α) (len i : ℕ) : α := ((i : α) / (len : α)) * pi * 2

/-- The position of node `i` of `len` (lines 365-368); the library functions
`Math.cos` and `Math.sin` are the parameters `cos` and `sin`. -/
def node {α : Type} [Field α] (cos sin : α → α) (pi : α) (len i : ℕ) : α × α :=
  (50 + cos (angle pi len i) * radius i, 50 + sin (angle pi len i) * radius i)

/-- The layout `items.map((it, i) => ...)` of lines 364-369: every item with
its position, in item order. -/
def layout {α : Type} [Field α] (cos sin : α → α) (pi : α) (its : List OrbitItem) :
    List (OrbitItem × α × α) :=
  its.mapIdx (fun i it => (it, node cos sin pi its.length i))

end OrbitIntegrations

/-! ## The particle field (`Particles`, lines 220-235) -/

/-- An element of the array `particles`. -/
structure Particle where
  id : ℕ
  x : ℚ
  y : ℚ
  s : ℚ
  o : ℚ
  d : ℚ
  deriving DecidableEq

namespace Particles

/-- The object pushed in iteration `i` (lines 225-232); `rand` is the stream
of the results of `Math.random()` and `k` the number of draws made so far. -/
def particle (rand : ℕ → ℚ) (i k : ℕ) : Particle :=
  { id := i,
    x := rand k * 100,
    y := rand (k + 1) * 100,
    s := 1 + rand (k + 2) * 2.2,
    o := 0.15 + rand (k + 3) * 0.35,
    d := 6 + rand (k + 4) * 10 }

/-- The loop `for (let i = 0; i < count; i++) arr.push(...)` of lines 224-233
from the loop state `i`, `k` draws made, and `arr`, for a finite `count`. -/
def loop (rand : ℕ → ℚ) (count : ℚ) (i k : ℕ) (arr : List Particle) : List Particle :=
  if (i : ℚ) < count then
    loop rand count (i + 1) (k + 5) (arr ++ [particle rand i k])
  else arr
termination_by (⌈count⌉ - (i : ℤ)).toNat
decreasing_by
  have h1 : (i : ℤ) < ⌈count⌉ := by
    rw [Int.lt_ceil]; exact_mod_cast ‹(i : ℚ) < count›
  omega

/-- The memoised array `particles` (lines 222-235) for the property `count`,
whose default is `28` (line 220). -/
def particles (rand : ℕ → ℚ) (count : Option ℚ) : List Particle :=
  loop rand (count.getD 28) 0 0 []

end Particles

/-! ## The telemetry series (`DemoConsole`, lines 402-433 and 624-629; `Hero`, lines 960-967) -/

/-- The library function `Math.round` on a finite number. -/
def jsRound (q : ℚ) : ℤ := ⌊q + 1 / 2⌋

/-- The hook `useMemo(compute, [])`: the first render runs `compute` from the
current position `k` of the random stream and stores the result; a later
render of the same instance returns the stored value and draws nothing. -/
def useMemo {α : Type} (cell : Option α) (compute : ℕ → α × ℕ) (k : ℕ) : α × ℕ :=
  match cell with
  | some v => (v, k)
  | none => compute k

/-- An element of the series `heat` (Load Heat). -/
structure HeatSample where
  name : String
  v : ℤ
  deriving DecidableEq

/-- An element of the series `spark` (Stability Index). -/
structure SparkSample where
  x : ℕ
  y : ℤ
  deriving DecidableEq

/-- An element of the inline series of the chart Signal Correlation. -/
structure SignalSample where
  x : ℕ
  a : ℤ
  deriving DecidableEq

/-- An element of the series `line` (Reliability Trend). -/
structure LineSample where
  name : ℕ
  v : ℤ
  deriving DecidableEq

namespace DemoConsole

/-- Lines 419-422: `Array.from({ length: 12 }).map((_, i) => ...)`, reading
the random stream `rand` from position `k`. -/
def heatSeries (rand : ℕ → ℚ) (k : ℕ) : List HeatSample × ℕ :=
  ((List.range 12).map (fun i =>
    { name := "S" ++ toString (i + 1), v := jsRound (30 + rand (k + i) * 70) }), k + 12)

/-- Lines 428-431, reading the random stream from position `k`. -/
def sparkSeries (rand : ℕ → ℚ) (k : ℕ) : List SparkSample × ℕ :=
  ((List.range 18).map (fun i => { x := i, y := jsRound (40 + rand (k + i) * 50) }), k + 18)

/-- Lines 625-628: the expression passed as `data` to the area chart, reading
the random stream from position `k`. -/
def signalSeries (rand : ℕ → ℚ) (k : ℕ) : List SignalSample × ℕ :=
  ((List.range 14).map (fun i => { x := i, a := jsRound (20 + rand (k + i) * 70) }), k + 14)

/-- The state of one instance of `DemoConsole`: the React state `tab`, the
cells of the two memoised series, and the number of calls of `Math.random()`
made so far. -/
structure State where
  tab : String
  heat : Option (List HeatSample)
  spark : Option (List SparkSample)
  draws : ℕ

/-- What one render hands to the charts. -/
structure View where
  tab : String
  heat : List HeatSample
  spark : List SparkSample
  signal : List SignalSample
  deriving DecidableEq

/-- One call of the function component: the two `useMemo` hooks in order,
then the JSX, whose `data` expression of the area chart is evaluated in place. -/
def render (rand : ℕ → ℚ) (s : State) : State × View :=
  let (heat, k1) := useMemo s.heat (heatSeries rand) s.draws
  let (spark, k2) := useMemo s.spark (sparkSeries rand) k1
  let (signal, k3) := signalSeries rand k2
  ({ s with heat := some heat, spark := some spark, draws := k3 },
   { tab := s.tab, heat := heat, spark := spark, signal := signal })

/-- The instance before its first render; `k` draws were made before. -/
def initial (k : ℕ) : State := { tab := "Overview", heat := none, spark := none, draws := k }

/-- The handler `() => setTab(t)` of line 450. -/
def setTab (s : State) (t : String) : State := { s with tab := t }

end DemoConsole

namespace Hero

/-- Lines 962-965, reading the random stream from position `k`. -/
def lineSeries (rand : ℕ → ℚ) (k : ℕ) : List LineSample × ℕ :=
  ((List.range 18).map (fun i => { name := i, v := jsRound (30 + rand (k + i) * 60) }), k + 18)

/-- The part of the state of `Hero` behind `line`: the cell of the memoised
series and the number of calls of `Math.random()` made so far. -/
structure State where
  line : Option (List LineSample)
  draws : ℕ

/-- The part of one render of `Hero` that produces `line`. -/
def render (rand : ℕ → ℚ) (s : State) : State × List LineSample :=
  let (line, k1) := useMemo s.line (lineSeries rand) s.draws
  ({ s with line := some line, draws := k1 }, line)

/-- The instance before its first render. -/
def initial (k : ℕ) : State := { line := none, draws := k }

end Hero

/-! ## The cursor glow (`CursorGlow`, lines 1215-1246) -/

namespace CursorGlow

/-- The result of `el.getBoundingClientRect()`, as far as it is read. -/
structure Rect where
  left : JSNum
  top : JSNum
  width : JSNum
  height : JSNum

/-- The fields of a mouse event that are read. -/
structure MouseEvent where
  clientX : JSNum
  clientY : JSNum

/-- The state of one instance: the custom properties `--x` and `--y` of the
element, as percentages (absent until set), and whether `onMove` is a listener
of `mousemove` on the window. -/
structure State where
  x : Option JSNum
  y : Option JSNum
  subscribed : Bool
  cleanup : Bool
  mounted : Bool

/-- Lines 1226-1227: the two percentages computed by `onMove`. -/
def percent (e : MouseEvent) (r : Rect) : JSNum × JSNum :=
  (JSNum.mul (JSNum.div (JSNum.sub e.clientX r.left) r.width) (fin 100),
   JSNum.mul (JSNum.div (JSNum.sub e.clientY r.top) r.height) (fin 100))

/-- The listener `onMove` (lines 1224-1231); `r` is the bounding box of the
element when the event is handled. -/
def onMove (s : State) (e : MouseEvent) (r : Rect) : State :=
  { s with x := some (percent e r).1, y := some (percent e r).2 }

/-- The body of the effect (lines 1219-1233); `el` tells whether `ref.current`
is set. -/
def effect (s : State) (reduce el : Bool) : State :=
  if reduce then { s with cleanup := false }
  else if !el then { s with cleanup := false }
  else { s with subscribed := true, cleanup := true }

/-- The cleanup React holds for the last effect run, if there is one. -/
def runCleanup (s : State) : State :=
  if s.cleanup then { s with subscribed := false, cleanup := false } else s

/-- The instance before its first effect. -/
def initial : State :=
  { x := none, y := none, subscribed := false, cleanup := false, mounted := true }

/-- The first commit: the element is rendered, so `ref.current` is set. -/
def mount (reduce : Bool) : State := effect initial reduce true

/-- What can happen to an instance. -/
inductive Event where
  /-- A `mousemove` on the window; `r` is the bounding box of the element at
  that time. -/
  | mousemove (e : MouseEvent) (r : Rect)
  /-- A render with a changed reduced-motion flag. -/
  | update (reduce : Bool)
  /-- The component is unmounted. -/
  | unmount

/-- One event on an instance. -/
def step (s : State) : Event → State
  | Event.mousemove e r => if s.subscribed then onMove s e r else s
  | Event.update reduce => if s.mounted then effect (runCleanup s) reduce true else s
  | Event.unmount => if s.mounted then { runCleanup s with mounted := false } else s

/-- A sequence of events, oldest first. -/
def steps (s : State) (es : List Event) : State := es.foldl step s

/-- The coordinate the gradient uses (lines 1240-1244):
`var(--x, 50%)` and `var(--y, 30%)`. -/
def effective (s : State) : JSNum × JSNum := (s.x.getD (fin 50), s.y.getD (fin 30))

end CursorGlow

/-! ## Arithmetic of the tick on finite numbers -/

theorem sub_fin (a b : ℚ) : JSNum.sub (fin a) (fin b) = fin (a - b) := by
  simp [JSNum.sub, JSNum.neg, JSNum.add, sub_eq_add_neg]

theorem tickProgress_fin (start d t : ℚ) (hd : d ≠ 0) :
    tickProgress (fin start) (fin d) (fin t) = fin (min 1 ((t - start) / d)) := by
  simp [tickProgress, sub_fin, JSNum.div, JSNum.min, hd]

theorem easeOutCubic_fin (p : ℚ) : easeOutCubic (fin p) = fin (1 - (1 - p) ^ 3) := by
  simp [easeOutCubic, sub_fin, JSNum.pow]

theorem tickValue_eq (target p : JSNum) :
    tickValue target p = JSNum.round (JSNum.mul target (easeOutCubic p)) := by
  have h1 : JSNum.sub target countFrom = target := by
    cases target <;> simp [JSNum.sub, JSNum.neg, JSNum.add, countFrom]
  have h2 : ∀ x, JSNum.add countFrom x = x := by
    intro x; cases x <;> simp [JSNum.add, countFrom]
  rw [tickValue, h1, h2]

theorem tickValue_fin (target p : ℚ) :
    tickValue (fin target) (fin p)
      = fin ((⌊target * (1 - (1 - p) ^ 3) + 1 / 2⌋ : ℤ) : ℚ) := by
  simp [tickValue_eq, easeOutCubic_fin, JSNum.mul, JSNum.round]

theorem tickAgain_fin (p : ℚ) : tickAgain (fin p) = decide (p < 1) := by
  simp [tickAgain, JSNum.lt]

theorem tickAgain_progress (start d t : ℚ) (hd : 0 < d) :
    tickAgain (tickProgress (fin start) (fin d) (fin t)) = decide (t < start + d) := by
  rw [tickProgress_fin _ _ _ hd.ne', tickAgain_fin]
  congr 1
  rw [min_lt_iff, div_lt_one hd]
  apply propext
  constructor
  · rintro (h | h)
    · exact absurd h (lt_irrefl _)
    · linarith
  · intro h; right; linarith

theorem ease_mono (p q : ℚ) (h : p ≤ q) : 1 - (1 - p) ^ 3 ≤ 1 - (1 - q) ^ 3 := by
  nlinarith [sq_nonneg (1 - p), sq_nonneg (1 - q), sq_nonneg ((1 - p) + (1 - q)),
    mul_nonneg (sub_nonneg.mpr h) (sq_nonneg ((1 - p) + (1 - q))),
    mul_nonneg (sub_nonneg.mpr h) (sq_nonneg (1 - p)),
    mul_nonneg (sub_nonneg.mpr h) (sq_nonneg (1 - q))]

theorem ease_range (p : ℚ) (h0 : 0 ≤ p) (h1 : p ≤ 1) :
    0 ≤ 1 - (1 - p) ^ 3 ∧ 1 - (1 - p) ^ 3 ≤ 1 := by
  have a := ease_mono 0 p h0
  have b := ease_mono p 1 h1
  norm_num at a b
  constructor <;> linarith

/-! ## Frames on an idle and on an animating instance -/

theorem frame_idle (s : Hook) (t : JSNum) (h : s.pending = []) : frame s t = s := by
  cases s
  simp_all [frame]

theorem steps_anyFrames_idle (s : Hook) (ts : List JSNum) (h : s.pending = []) :
    steps s (anyFrames ts) = s := by
  induction ts with
  | nil => rfl
  | cons u us ih =>
    simpa [steps, anyFrames, step, frame_idle s u h] using ih

theorem steps_frames_idle (s : Hook) (ts : List ℚ) (h : s.pending = []) :
    steps s (frames ts) = s :=
  steps_anyFrames_idle s _ h

theorem steps_cons (s : Hook) (e : Event) (es : List Event) :
    steps s (e :: es) = steps (step s e) es := rfl

theorem steps_append (s : Hook) (es fs : List Event) :
    steps s (es ++ fs) = steps (steps s es) fs := by
  simp [steps, List.foldl_append]

theorem frame_live_again {s : Hook} {i : ℕ} {T d st : JSNum} (t : JSNum)
    (h : Live s i T d st) (hp : tickAgain (tickProgress st d t) = true) :
    Live (frame s t) i T d st ∧
    (frame s t).emitted = s.emitted ++ [tickValue T (tickProgress st d t)] ∧
    (frame s t).value = tickValue T (tickProgress st d t) ∧
    (frame s t).mounted = s.mounted := by
  obtain ⟨⟨h0, hpend, r, hr, hraf, rfl, rfl, rfl⟩, hc⟩ := h
  have hf : frame s t = setRaf (requestAnimationFrame
      (setValue { s with pending := [] } (tickValue r.target (tickProgress r.start r.durationMs t))) i).1
      i (s.frameId + 1) := by
    simp [frame, hpend, tick, hr, hp, setValue, requestAnimationFrame]
  rw [hf]
  refine ⟨⟨⟨s.frameId + 1, ?_, ?_⟩, ?_⟩, ?_, ?_, ?_⟩
  · simp [setRaf, requestAnimationFrame, setValue]
  · refine ⟨{ r with raf := s.frameId + 1 }, ?_, rfl, rfl, rfl, rfl⟩
    simp [setRaf, requestAnimationFrame, setValue, hr]
  · simpa [setRaf, requestAnimationFrame, setValue] using hc
  · simp [setRaf, requestAnimationFrame, setValue]
  · simp [setRaf, requestAnimationFrame, setValue]
  · simp [setRaf, requestAnimationFrame, setValue]

theorem frame_live_done {s : Hook} {i : ℕ} {T d st : JSNum} (t : JSNum)
    (h : Live s i T d st) (hp : tickAgain (tickProgress st d t) = false) :
    (frame s t).pending = [] ∧
    (frame s t).emitted = s.emitted ++ [tickValue T (tickProgress st d t)] ∧
    (frame s t).value = tickValue T (tickProgress st d t) ∧
    (frame s t).frameId = s.frameId := by
  obtain ⟨⟨h0, hpend, r, hr, hraf, rfl, rfl, rfl⟩, hc⟩ := h
  have hf : frame s t =
      setValue { s with pending := [] } (tickValue r.target (tickProgress r.start r.durationMs t)) := by
    simp [frame, hpend, tick, hr, hp, setValue]
  rw [hf]
  simp [setValue]

theorem effect_live (s : Hook) (T d now : JSNum) (h : s.pending = []) :
    Live (effect s T d true false now) s.runs.length T d now ∧
    (effect s T d true false now).emitted = s.emitted ∧
    (effect s T d true false now).value = s.value := by
  refine ⟨⟨⟨s.frameId + 1, ?_, ?_⟩, ?_⟩, ?_, ?_⟩
  · simp [effect, setRaf, requestAnimationFrame, h]
  · refine ⟨{ target := T, durationMs := d, start := now, raf := s.frameId + 1 }, ?_,
      rfl, rfl, rfl, rfl⟩
    simp [effect, setRaf, requestAnimationFrame]
  · simp [effect, setRaf, requestAnimationFrame]
  · simp [effect, setRaf, requestAnimationFrame]
  · simp [effect, setRaf, requestAnimationFrame]

theorem mount_live (id0 : ℕ) (T d now : JSNum) :
    Live (mount id0 T d true false now) 0 T d now ∧
    (mount id0 T d true false now).emitted = [] ∧
    (mount id0 T d true false now).value = fin 0 :=
  effect_live (initial id0) T d now rfl

theorem steps_frames_live (T : JSNum) (start d : ℚ) (hd : 0 < d) (ts : List ℚ) :
    ∀ (s : Hook) (i : ℕ), Live s i T (fin d) (fin start) →
    (steps s (frames ts)).emitted = s.emitted ++ (ticked start d ts).map (valueAt T start d) ∧
    (steps s (frames ts)).value
      = (((ticked start d ts).map (valueAt T start d)).getLast?).getD s.value ∧
    ((∀ u ∈ ts, u < start + d) → Live (steps s (frames ts)) i T (fin d) (fin start)) ∧
    ((∃ u ∈ ts, start + d ≤ u) → (steps s (frames ts)).pending = []) := by
  induction ts with
  | nil =>
    intro s i h
    simp [steps, frames, anyFrames, ticked, h]
  | cons u us ih =>
    intro s i h
    have hstep : steps s (frames (u :: us)) = steps (frame s (fin u)) (frames us) := rfl
    rw [hstep]
    by_cases hu : u < start + d
    · have hp : tickAgain (tickProgress (fin start) (fin d) (fin u)) = true := by
        rw [tickAgain_progress _ _ _ hd]; simpa using hu
      obtain ⟨hl, he, hv, _⟩ := frame_live_again (T := T) (fin u) h hp
      obtain ⟨ie, iv, il, ip⟩ := ih _ i hl
      refine ⟨?_, ?_, ?_, ?_⟩
      · rw [ie, he]; simp [ticked, hu, valueAt]
      · rw [iv, hv]
        simp only [ticked, hu, if_true, List.map_cons]
        cases hus : (ticked start d us).map (valueAt T start d) with
        | nil => simp [valueAt]
        | cons a l => simp [List.getLast?_eq_getLast]
      · intro hall
        exact il (fun v hv => hall v (List.mem_cons_of_mem _ hv))
      · rintro ⟨v, hv, hge⟩
        rcases List.mem_cons.mp hv with rfl | hv
        · exact absurd hu (not_lt.mpr hge)
        · exact ip ⟨v, hv, hge⟩
    · have hp : tickAgain (tickProgress (fin start) (fin d) (fin u)) = false := by
        rw [tickAgain_progress _ _ _ hd]; simpa using hu
      obtain ⟨hpend, he, hv, _⟩ := frame_live_done (fin u) h hp
      rw [steps_frames_idle _ _ hpend]
      refine ⟨?_, ?_, ?_, ?_⟩
      · rw [he]; simp [ticked, hu, valueAt]
      · rw [hv]; simp [ticked, hu, valueAt]
      · intro hall
        exact absurd (hall u (List.mem_cons_self _ _)) hu
      · intro _; exact hpend

theorem steps_frames_again (T d st : JSNum) (ts : List ℚ) :
    ∀ (s : Hook) (i : ℕ), Live s i T d st →
    (∀ u ∈ ts, tickAgain (tickProgress st d (fin u)) = true) →
    Live (steps s (frames ts)) i T d st ∧
    (steps s (frames ts)).emitted
      = s.emitted ++ ts.map (fun u => tickValue T (tickProgress st d (fin u))) := by
  induction ts with
  | nil =>
    intro s i h _
    simp [steps, frames, anyFrames, h]
  | cons u us ih =>
    intro s i h hall
    have hstep : steps s (frames (u :: us)) = steps (frame s (fin u)) (frames us) := rfl
    obtain ⟨hl, he, _, _⟩ := frame_live_again (fin u) h (hall u (List.mem_cons_self _ _))
    obtain ⟨il, ie⟩ := ih _ i hl (fun v hv => hall v (List.mem_cons_of_mem _ hv))
    rw [hstep]
    exact ⟨il, by rw [ie, he]; simp⟩

/-! ## The values of a run with an integer target -/

theorem valueAt_int (T : ℤ) (start d u : ℚ) (hd : d ≠ 0) :
    valueAt (fin T) start d u = fin (valueInt T start d u) := by
  rw [valueAt, tickProgress_fin _ _ _ hd, tickValue_fin, valueInt]

theorem progress_mono (start d u v : ℚ) (hd : 0 < d) (h : u ≤ v) :
    min 1 ((u - start) / d) ≤ min 1 ((v - start) / d) :=
  min_le_min le_rfl (div_le_div_of_nonneg_right (by linarith) hd.le)

theorem valueInt_mono (T : ℤ) (start d u v : ℚ) (hT : 0 ≤ T) (hd : 0 < d) (h : u ≤ v) :
    valueInt T start d u ≤ valueInt T start d v := by
  have hT' : (0 : ℚ) ≤ T := by exact_mod_cast hT
  have he := ease_mono _ _ (progress_mono start d u v hd h)
  exact Int.floor_mono (add_le_add_right (mul_le_mul_of_nonneg_left he hT') _)

theorem valueInt_final (T : ℤ) (start d u : ℚ) (hd : 0 < d) (h : start + d ≤ u) :
    valueInt T start d u = T := by
  have h1 : (1 : ℚ) ≤ (u - start) / d := by
    rw [le_div_iff₀ hd]; linarith
  rw [valueInt, min_eq_left h1, Int.floor_eq_iff]
  constructor <;> norm_num

theorem valueInt_start (T : ℤ) (start d : ℚ) : valueInt T start d start = 0 := by
  rw [valueInt]
  have h0 : min (1 : ℚ) ((start - start) / d) = 0 := by simp
  rw [h0]
  norm_num

theorem valueInt_range (T : ℤ) (start d u : ℚ) (hT : 0 ≤ T) (hd : 0 < d) (h : start ≤ u) :
    0 ≤ valueInt T start d u ∧ valueInt T start d u ≤ T := by
  constructor
  · have := valueInt_mono T start d start u hT hd h
    rwa [valueInt_start] at this
  · have := valueInt_mono T start d u (max u (start + d)) hT hd (le_max_left _ _)
    rwa [valueInt_final T start d _ hd (le_max_right _ _)] at this

theorem ticked_sublist (start d : ℚ) (ts : List ℚ) : (ticked start d ts).Sublist ts := by
  induction ts with
  | nil => exact List.Sublist.refl _
  | cons u us ih =>
    rw [ticked]
    split
    · exact ih.cons₂ u
    · exact (List.singleton_sublist.mpr (List.mem_cons_self _ _))

/-! ## The invariant of the frame callbacks -/

theorem live_runCleanup {s : Hook} {i : ℕ} {T d st : JSNum} (h : Live s i T d st) :
    (runCleanup s).pending = [] := by
  obtain ⟨⟨h0, hpend, r, hr, hraf, -⟩, hc⟩ := h
  simp [runCleanup, hc, hr, cancelAnimationFrame, hpend, hraf]

theorem idle_runCleanup {s : Hook} (h : s.pending = []) : (runCleanup s).pending = [] := by
  unfold runCleanup
  split
  · exact h
  · split <;> simp [cancelAnimationFrame, h]

theorem inv_runCleanup {s : Hook} (h : Inv s) : (runCleanup s).pending = [] := by
  rcases h.1 with h | ⟨i, T, d, st, h⟩
  · exact idle_runCleanup h
  · exact live_runCleanup h

theorem runCleanup_mounted (s : Hook) : (runCleanup s).mounted = s.mounted := by
  unfold runCleanup
  split
  · rfl
  · split <;> simp [cancelAnimationFrame]

theorem runCleanup_runs (s : Hook) : (runCleanup s).runs = s.runs := by
  unfold runCleanup
  split
  · rfl
  · split <;> simp [cancelAnimationFrame]

theorem effect_idle_cases (s : Hook) (T d : JSNum) (sw rd : Bool) (now : JSNum)
    (h : s.pending = []) :
    ((effect s T d sw rd now).pending = [] ∨
      Live (effect s T d sw rd now) s.runs.length T d now) ∧
    (effect s T d sw rd now).mounted = s.mounted := by
  cases sw <;> cases rd
  · simp [effect, h]
  · simp [effect, h]
  · exact ⟨Or.inr (effect_live s T d now h).1, by simp [effect, setRaf, requestAnimationFrame]⟩
  · simp [effect, h, setValue]

theorem inv_frame {s : Hook} (t : JSNum) (h : Inv s) : Inv (frame s t) := by
  rcases h.1 with hp | ⟨i, T, d, st, hl⟩
  · rw [frame_idle s t hp]; exact h
  · cases hag : tickAgain (tickProgress st d t)
    · have := frame_live_done t hl hag
      exact ⟨Or.inl this.1, fun _ => this.1⟩
    · have := frame_live_again t hl hag
      refine ⟨Or.inr ⟨i, T, d, st, this.1⟩, fun hm => ?_⟩
      rw [this.2.2.2] at hm
      obtain ⟨⟨h0, hpend, -⟩, -⟩ := hl
      have := h.2 hm
      simp [hpend] at this

theorem inv_step {s : Hook} (e : Event) (h : Inv s) : Inv (step s e) := by
  have hc := inv_runCleanup h
  cases e with
  | frame t => exact inv_frame t h
  | update T d sw rd now =>
    by_cases hm : s.mounted = true
    · obtain ⟨h1, h2⟩ := effect_idle_cases (runCleanup s) T d sw rd now hc
      simp only [step, hm, if_true]
      refine ⟨?_, fun hf => ?_⟩
      · rcases h1 with h1 | h1
        · exact Or.inl h1
        · exact Or.inr ⟨_, _, _, _, h1⟩
      · rw [h2, runCleanup_mounted, hm] at hf
        cases hf
    · simpa only [step, hm, if_false] using h
  | unmount =>
    by_cases hm : s.mounted = true
    · simp only [step, hm, if_true]
      exact ⟨Or.inl hc, fun _ => hc⟩
    · simpa only [step, hm, if_false] using h

theorem inv_mount (id0 : ℕ) (T d : JSNum) (sw rd : Bool) (now : JSNum) :
    Inv (mount id0 T d sw rd now) := by
  obtain ⟨h1, h2⟩ := effect_idle_cases (initial id0) T d sw rd now rfl
  refine ⟨?_, fun hf => ?_⟩
  · rcases h1 with h1 | h1
    · exact Or.inl h1
    · exact Or.inr ⟨_, _, _, _, h1⟩
  · rw [mount, h2] at hf
    cases hf

theorem inv_steps (es : List Event) : ∀ {s : Hook}, Inv s → Inv (steps s es) := by
  induction es with
  | nil => intro s h; exact h
  | cons e es ih => intro s h; exact ih (inv_step e h)

theorem inv_singlePending {s : Hook} (h : Inv s) : SinglePending s := by
  rcases h.1 with hp | ⟨i, T, d, st, ⟨⟨h0, hpend, r, hr, hraf, -⟩, hc⟩⟩
  · simp [SinglePending, hp]
  · refine ⟨by simp [hpend], fun c hcm => ?_⟩
    rw [hpend, List.mem_singleton] at hcm
    subst hcm
    exact ⟨hc, r, hr, hraf⟩

/-! ## The tick in rounded arithmetic -/

theorem lift_ideal (x : JSNum) : Rounding.ideal.lift x = x := by
  cases x <;> rfl

theorem ideal_IEEE : Rounding.ideal.IEEE where
  mono := fun a b h => by simpa [Rounding.ideal, JSNum.le] using h
  zero := rfl
  one := rfl
  idem := fun a b _ => rfl
  sub_ne := fun a b _ _ h => by simpa [Rounding.ideal, sub_eq_zero] using h
  cube_zero := by simp [Rounding.ideal]

theorem ideal_tickProgress (st d t : JSNum) :
    Rounding.ideal.tickProgress st d t = tickProgress st d t := by
  simp [Rounding.tickProgress, tickProgress, Rounding.div, Rounding.sub, lift_ideal]

theorem ideal_tickValue (T p : JSNum) : Rounding.ideal.tickValue T p = tickValue T p := by
  have h3 : ∀ x, Rounding.ideal.pow3 x = JSNum.pow x 3 := by
    intro x; cases x <;> simp [Rounding.pow3, Rounding.ideal, JSNum.pow]
  simp [Rounding.tickValue, tickValue, Rounding.easeOutCubic, easeOutCubic, Rounding.add,
    Rounding.mul, Rounding.sub, lift_ideal, h3]

theorem ideal_tick (s : Hook) (i : ℕ) (t : JSNum) : Rounding.ideal.tick s i t = tick s i t := by
  simp only [Rounding.tick, tick, ideal_tickProgress, ideal_tickValue]

theorem ideal_frame (s : Hook) (t : JSNum) : Rounding.ideal.frame s t = frame s t := by
  simp only [Rounding.frame, frame, ideal_tick]

theorem ideal_step (s : Hook) (e : Event) : Rounding.ideal.step s e = step s e := by
  cases e <;> simp [Rounding.step, step, ideal_frame]

theorem ideal_steps (s : Hook) (es : List Event) : Rounding.ideal.steps s es = steps s es := by
  have h : Rounding.ideal.step = step := by
    funext s e; exact ideal_step s e
  simp [Rounding.steps, steps, h]

theorem rnd_of_le {R : Rounding} (hR : R.IEEE) {a b c : ℚ} (hc : R.rnd a = fin c)
    (h : a ≤ b) : (∃ y, R.rnd b = fin y ∧ c ≤ y) ∨ R.rnd b = pinf := by
  have hm := hR.mono a b h
  rw [hc] at hm
  cases hb : R.rnd b <;> simp_all [JSNum.le]

theorem rnd_of_ge {R : Rounding} (hR : R.IEEE) {a b c : ℚ} (hc : R.rnd b = fin c)
    (h : a ≤ b) : (∃ y, R.rnd a = fin y ∧ y ≤ c) ∨ R.rnd a = ninf := by
  have hm := hR.mono a b h
  rw [hc] at hm
  cases ha : R.rnd a <;> simp_all [JSNum.le]

theorem rnd_ne_nan {R : Rounding} (hR : R.IEEE) (a : ℚ) : R.rnd a ≠ nan := by
  have hm := hR.mono a a le_rfl
  intro h
  rw [h] at hm
  simp [JSNum.le] at hm

theorem lift_ne_nan {R : Rounding} (hR : R.IEEE) (x : JSNum) (h : x ≠ nan) :
    R.lift x ≠ nan := by
  cases x with
  | fin q => exact rnd_ne_nan hR q
  | pinf => simp [Rounding.lift]
  | ninf => simp [Rounding.lift]
  | nan => exact absurd rfl h

theorem sub_rnd (R : Rounding) (a b : ℚ) : R.sub (fin a) (fin b) = R.rnd (a - b) := by
  simp [Rounding.sub, sub_fin, Rounding.lift]

theorem quotient_ne_nan {R : Rounding} (hR : R.IEEE) (start d t : ℚ) (hd : d ≠ 0) :
    R.div (R.sub (fin t) (fin start)) (fin d) ≠ nan := by
  rw [sub_rnd]
  apply lift_ne_nan hR
  have h0 := rnd_ne_nan hR (t - start)
  cases hx : R.rnd (t - start) with
  | fin x => simp [JSNum.div, hd]
  | pinf => simp [JSNum.div]; split <;> simp
  | ninf => simp [JSNum.div]; split <;> simp
  | nan => exact absurd hx h0

theorem min_one_le (q : JSNum) (h : q ≠ nan) : JSNum.le (JSNum.min (fin 1) q) (fin 1) = true := by
  cases q with
  | fin y => simp [JSNum.min, JSNum.le]
  | pinf => simp [JSNum.min, JSNum.le]
  | ninf => simp [JSNum.min, JSNum.le]
  | nan => exact absurd rfl h

theorem min_one_clamp (q : JSNum) (h : q ≠ nan) :
    JSNum.min (fin 1) q = specClamp q ↔ JSNum.le (fin 0) q = true := by
  cases q with
  | fin y =>
    simp only [specClamp, JSNum.min, JSNum.max, JSNum.le, JSNum.fin.injEq, decide_eq_true_eq]
    constructor
    · intro h1
      have h0 : (0 : ℚ) ≤ min 1 y := by rw [h1]; exact le_max_left _ _
      exact (le_min_iff.mp h0).2
    · intro h1
      exact (max_eq_right (le_min zero_le_one h1)).symm
  | pinf => simp [specClamp, JSNum.min, JSNum.max, JSNum.le]
  | ninf => simp [specClamp, JSNum.min, JSNum.max, JSNum.le]
  | nan => exact absurd rfl h

theorem quotient_nonneg {R : Rounding} (hR : R.IEEE) (start d t : ℚ) (hd : 0 < d)
    (h : start ≤ t) : JSNum.le (fin 0) (R.div (R.sub (fin t) (fin start)) (fin d)) = true := by
  rw [sub_rnd]
  rcases rnd_of_le hR hR.zero (show (0 : ℚ) ≤ t - start by linarith) with ⟨x, hx, h0x⟩ | hx
  · rw [hx]
    have e : R.div (fin x) (fin d) = R.rnd (x / d) := by
      simp [Rounding.div, JSNum.div, hd.ne', Rounding.lift]
    rw [e]
    rcases rnd_of_le hR hR.zero (div_nonneg h0x hd.le) with ⟨y, hy, h0y⟩ | hy
    · rw [hy]; simpa [JSNum.le] using h0y
    · rw [hy]; rfl
  · rw [hx]
    simp [Rounding.div, JSNum.div, hd.le, Rounding.lift, JSNum.le]

theorem min_one_lt (q : JSNum) (h : JSNum.lt q (fin 1) = true) :
    tickAgain (JSNum.min (fin 1) q) = true := by
  cases q with
  | fin y =>
    simp only [JSNum.lt, decide_eq_true_eq] at h
    simp [tickAgain, JSNum.min, JSNum.lt, h]
  | pinf => simp [JSNum.lt] at h
  | ninf => simp [tickAgain, JSNum.min, JSNum.lt]
  | nan => simp [JSNum.lt] at h

theorem rnd_div_nonpos {R : Rounding} (hR : R.IEEE) (x d : ℚ) (hd : d ≠ 0) (h : x / d ≤ 0) :
    JSNum.lt (R.div (fin x) (fin d)) (fin 1) = true := by
  have e : R.div (fin x) (fin d) = R.rnd (x / d) := by
    simp [Rounding.div, JSNum.div, hd, Rounding.lift]
  rw [e]
  rcases rnd_of_ge hR hR.zero h with ⟨y, hy, hy0⟩ | hy
  · rw [hy]
    have : y < 1 := by linarith
    simpa [JSNum.lt] using this
  · rw [hy]; rfl

theorem progress_before {R : Rounding} (hR : R.IEEE) (start d t : ℚ) (hd : 0 < d)
    (h : t ≤ start) : tickAgain (R.tickProgress (fin start) (fin d) (fin t)) = true := by
  rw [Rounding.tickProgress, sub_rnd]
  apply min_one_lt
  rcases rnd_of_ge hR hR.zero (show t - start ≤ 0 by linarith) with ⟨x, hx, hx0⟩ | hx
  · rw [hx]
    exact rnd_div_nonpos hR x d hd.ne' (div_nonpos_of_nonpos_of_nonneg hx0 hd.le)
  · rw [hx]
    simp [Rounding.div, JSNum.div, hd.le, Rounding.lift, JSNum.lt]

theorem progress_negative {R : Rounding} (hR : R.IEEE) (start d t : ℚ) (hd : d < 0)
    (h : start ≤ t) : tickAgain (R.tickProgress (fin start) (fin d) (fin t)) = true := by
  rw [Rounding.tickProgress, sub_rnd]
  apply min_one_lt
  rcases rnd_of_le hR hR.zero (show (0 : ℚ) ≤ t - start by linarith) with ⟨x, hx, hx0⟩ | hx
  · rw [hx]
    exact rnd_div_nonpos hR x d hd.ne (div_nonpos_of_nonneg_of_nonpos hx0 hd.le)
  · rw [hx]
    simp [Rounding.div, JSNum.div, not_le.mpr hd, Rounding.lift, JSNum.lt]

theorem progress_done {R : Rounding} (hR : R.IEEE) (start d t : ℚ) (hdr : R.rnd d = fin d)
    (hd : 0 < d) (h : start + d ≤ t) :
    R.tickProgress (fin start) (fin d) (fin t) = fin 1 := by
  rw [Rounding.tickProgress, sub_rnd]
  rcases rnd_of_le hR hdr (show d ≤ t - start by linarith) with ⟨x, hx, hdx⟩ | hx
  · rw [hx]
    have e : R.div (fin x) (fin d) = R.rnd (x / d) := by
      simp [Rounding.div, JSNum.div, hd.ne', Rounding.lift]
    rw [e]
    have h1 : (1 : ℚ) ≤ x / d := by rw [le_div_iff₀ hd]; linarith
    rcases rnd_of_le hR hR.one h1 with ⟨y, hy, h1y⟩ | hy
    · rw [hy]; simp [JSNum.min, h1y]
    · rw [hy]; rfl
  · rw [hx]
    simp [Rounding.div, JSNum.div, hd.le, Rounding.lift, JSNum.min]

theorem progress_zero_after {R : Rounding} (hR : R.IEEE) (start t : ℚ)
    (hs : R.rnd start = fin start) (ht : R.rnd t = fin t) (h : start < t) :
    R.tickProgress (fin start) (fin 0) (fin t) = fin 1 := by
  rw [Rounding.tickProgress, sub_rnd]
  have hne := hR.sub_ne t start ht hs h.ne'
  rcases rnd_of_le hR hR.zero (show (0 : ℚ) ≤ t - start by linarith) with ⟨x, hx, hx0⟩ | hx
  · rw [hx] at hne ⊢
    have hx1 : x ≠ 0 := fun e => hne (by rw [e])
    have hx2 : 0 < x := lt_of_le_of_ne hx0 (Ne.symm hx1)
    simp [Rounding.div, JSNum.div, JSNum.signedInf, hx1, hx2, Rounding.lift, JSNum.min]
  · rw [hx]
    simp [Rounding.div, JSNum.div, Rounding.lift, JSNum.min]

theorem progress_zero_at {R : Rounding} (hR : R.IEEE) (start : ℚ) :
    R.tickProgress (fin start) (fin 0) (fin start) = nan := by
  rw [Rounding.tickProgress, sub_rnd, sub_self, hR.zero]
  simp [Rounding.div, JSNum.div, Rounding.lift, JSNum.min]

theorem progress_le_one {R : Rounding} (hR : R.IEEE) (start d t : ℚ) (hd : d ≠ 0) :
    JSNum.le (R.tickProgress (fin start) (fin d) (fin t)) (fin 1) = true :=
  min_one_le _ (quotient_ne_nan hR start d t hd)

theorem progress_stop {R : Rounding} (hR : R.IEEE) (start d t : ℚ) (hd : d ≠ 0)
    (h : tickAgain (R.tickProgress (fin start) (fin d) (fin t)) = false) :
    R.tickProgress (fin start) (fin d) (fin t) = fin 1 := by
  have h1 := progress_le_one hR start d t hd
  cases hp : R.tickProgress (fin start) (fin d) (fin t) with
  | fin p =>
    rw [hp] at h h1
    simp only [tickAgain, JSNum.lt, decide_eq_false_iff_not, not_lt] at h
    simp only [JSNum.le, decide_eq_true_eq] at h1
    rw [le_antisymm h1 h]
  | pinf => rw [hp] at h1; simp [JSNum.le] at h1
  | ninf => rw [hp] at h; simp [tickAgain, JSNum.lt] at h
  | nan => rw [hp] at h1; simp [JSNum.le] at h1

theorem add_zero_lift {R : Rounding} (hR : R.IEEE) (z : JSNum) :
    R.add countFrom (R.lift z) = R.lift z := by
  cases z with
  | fin q =>
    cases hq : R.rnd q with
    | fin b => simp [Rounding.add, Rounding.lift, hq, countFrom, JSNum.add, hR.idem q b hq]
    | pinf => simp [Rounding.add, Rounding.lift, hq, countFrom, JSNum.add]
    | ninf => simp [Rounding.add, Rounding.lift, hq, countFrom, JSNum.add]
    | nan => simp [Rounding.add, Rounding.lift, hq, countFrom, JSNum.add]
  | pinf => simp [Rounding.add, Rounding.lift, countFrom, JSNum.add]
  | ninf => simp [Rounding.add, Rounding.lift, countFrom, JSNum.add]
  | nan => simp [Rounding.add, Rounding.lift, countFrom, JSNum.add]

theorem tickValue_mul {R : Rounding} (hR : R.IEEE) (T : ℚ) (hT : R.rnd T = fin T)
    (p : JSNum) :
    R.tickValue (fin T) p = JSNum.round (R.mul (fin T) (R.easeOutCubic p)) := by
  have h1 : R.sub (fin T) countFrom = fin T := by
    rw [countFrom, sub_rnd, sub_zero, hT]
  rw [Rounding.tickValue, h1, Rounding.mul, add_zero_lift hR]

theorem tickValue_one {R : Rounding} (hR : R.IEEE) (T : ℚ) (hT : R.rnd T = fin T) :
    R.tickValue (fin T) (fin 1) = JSNum.round (fin T) := by
  rw [tickValue_mul hR T hT]
  have e : R.easeOutCubic (fin 1) = fin 1 := by
    rw [Rounding.easeOutCubic, sub_rnd, sub_self, hR.zero]
    simp [Rounding.pow3, hR.cube_zero, sub_rnd, hR.one]
  rw [e]
  simp [Rounding.mul, JSNum.mul, Rounding.lift, hT]

theorem tickValue_of_nan (R : Rounding) (T : JSNum) : R.tickValue T nan = nan := by
  have h1 : ∀ x, JSNum.sub x nan = nan := by
    intro x; cases x <;> simp [JSNum.sub, JSNum.neg, JSNum.add]
  have h2 : ∀ x, JSNum.mul x nan = nan := by
    intro x; cases x <;> simp [JSNum.mul]
  have h3 : ∀ x, JSNum.add x nan = nan := by
    intro x; cases x <;> simp [JSNum.add]
  simp [Rounding.tickValue, Rounding.easeOutCubic, Rounding.sub, Rounding.mul, Rounding.add,
    Rounding.pow3, Rounding.lift, h1, h2, h3, JSNum.round]

/-! ## Frames in rounded arithmetic -/

theorem rframe_idle (R : Rounding) (s : Hook) (t : JSNum) (h : s.pending = []) :
    R.frame s t = s := by
  cases s
  simp_all [Rounding.frame]

theorem rsteps_idle (R : Rounding) (s : Hook) (ts : List JSNum) (h : s.pending = []) :
    R.steps s (anyFrames ts) = s := by
  induction ts with
  | nil => rfl
  | cons u us ih =>
    simpa [Rounding.steps, anyFrames, Rounding.step, rframe_idle R s u h] using ih

theorem rsteps_append (R : Rounding) (s : Hook) (es fs : List Event) :
    R.steps s (es ++ fs) = R.steps (R.steps s es) fs := by
  simp [Rounding.steps, List.foldl_append]

theorem rtick_value (R : Rounding) (s : Hook) (i : ℕ) (r : Run) (t : JSNum)
    (h : s.runs[i]? = some r) :
    (R.tick s i t).value = R.tickValue r.target (R.tickProgress r.start r.durationMs t) := by
  simp only [Rounding.tick, h]
  split <;> simp [setRaf, requestAnimationFrame, setValue]

theorem rtick_pending (R : Rounding) (s : Hook) (i : ℕ) (r : Run) (t : JSNum)
    (h : s.runs[i]? = some r) :
    (R.tick s i t).pending
      = (if tickAgain (R.tickProgress r.start r.durationMs t) = true
          then s.pending ++ [{ handle := s.frameId + 1, run := i }] else s.pending) ∧
    (R.tick s i t).frameId
      = (if tickAgain (R.tickProgress r.start r.durationMs t) = true
          then s.frameId + 1 else s.frameId) := by
  simp only [Rounding.tick, h]
  split <;> simp [setRaf, requestAnimationFrame, setValue]

theorem rframe_live_again (R : Rounding) {s : Hook} {i : ℕ} {T d st : JSNum} (t : JSNum)
    (h : Live s i T d st) (hp : tickAgain (R.tickProgress st d t) = true) :
    Live (R.frame s t) i T d st ∧
    (R.frame s t).emitted = s.emitted ++ [R.tickValue T (R.tickProgress st d t)] ∧
    (R.frame s t).value = R.tickValue T (R.tickProgress st d t) := by
  obtain ⟨⟨h0, hpend, r, hr, hraf, rfl, rfl, rfl⟩, hc⟩ := h
  have hf : R.frame s t = setRaf (requestAnimationFrame
      (setValue { s with pending := [] }
        (R.tickValue r.target (R.tickProgress r.start r.durationMs t))) i).1
      i (s.frameId + 1) := by
    simp [Rounding.frame, hpend, Rounding.tick, hr, hp, setValue, requestAnimationFrame]
  rw [hf]
  refine ⟨⟨⟨s.frameId + 1, ?_, ?_⟩, ?_⟩, ?_, ?_⟩
  · simp [setRaf, requestAnimationFrame, setValue]
  · refine ⟨{ r with raf := s.frameId + 1 }, ?_, rfl, rfl, rfl, rfl⟩
    simp [setRaf, requestAnimationFrame, setValue, hr]
  · simpa [setRaf, requestAnimationFrame, setValue] using hc
  · simp [setRaf, requestAnimationFrame, setValue]
  · simp [setRaf, requestAnimationFrame, setValue]

theorem rframe_live_done (R : Rounding) {s : Hook} {i : ℕ} {T d st : JSNum} (t : JSNum)
    (h : Live s i T d st) (hp : tickAgain (R.tickProgress st d t) = false) :
    (R.frame s t).pending = [] ∧
    (R.frame s t).emitted = s.emitted ++ [R.tickValue T (R.tickProgress st d t)] ∧
    (R.frame s t).value = R.tickValue T (R.tickProgress st d t) := by
  obtain ⟨⟨h0, hpend, r, hr, hraf, rfl, rfl, rfl⟩, hc⟩ := h
  have hf : R.frame s t = setValue { s with pending := [] }
      (R.tickValue r.target (R.tickProgress r.start r.durationMs t)) := by
    simp [Rounding.frame, hpend, Rounding.tick, hr, hp, setValue]
  rw [hf]
  simp [setValue]

theorem rsteps_frames_cases (R : Rounding) (T d st : JSNum) (ts : List ℚ) :
    ∀ (s : Hook) (i : ℕ), Live s i T d st →
    (Live (R.steps s (frames ts)) i T d st ∧
      (∀ u ∈ ts, tickAgain (R.tickProgress st d (fin u)) = true) ∧
      (R.steps s (frames ts)).emitted
        = s.emitted ++ ts.map (fun u => R.tickValue T (R.tickProgress st d (fin u)))) ∨
    ((R.steps s (frames ts)).pending = [] ∧
      ∃ u ∈ ts, tickAgain (R.tickProgress st d (fin u)) = false ∧
        (R.steps s (frames ts)).value = R.tickValue T (R.tickProgress st d (fin u)) ∧
        (R.steps s (frames ts)).emitted.getLast?
          = some (R.tickValue T (R.tickProgress st d (fin u)))) := by
  induction ts with
  | nil =>
    intro s i h
    left
    simp [Rounding.steps, frames, anyFrames, h]
  | cons u us ih =>
    intro s i h
    have hstep : R.steps s (frames (u :: us)) = R.steps (R.frame s (fin u)) (frames us) := rfl
    rw [hstep]
    cases hp : tickAgain (R.tickProgress st d (fin u)) with
    | true =>
      obtain ⟨hl, he, _⟩ := rframe_live_again R (fin u) h hp
      rcases ih _ i hl with ⟨il, ia, ie⟩ | ⟨ip, v, hv, hrest⟩
      · left
        refine ⟨il, ?_, ?_⟩
        · intro w hw
          rcases List.mem_cons.mp hw with rfl | hw
          · exact hp
          · exact ia w hw
        · rw [ie, he]; simp
      · right
        exact ⟨ip, v, List.mem_cons_of_mem _ hv, hrest⟩
    | false =>
      obtain ⟨hpend, he, hv⟩ := rframe_live_done R (fin u) h hp
      right
      have hidle : R.steps (R.frame s (fin u)) (frames us) = R.frame s (fin u) :=
        rsteps_idle R _ _ hpend
      rw [hidle]
      refine ⟨hpend, u, List.mem_cons_self _ _, hp, hv, ?_⟩
      rw [he]; simp

theorem round_eq_self_iff (T : ℚ) : JSNum.round (fin T) = fin T ↔ ∃ n : ℤ, T = n := by
  simp only [JSNum.round, JSNum.fin.injEq]
  constructor
  · intro h
    exact ⟨_, h.symm⟩
  · rintro ⟨n, rfl⟩
    have : ⌊(n : ℚ) + 1 / 2⌋ = n := by
      rw [Int.floor_eq_iff]
      constructor <;> norm_num
    rw [this]

theorem rsteps_final {R : Rounding} (hR : R.IEEE) (id0 : ℕ) (T : JSNum) (d start : ℚ)
    (ts : List ℚ) (t : ℚ) (hdr : R.rnd d = fin d) (hd : 0 < d) (ht : start + d ≤ t) :
    (R.steps (mount id0 T (fin d) true false (fin start)) (frames (ts ++ [t]))).pending = [] ∧
    (R.steps (mount id0 T (fin d) true false (fin start)) (frames (ts ++ [t]))).value
      = R.tickValue T (fin 1) ∧
    (R.steps (mount id0 T (fin d) true false (fin start)) (frames (ts ++ [t]))).emitted.getLast?
      = some (R.tickValue T (fin 1)) := by
  have hl := (mount_live id0 T (fin d) (fin start)).1
  have hpt := progress_done hR start d t hdr hd ht
  rcases rsteps_frames_cases R T (fin d) (fin start) (ts ++ [t]) _ 0 hl with
    ⟨_, ha, _⟩ | ⟨hp, u, _, hu, hv, he⟩
  · have := ha t (by simp)
    rw [hpt] at this
    simp [tickAgain, JSNum.lt] at this
  · rw [progress_stop hR start d u hd.ne' hu] at hv he
    exact ⟨hp, hv, he⟩

/-! ## The rounding of doubles has the properties used -/

theorem roundEven_int (n : ℤ) : roundEven (n : ℚ) = n := by
  simp [roundEven]

theorem roundEven_cases (m : ℚ) : roundEven m = ⌊m⌋ ∨ roundEven m = ⌊m⌋ + 1 := by
  unfold roundEven
  split_ifs <;> simp

theorem roundEven_mono {m n : ℚ} (h : m ≤ n) : roundEven m ≤ roundEven n := by
  have hf : ⌊m⌋ ≤ ⌊n⌋ := Int.floor_mono h
  rcases lt_or_eq_of_le hf with hlt | heq
  · have h1 : roundEven m ≤ ⌊m⌋ + 1 := by
      rcases roundEven_cases m with e | e <;> omega
    have h2 : ⌊n⌋ ≤ roundEven n := by
      rcases roundEven_cases n with e | e <;> omega
    omega
  · have hr : m - ⌊m⌋ ≤ n - ⌊n⌋ := by rw [heq]; linarith
    unfold roundEven
    rw [heq]
    split_ifs <;> first | omega | (exfalso; linarith)

theorem roundEven_nonneg {m : ℚ} (h : 0 ≤ m) : 0 ≤ roundEven m := by
  have := roundEven_mono h
  rwa [show ((0 : ℚ)) = ((0 : ℤ) : ℚ) by norm_num, roundEven_int] at this

theorem binade_ge (a : ℚ) : -1022 ≤ binade a := le_max_right _ _

theorem ulp_pos (e : ℤ) : (0 : ℚ) < 2 ^ e := zpow_pos (by norm_num) e

theorem lt_binade_top (a : ℚ) : a < 2 ^ (binade a + 1) := by
  have h1 : a < ((2 : ℕ) : ℚ) ^ (Int.log 2 a + 1) := Int.lt_zpow_succ_log_self (by norm_num) a
  have h2 : ((2 : ℕ) : ℚ) ^ (Int.log 2 a + 1) ≤ 2 ^ (binade a + 1) := by
    rw [Nat.cast_ofNat]
    exact zpow_le_zpow_right₀ (by norm_num) (by have := le_max_left (Int.log 2 a) (-1022); rw [binade]; omega)
  exact lt_of_lt_of_le h1 h2

theorem binade_bot_le (a : ℚ) (ha : 0 < a) (h : -1022 < binade a) : 2 ^ binade a ≤ a := by
  have he : binade a = Int.log 2 a := by
    rw [binade] at h ⊢
    rcases max_cases (Int.log 2 a) (-1022) with ⟨h1, _⟩ | ⟨h1, _⟩
    · exact h1
    · rw [h1] at h; exact absurd h (lt_irrefl _)
  rw [he]
  have := Int.zpow_log_le_self (b := 2) (r := a) (by norm_num) ha
  rwa [Nat.cast_ofNat] at this

theorem zpow_split (e : ℤ) : (2 : ℚ) ^ (e + 1) = 2 ^ 53 * 2 ^ (e - 52) := by
  have h : (2 : ℚ) ^ (53 : ℕ) = 2 ^ (53 : ℤ) := by norm_cast
  rw [h, ← zpow_add₀ (by norm_num : (2 : ℚ) ≠ 0)]
  congr 1; ring

theorem zpow_split_low (e : ℤ) : (2 : ℚ) ^ e = 2 ^ 52 * 2 ^ (e - 52) := by
  have h : (2 : ℚ) ^ (52 : ℕ) = 2 ^ (52 : ℤ) := by norm_cast
  rw [h, ← zpow_add₀ (by norm_num : (2 : ℚ) ≠ 0)]
  congr 1; ring

theorem roundEven_le_top (a : ℚ) : roundEven (a / 2 ^ (binade a - 52)) ≤ 2 ^ 53 := by
  have h1 := lt_binade_top a
  rw [zpow_split] at h1
  have h2 : a / 2 ^ (binade a - 52) ≤ ((2 ^ 53 : ℤ) : ℚ) := by
    rw [div_le_iff₀ (ulp_pos _)]
    push_cast
    exact h1.le
  have := roundEven_mono h2
  rwa [roundEven_int] at this

theorem nearest_nonneg {a : ℚ} (h : 0 ≤ a) : 0 ≤ nearest a := by
  rw [nearest]
  have h1 : 0 ≤ roundEven (a / 2 ^ (binade a - 52)) :=
    roundEven_nonneg (div_nonneg h (ulp_pos _).le)
  have h2 : (0 : ℚ) ≤ (roundEven (a / 2 ^ (binade a - 52)) : ℚ) := by exact_mod_cast h1
  exact mul_nonneg h2 (ulp_pos _).le

theorem nearest_zero : nearest 0 = 0 := by
  simp [nearest, roundEven]

theorem nearest_le_top (a : ℚ) : nearest a ≤ 2 ^ (binade a + 1) := by
  rw [nearest, zpow_split]
  have h := roundEven_le_top a
  have h2 : (roundEven (a / 2 ^ (binade a - 52)) : ℚ) ≤ 2 ^ 53 := by exact_mod_cast h
  exact mul_le_mul_of_nonneg_right h2 (ulp_pos _).le

theorem nearest_ge_bot (a : ℚ) (ha : 0 < a) (h : -1022 < binade a) :
    2 ^ binade a ≤ nearest a := by
  have h1 := binade_bot_le a ha h
  rw [nearest]
  nth_rewrite 1 [zpow_split_low]
  have h2 : ((2 ^ 52 : ℤ) : ℚ) ≤ a / 2 ^ (binade a - 52) := by
    have e52 : ((2 ^ 52 : ℤ) : ℚ) = 2 ^ 52 := by norm_cast
    rw [le_div_iff₀ (ulp_pos _), e52, ← zpow_split_low]
    exact h1
  have h3 := roundEven_mono h2
  rw [roundEven_int] at h3
  have h4 : ((2 : ℚ) ^ 52) ≤ (roundEven (a / 2 ^ (binade a - 52)) : ℚ) := by exact_mod_cast h3
  exact mul_le_mul_of_nonneg_right h4 (ulp_pos _).le

theorem binade_mono {a b : ℚ} (ha : 0 < a) (h : a ≤ b) : binade a ≤ binade b :=
  max_le_max (Int.log_mono_right ha h) le_rfl

theorem nearest_mono {a b : ℚ} (ha : 0 ≤ a) (h : a ≤ b) : nearest a ≤ nearest b := by
  rcases eq_or_lt_of_le ha with h0 | hpos
  · rw [← h0, nearest_zero]
    exact nearest_nonneg (le_trans ha h)
  · have hb : 0 < b := lt_of_lt_of_le hpos h
    rcases eq_or_lt_of_le (binade_mono hpos h) with he | hlt
    · rw [nearest, nearest, he]
      have h1 : a / 2 ^ (binade b - 52) ≤ b / 2 ^ (binade b - 52) :=
        div_le_div_of_nonneg_right h (ulp_pos _).le
      have h2 := roundEven_mono h1
      have h3 : (roundEven (a / 2 ^ (binade b - 52)) : ℚ)
          ≤ (roundEven (b / 2 ^ (binade b - 52)) : ℚ) := by exact_mod_cast h2
      exact mul_le_mul_of_nonneg_right h3 (ulp_pos _).le
    · have h1 := nearest_le_top a
      have h2 := nearest_ge_bot b hb (lt_of_le_of_lt (binade_ge a) hlt)
      have h3 : (2 : ℚ) ^ (binade a + 1) ≤ 2 ^ binade b :=
        zpow_le_zpow_right₀ (by norm_num) (by omega)
      linarith

theorem nearest_grid (n : ℕ) (e : ℤ) (he : -1022 ≤ e) (hn : n < 2 ^ 53) :
    nearest ((n : ℚ) * 2 ^ (e - 52)) = (n : ℚ) * 2 ^ (e - 52) := by
  rcases Nat.eq_zero_or_pos n with h0 | hpos
  · rw [h0]; simp [nearest_zero]
  · have hb : (0 : ℚ) < (n : ℚ) * 2 ^ (e - 52) :=
      mul_pos (by exact_mod_cast hpos) (ulp_pos _)
    have hlt : (n : ℚ) * 2 ^ (e - 52) < ((2 : ℕ) : ℚ) ^ (e + 1) := by
      rw [Nat.cast_ofNat, zpow_split]
      exact mul_lt_mul_of_pos_right (by exact_mod_cast hn) (ulp_pos _)
    have hlog : Int.log 2 ((n : ℚ) * 2 ^ (e - 52)) < e + 1 :=
      (Int.lt_zpow_iff_log_lt (by norm_num) hb).mp hlt
    have hle : binade ((n : ℚ) * 2 ^ (e - 52)) ≤ e := by
      rw [binade]; exact max_le (by omega) he
    obtain ⟨k, hk⟩ : ∃ k : ℕ, e - binade ((n : ℚ) * 2 ^ (e - 52)) = k :=
      ⟨(e - binade ((n : ℚ) * 2 ^ (e - 52))).toNat, by omega⟩
    have hsplit : (2 : ℚ) ^ (e - 52)
        = 2 ^ k * 2 ^ (binade ((n : ℚ) * 2 ^ (e - 52)) - 52) := by
      have h : (2 : ℚ) ^ (k : ℕ) = 2 ^ (k : ℤ) := by norm_cast
      rw [h, ← zpow_add₀ (by norm_num : (2 : ℚ) ≠ 0)]
      congr 1; omega
    have hm : (n : ℚ) * 2 ^ (e - 52) / 2 ^ (binade ((n : ℚ) * 2 ^ (e - 52)) - 52)
        = (((n * 2 ^ k : ℕ) : ℤ) : ℚ) := by
      rw [div_eq_iff (ulp_pos _).ne']
      nth_rewrite 1 [hsplit]
      push_cast; ring
    rw [nearest, hm, roundEven_int]
    nth_rewrite 2 [hsplit]
    push_cast; ring

theorem nearest_form {a : ℚ} (ha : 0 ≤ a) :
    ∃ (n : ℕ) (e : ℤ), -1022 ≤ e ∧ n < 2 ^ 53 ∧ nearest a = (n : ℚ) * 2 ^ (e - 52) := by
  have h0 : 0 ≤ roundEven (a / 2 ^ (binade a - 52)) :=
    roundEven_nonneg (div_nonneg ha (ulp_pos _).le)
  have h1 := roundEven_le_top a
  obtain ⟨n, hn⟩ : ∃ n : ℕ, roundEven (a / 2 ^ (binade a - 52)) = n :=
    ⟨(roundEven (a / 2 ^ (binade a - 52))).toNat, by omega⟩
  rcases lt_or_eq_of_le h1 with hlt | heq
  · refine ⟨n, binade a, binade_ge a, ?_, ?_⟩
    · rw [hn] at hlt; exact_mod_cast hlt
    · rw [nearest, hn]; norm_cast
  · refine ⟨2 ^ 52, binade a + 1, by have := binade_ge a; omega, by norm_num, ?_⟩
    rw [nearest, heq]
    have : binade a + 1 - 52 = (binade a - 52) + 1 := by ring
    rw [this, zpow_add_one₀ (by norm_num : (2 : ℚ) ≠ 0)]
    push_cast; ring

theorem nearest_idem {a : ℚ} (ha : 0 ≤ a) : nearest (nearest a) = nearest a := by
  obtain ⟨n, e, he, hn, h⟩ := nearest_form ha
  rw [h]
  exact nearest_grid n e he hn

theorem rnd64_nonneg {q : ℚ} (h : 0 ≤ q) :
    rnd64 q = if (2 : ℚ) ^ 1024 ≤ nearest q then pinf else fin (nearest q) := by
  rw [rnd64, abs_of_nonneg h]
  by_cases ho : (2 : ℚ) ^ 1024 ≤ nearest q
  · have hq : 0 < q := by
      rcases eq_or_lt_of_le h with h0 | hpos
      · rw [← h0, nearest_zero] at ho
        norm_num at ho
      · exact hpos
    simp [ho, hq]
  · simp [ho, h]

theorem rnd64_neg {q : ℚ} (h : q < 0) :
    rnd64 q = if (2 : ℚ) ^ 1024 ≤ nearest (-q) then ninf else fin (-nearest (-q)) := by
  rw [rnd64, abs_of_neg h]
  simp [not_lt.mpr h.le, not_le.mpr h]

theorem rnd64_zero : rnd64 0 = fin 0 := by
  rw [rnd64_nonneg le_rfl, nearest_zero]
  norm_num

theorem nearest_one : nearest 1 = 1 := by
  have h := nearest_grid (2 ^ 52) 0 (by norm_num) (by norm_num)
  have e : ((2 ^ 52 : ℕ) : ℚ) * 2 ^ ((0 : ℤ) - 52) = 1 := by
    rw [Nat.cast_pow, Nat.cast_ofNat, ← zpow_natCast,
      ← zpow_add₀ (by norm_num : (2 : ℚ) ≠ 0)]
    norm_num
  rwa [e] at h

theorem rnd64_one : rnd64 1 = fin 1 := by
  rw [rnd64_nonneg zero_le_one, nearest_one]
  norm_num

theorem rnd64_mono (a b : ℚ) (h : a ≤ b) : JSNum.le (rnd64 a) (rnd64 b) = true := by
  rcases le_or_lt 0 a with ha | ha
  · have hb : 0 ≤ b := le_trans ha h
    have hn := nearest_mono ha h
    rw [rnd64_nonneg ha, rnd64_nonneg hb]
    split_ifs with h1 h2 h2
    · rfl
    · exact absurd (le_trans h1 hn) h2
    · rfl
    · simpa [JSNum.le] using hn
  · rcases le_or_lt 0 b with hb | hb
    · have h1 : 0 ≤ nearest (-a) := nearest_nonneg (by linarith)
      have h2 : 0 ≤ nearest b := nearest_nonneg hb
      rw [rnd64_neg ha, rnd64_nonneg hb]
      split_ifs
      · rfl
      · rfl
      · rfl
      · simp only [JSNum.le, decide_eq_true_eq]; linarith
    · have hn := nearest_mono (a := -b) (b := -a) (by linarith) (by linarith)
      rw [rnd64_neg ha, rnd64_neg hb]
      split_ifs with h1 h2 h2
      · rfl
      · rfl
      · exact absurd (le_trans h2 hn) h1
      · simp only [JSNum.le, decide_eq_true_eq]; linarith

theorem rnd64_idem (a b : ℚ) (h : rnd64 a = fin b) : rnd64 b = fin b := by
  rcases le_or_lt 0 a with ha | ha
  · rw [rnd64_nonneg ha] at h
    split_ifs at h with ho
    have hb : b = nearest a := by injection h with h; exact h.symm
    rw [hb, rnd64_nonneg (nearest_nonneg ha), nearest_idem ha, if_neg ho]
  · rw [rnd64_neg ha] at h
    split_ifs at h with ho
    have hb : b = -nearest (-a) := by injection h with h; exact h.symm
    have hnn : 0 ≤ nearest (-a) := nearest_nonneg (by linarith)
    rcases eq_or_lt_of_le hnn with h0 | hpos
    · rw [hb, ← h0]; simpa using rnd64_zero
    · have hneg : -nearest (-a) < 0 := by linarith
      rw [hb, rnd64_neg hneg, neg_neg, nearest_idem (by linarith), if_neg ho]

theorem rnd64_grid (a : ℚ) (h : rnd64 a = fin a) : ∃ z : ℤ, a = (z : ℚ) * 2 ^ (-1074 : ℤ) := by
  have key : ∀ x : ℚ, 0 ≤ x → ∃ z : ℤ, nearest x = (z : ℚ) * 2 ^ (-1074 : ℤ) := by
    intro x hx
    obtain ⟨n, e, he, _, hn⟩ := nearest_form hx
    obtain ⟨k, hk⟩ : ∃ k : ℕ, e + 1022 = k := ⟨(e + 1022).toNat, by omega⟩
    refine ⟨(n * 2 ^ k : ℕ), ?_⟩
    rw [hn]
    have hs : (2 : ℚ) ^ (e - 52) = 2 ^ k * 2 ^ (-1074 : ℤ) := by
      have h : (2 : ℚ) ^ (k : ℕ) = 2 ^ (k : ℤ) := by norm_cast
      rw [h, ← zpow_add₀ (by norm_num : (2 : ℚ) ≠ 0)]
      congr 1; omega
    rw [hs]; push_cast; ring
  rcases le_or_lt 0 a with ha | ha
  · rw [rnd64_nonneg ha] at h
    split_ifs at h
    obtain ⟨z, hz⟩ := key a ha
    injection h with h
    exact ⟨z, by rw [← h, hz]⟩
  · rw [rnd64_neg ha] at h
    split_ifs at h
    obtain ⟨z, hz⟩ := key (-a) (by linarith)
    injection h with h
    exact ⟨-z, by rw [← h, hz]; push_cast; ring⟩

theorem nearest_tiny : nearest (2 ^ (-1074 : ℤ)) = 2 ^ (-1074 : ℤ) := by
  have h := nearest_grid 1 (-1022) le_rfl (by norm_num)
  have e : ((1 : ℕ) : ℚ) * 2 ^ ((-1022 : ℤ) - 52) = 2 ^ (-1074 : ℤ) := by
    norm_num
  rwa [e] at h

theorem rnd64_sub_ne (a b : ℚ) (ha : rnd64 a = fin a) (hb : rnd64 b = fin b) (h : a ≠ b) :
    rnd64 (a - b) ≠ fin 0 := by
  obtain ⟨x, hx⟩ := rnd64_grid a ha
  obtain ⟨y, hy⟩ := rnd64_grid b hb
  have hxy : x ≠ y := fun e => h (by rw [hx, hy, e])
  have hd : a - b = ((x - y : ℤ) : ℚ) * 2 ^ (-1074 : ℤ) := by
    rw [hx, hy]; push_cast; ring
  have hbig : (2 : ℚ) ^ (-1074 : ℤ) ≤ |a - b| := by
    rw [hd, abs_mul, abs_of_pos (ulp_pos _)]
    have h1 : (1 : ℚ) ≤ |((x - y : ℤ) : ℚ)| := by
      have : (1 : ℤ) ≤ |x - y| := Int.one_le_abs (sub_ne_zero.mpr hxy)
      exact_mod_cast this
    calc (2 : ℚ) ^ (-1074 : ℤ) = 1 * 2 ^ (-1074 : ℤ) := by ring
      _ ≤ |((x - y : ℤ) : ℚ)| * 2 ^ (-1074 : ℤ) :=
        mul_le_mul_of_nonneg_right h1 (ulp_pos _).le
  have hn : 0 < nearest |a - b| := by
    have := nearest_mono (ulp_pos (-1074)).le hbig
    rw [nearest_tiny] at this
    exact lt_of_lt_of_le (ulp_pos _) this
  rcases le_or_lt 0 (a - b) with hs | hs
  · rw [abs_of_nonneg hs] at hn
    rw [rnd64_nonneg hs]
    split_ifs
    · simp
    · simp only [ne_eq, JSNum.fin.injEq]; exact hn.ne'
  · rw [abs_of_neg hs] at hn
    rw [rnd64_neg hs]
    split_ifs
    · simp
    · simp only [ne_eq, JSNum.fin.injEq]; linarith

theorem binary64_IEEE : Rounding.binary64.IEEE where
  mono := rnd64_mono
  zero := rnd64_zero
  one := rnd64_one
  idem := rnd64_idem
  sub_ne := rnd64_sub_ne
  cube_zero := by
    show rnd64 (0 ^ 3) = fin 0
    norm_num [rnd64_zero]

theorem mul_rnd (R : Rounding) (a b : ℚ) : R.mul (fin a) (fin b) = R.rnd (a * b) := by
  simp [Rounding.mul, JSNum.mul, Rounding.lift]

theorem binary64_rnd (q : ℚ) : Rounding.binary64.rnd q = rnd64 q := rfl

theorem roundEven_near (m : ℚ) (n : ℤ) (h : |m - n| < 1 / 2) : roundEven m = n := by
  rw [abs_lt] at h
  obtain ⟨h1, h2⟩ := h
  rcases le_or_lt (n : ℚ) m with hle | hlt
  · have hf : ⌊m⌋ = n := by
      rw [Int.floor_eq_iff]; constructor <;> linarith
    rw [roundEven, hf, if_pos (by linarith)]
  · have hf : ⌊m⌋ = n - 1 := by
      rw [Int.floor_eq_iff]; push_cast; constructor <;> linarith
    rw [roundEven, hf, if_neg (by push_cast; linarith), if_pos (by push_cast; linarith)]
    ring

theorem nearest_eval (a : ℚ) (e n : ℤ) (he : -1022 ≤ e) (h1 : (2 : ℚ) ^ e ≤ a)
    (h2 : a < 2 ^ (e + 1)) (hn : |a / 2 ^ (e - 52) - n| < 1 / 2) :
    nearest a = (n : ℚ) * 2 ^ (e - 52) := by
  have ha : 0 < a := lt_of_lt_of_le (ulp_pos e) h1
  have hlog : Int.log 2 a = e := by
    have l1 : e ≤ Int.log 2 a :=
      (Int.zpow_le_iff_le_log (by norm_num) ha).mp (by rwa [Nat.cast_ofNat])
    have l2 : Int.log 2 a < e + 1 :=
      (Int.lt_zpow_iff_log_lt (by norm_num) ha).mp (by rwa [Nat.cast_ofNat])
    omega
  have hb : binade a = e := by rw [binade, hlog]; exact max_eq_left he
  rw [nearest, hb, roundEven_near _ n hn]

theorem rnd64_eval (a : ℚ) (e n : ℤ) (he : -1022 ≤ e) (h1 : (2 : ℚ) ^ e ≤ a)
    (h2 : a < 2 ^ (e + 1)) (hn : |a / 2 ^ (e - 52) - n| < 1 / 2)
    (ho : (n : ℚ) * 2 ^ (e - 52) < 2 ^ 1024) :
    rnd64 a = fin ((n : ℚ) * 2 ^ (e - 52)) ∧ rnd64 (-a) = fin (-((n : ℚ) * 2 ^ (e - 52))) := by
  have ha : 0 < a := lt_of_lt_of_le (ulp_pos e) h1
  have hv := nearest_eval a e n he h1 h2 hn
  constructor
  · rw [rnd64_nonneg ha.le, hv, if_neg (not_le.mpr ho)]
  · rw [rnd64_neg (by linarith), neg_neg, hv, if_neg (not_le.mpr ho)]

theorem rnd64_int (k : ℤ) (hk : |k| < 2 ^ 53) : rnd64 (k : ℚ) = fin (k : ℚ) := by
  have key : ∀ n : ℕ, n < 2 ^ 53 → nearest (n : ℚ) = (n : ℚ) := by
    intro n hn
    have h := nearest_grid n 52 (by norm_num) hn
    simpa using h
  have hbig : ∀ n : ℕ, n < 2 ^ 53 → ¬ ((2 : ℚ) ^ 1024 ≤ (n : ℚ)) := by
    intro n hn
    have h1 : (n : ℚ) < 2 ^ 53 := by exact_mod_cast hn
    have h2 : (2 : ℚ) ^ 53 ≤ 2 ^ 1024 := pow_le_pow_right₀ (by norm_num) (by norm_num)
    linarith
  rcases le_or_lt 0 k with h0 | h0
  · obtain ⟨n, rfl⟩ := Int.eq_ofNat_of_zero_le h0
    have hn : n < 2 ^ 53 := by
      rw [abs_of_nonneg h0] at hk; exact_mod_cast hk
    rw [Int.cast_natCast, rnd64_nonneg (by positivity), key n hn, if_neg (hbig n hn)]
  · obtain ⟨n, hn⟩ : ∃ n : ℕ, -k = n := ⟨(-k).toNat, by omega⟩
    have hk2 : k = -(n : ℤ) := by omega
    have hn2 : n < 2 ^ 53 := by
      rw [abs_of_neg h0, hn] at hk; exact_mod_cast hk
    have hq : (k : ℚ) < 0 := by exact_mod_cast h0
    rw [rnd64_neg hq, hk2]
    push_cast
    rw [neg_neg, key n hn2, if_neg (hbig n hn2)]

theorem binary64_int (k : ℤ) (hk : |k| < 2 ^ 53) :
    Rounding.binary64.rnd (k : ℚ) = fin (k : ℚ) := rnd64_int k hk

/-! ## Three runs of the tick in doubles -/

/-- An illustration with doubles: `start` is the double `100.3`, the duration
is `900` and the frame timestamp is the double `1000.3`, which is below
`start + 900`; the difference is rounded to `900`, so the progress is `1` and
the tick requests nothing. -/
theorem binary64_early_stop :
    rnd64 (1003 / 10) = fin (7057985041019699 / 70368744177664) ∧
    rnd64 (10003 / 10) = fin (4399365925057331 / 4398046511104) ∧
    (4399365925057331 / 4398046511104 : ℚ) < 7057985041019699 / 70368744177664 + 900 ∧
    Rounding.binary64.tickProgress (fin (7057985041019699 / 70368744177664)) (fin 900)
      (fin (4399365925057331 / 4398046511104)) = fin 1 ∧
    tickAgain (Rounding.binary64.tickProgress (fin (7057985041019699 / 70368744177664))
      (fin 900) (fin (4399365925057331 / 4398046511104))) = false ∧
    tickAgain (tickProgress (fin (7057985041019699 / 70368744177664))
      (fin 900) (fin (4399365925057331 / 4398046511104))) = true := by
  have e1 := (rnd64_eval (1003 / 10) 6 7057985041019699 (by norm_num) (by norm_num)
    (by norm_num) (by norm_num [abs_lt]) (by norm_num)).1
  have e2 := (rnd64_eval (10003 / 10) 9 8798731850114662 (by norm_num) (by norm_num)
    (by norm_num) (by norm_num [abs_lt]) (by norm_num)).1
  have e3 := (rnd64_eval (63331869759897597 / 70368744177664) 9 7916483719987200
    (by norm_num) (by norm_num) (by norm_num) (by norm_num [abs_lt]) (by norm_num)).1
  have hp : Rounding.binary64.tickProgress (fin (7057985041019699 / 70368744177664)) (fin 900)
      (fin (4399365925057331 / 4398046511104)) = fin 1 := by
    have hsub : (4399365925057331 / 4398046511104 : ℚ) - 7057985041019699 / 70368744177664
        = 63331869759897597 / 70368744177664 := by norm_num
    have h900 : ((7916483719987200 : ℤ) : ℚ) * 2 ^ ((9 : ℤ) - 52) = 900 := by norm_num
    rw [Rounding.tickProgress, sub_rnd]
    show JSNum.min (fin 1) (Rounding.binary64.div (rnd64 _) (fin 900)) = fin 1
    rw [hsub, e3, h900]
    show JSNum.min (fin 1) (Rounding.lift Rounding.binary64 (JSNum.div (fin 900) (fin 900)))
      = fin 1
    have hd : JSNum.div (fin 900) (fin 900) = fin 1 := by norm_num [JSNum.div]
    rw [hd]
    show JSNum.min (fin 1) (rnd64 1) = fin 1
    rw [rnd64_one]
    simp [JSNum.min]
  refine ⟨?_, ?_, by norm_num, hp, ?_, ?_⟩
  · rw [e1]; norm_num
  · rw [e2]; norm_num
  · rw [hp]; simp [tickAgain, JSNum.lt]
  · rw [tickProgress_fin _ _ _ (by norm_num), tickAgain_fin]
    norm_num

/-- An illustration with doubles: target `500`, start `1000`, duration `900`
and the frame timestamp `1090`.  The doubles give `p = 0.1` rounded, the eased
progress `0.2709999999999999` and the value `135`, where exact arithmetic gives
`136`. -/
theorem binary64_value_135 :
    Rounding.binary64.tickProgress (fin 1000) (fin 900) (fin 1090)
      = fin (3602879701896397 / 36028797018963968) ∧
    Rounding.binary64.easeOutCubic (fin (3602879701896397 / 36028797018963968))
      = fin (305118874754351 / 1125899906842624) ∧
    Rounding.binary64.tickValue (fin 500)
      (Rounding.binary64.tickProgress (fin 1000) (fin 900) (fin 1090)) = fin 135 ∧
    tickValue (fin 500) (tickProgress (fin 1000) (fin 900) (fin 1090)) = fin 136 := by
  have i500 : rnd64 500 = fin 500 := by
    have := rnd64_int 500 (by norm_num); simpa using this
  have i90 : rnd64 90 = fin 90 := by
    have := rnd64_int 90 (by norm_num); simpa using this
  have e1 : rnd64 (1 / 10) = fin (3602879701896397 / 36028797018963968) := by
    rw [(rnd64_eval (1 / 10) (-4) 7205759403792794 (by norm_num) (by norm_num)
      (by norm_num) (by norm_num [abs_lt]) (by norm_num)).1]
    norm_num
  have e2 : rnd64 (32425917317067571 / 36028797018963968)
      = fin (8106479329266893 / 9007199254740992) := by
    rw [(rnd64_eval (32425917317067571 / 36028797018963968) (-1) 8106479329266893
      (by norm_num) (by norm_num) (by norm_num) (by norm_num [abs_lt]) (by norm_num)).1]
    norm_num
  have e3 : rnd64 ((8106479329266893 / 9007199254740992) ^ 3)
      = fin (820781032088273 / 1125899906842624) := by
    rw [(rnd64_eval ((8106479329266893 / 9007199254740992) ^ 3) (-1) 6566248256706184
      (by norm_num) (by norm_num) (by norm_num) (by norm_num [abs_lt]) (by norm_num)).1]
    norm_num
  have e4 : rnd64 (305118874754351 / 1125899906842624)
      = fin (305118874754351 / 1125899906842624) := by
    rw [(rnd64_eval (305118874754351 / 1125899906842624) (-2) 4881901996069616
      (by norm_num) (by norm_num) (by norm_num) (by norm_num [abs_lt]) (by norm_num)).1]
    norm_num
  have e5 : rnd64 (500 * (305118874754351 / 1125899906842624))
      = fin (2383741209018367 / 17592186044416) := by
    rw [(rnd64_eval (500 * (305118874754351 / 1125899906842624)) 7 4767482418036734
      (by norm_num) (by norm_num) (by norm_num) (by norm_num [abs_lt]) (by norm_num)).1]
    norm_num
  have hp : Rounding.binary64.tickProgress (fin 1000) (fin 900) (fin 1090)
      = fin (3602879701896397 / 36028797018963968) := by
    rw [Rounding.tickProgress, sub_rnd]
    show JSNum.min (fin 1) (Rounding.binary64.div (rnd64 (1090 - 1000)) (fin 900)) = _
    have h90 : (1090 : ℚ) - 1000 = 90 := by norm_num
    rw [h90, i90]
    show JSNum.min (fin 1) (Rounding.lift Rounding.binary64 (JSNum.div (fin 90) (fin 900))) = _
    have hd : JSNum.div (fin 90) (fin 900) = fin (1 / 10) := by norm_num [JSNum.div]
    rw [hd]
    show JSNum.min (fin 1) (rnd64 (1 / 10)) = _
    rw [e1]
    norm_num [JSNum.min]
  have he : Rounding.binary64.easeOutCubic (fin (3602879701896397 / 36028797018963968))
      = fin (305118874754351 / 1125899906842624) := by
    rw [Rounding.easeOutCubic, sub_rnd]
    show Rounding.binary64.sub (fin 1) (Rounding.binary64.pow3 (rnd64 _)) = _
    have h1 : (1 : ℚ) - 3602879701896397 / 36028797018963968
        = 32425917317067571 / 36028797018963968 := by norm_num
    rw [h1, e2]
    show Rounding.binary64.sub (fin 1) (rnd64 ((8106479329266893 / 9007199254740992) ^ 3)) = _
    rw [e3, sub_rnd]
    show rnd64 _ = _
    have h2 : (1 : ℚ) - 820781032088273 / 1125899906842624
        = 305118874754351 / 1125899906842624 := by norm_num
    rw [h2, e4]
  refine ⟨hp, he, ?_, ?_⟩
  · rw [hp, tickValue_mul binary64_IEEE 500 i500, he]
    show JSNum.round (Rounding.lift Rounding.binary64 (JSNum.mul (fin 500) (fin _))) = _
    show JSNum.round (rnd64 (500 * (305118874754351 / 1125899906842624))) = _
    rw [e5]
    simp only [JSNum.round, JSNum.fin.injEq]
    have : ⌊(2383741209018367 / 17592186044416 : ℚ) + 1 / 2⌋ = 135 := by
      rw [Int.floor_eq_iff]; constructor <;> norm_num
    rw [this]; norm_num
  · rw [tickProgress_fin _ _ _ (by norm_num), tickValue_fin]
    have : ⌊(500 : ℚ) * (1 - (1 - min 1 ((1090 - 1000) / 900)) ^ 3) + 1 / 2⌋ = 136 := by
      rw [Int.floor_eq_iff]; constructor <;> norm_num
    rw [this]; norm_num

/-- An illustration with doubles: target `2^1023`, start `1000`, duration `-5`
and the frame timestamp `1010`.  The progress is `-2`, the eased progress is
`-26`, the product overflows and the value set is `-Infinity`. -/
theorem binary64_overflow :
    Rounding.binary64.tickProgress (fin 1000) (fin (-5)) (fin 1010) = fin (-2) ∧
    Rounding.binary64.easeOutCubic (fin (-2)) = fin (-26) ∧
    rnd64 (2 ^ 1023) = fin (2 ^ 1023) ∧
    Rounding.binary64.tickValue (fin (2 ^ 1023))
      (Rounding.binary64.tickProgress (fin 1000) (fin (-5)) (fin 1010)) = ninf := by
  have i : ∀ k : ℤ, |k| < 2 ^ 53 → rnd64 (k : ℚ) = fin (k : ℚ) := rnd64_int
  have i10 : rnd64 10 = fin 10 := by simpa using i 10 (by norm_num)
  have i2 : rnd64 (-2) = fin (-2) := by simpa using i (-2) (by norm_num)
  have i3 : rnd64 3 = fin 3 := by simpa using i 3 (by norm_num)
  have i27 : rnd64 27 = fin 27 := by simpa using i 27 (by norm_num)
  have i26 : rnd64 (-26) = fin (-26) := by simpa using i (-26) (by norm_num)
  have hT : rnd64 (2 ^ 1023) = fin (2 ^ 1023) := by
    have h := nearest_grid (2 ^ 52) 1023 (by norm_num) (by norm_num)
    have e : ((2 ^ 52 : ℕ) : ℚ) * 2 ^ ((1023 : ℤ) - 52) = 2 ^ 1023 := by
      rw [Nat.cast_pow, Nat.cast_ofNat, ← zpow_natCast,
        ← zpow_add₀ (by norm_num : (2 : ℚ) ≠ 0), ← zpow_natCast (2 : ℚ) 1023]
      congr 1
    rw [e] at h
    rw [rnd64_nonneg (by positivity), h, if_neg]
    exact not_le.mpr (pow_lt_pow_right₀ (by norm_num) (by norm_num))
  have hp : Rounding.binary64.tickProgress (fin 1000) (fin (-5)) (fin 1010) = fin (-2) := by
    rw [Rounding.tickProgress, sub_rnd]
    show JSNum.min (fin 1) (Rounding.binary64.div (rnd64 (1010 - 1000)) (fin (-5))) = _
    have h10 : (1010 : ℚ) - 1000 = 10 := by norm_num
    rw [h10, i10]
    show JSNum.min (fin 1) (Rounding.lift Rounding.binary64 (JSNum.div (fin 10) (fin (-5)))) = _
    have hd : JSNum.div (fin 10) (fin (-5)) = fin (-2) := by norm_num [JSNum.div]
    rw [hd]
    show JSNum.min (fin 1) (rnd64 (-2)) = _
    rw [i2]
    norm_num [JSNum.min]
  have he : Rounding.binary64.easeOutCubic (fin (-2)) = fin (-26) := by
    rw [Rounding.easeOutCubic, sub_rnd]
    show Rounding.binary64.sub (fin 1) (Rounding.binary64.pow3 (rnd64 _)) = _
    have h1 : (1 : ℚ) - -2 = 3 := by norm_num
    rw [h1, i3]
    show Rounding.binary64.sub (fin 1) (rnd64 (3 ^ 3)) = _
    have h2 : (3 : ℚ) ^ 3 = 27 := by norm_num
    rw [h2, i27, sub_rnd]
    show rnd64 _ = _
    have h3 : (1 : ℚ) - 27 = -26 := by norm_num
    rw [h3, i26]
  refine ⟨hp, he, hT, ?_⟩
  rw [hp, tickValue_mul binary64_IEEE _ hT, he, mul_rnd, binary64_rnd]
  have hneg : (2 : ℚ) ^ 1023 * -26 < 0 := by
    have : (0 : ℚ) < 2 ^ 1023 := by positivity
    linarith
  have hover : (2 : ℚ) ^ 1024 ≤ nearest (-(2 ^ 1023 * -26)) := by
    have h := nearest_grid (2 ^ 52) 1024 (by norm_num) (by norm_num)
    have e : ((2 ^ 52 : ℕ) : ℚ) * 2 ^ ((1024 : ℤ) - 52) = 2 ^ 1024 := by
      rw [Nat.cast_pow, Nat.cast_ofNat, ← zpow_natCast,
        ← zpow_add₀ (by norm_num : (2 : ℚ) ≠ 0), ← zpow_natCast (2 : ℚ) 1024]
      congr 1
    rw [e] at h
    have hm := nearest_mono (a := 2 ^ 1024) (b := -(2 ^ 1023 * -26)) (by positivity)
      (by
        have : (2 : ℚ) ^ 1024 = 2 * 2 ^ 1023 := by
          rw [show (1024 : ℕ) = 1023 + 1 from rfl, pow_succ']
        have hp : (0 : ℚ) < 2 ^ 1023 := by positivity
        linarith)
    rwa [h] at hm
  rw [rnd64_neg hneg, if_pos hover, JSNum.round]

/-! ## C1: the final value -/

/-- C1, counterexample: for the target `0.5` and the duration `900`, the tick
at `start + 900` has progress `1`, requests no further frame and sets the
value `1`, which is not the target. -/
theorem C1_final_value_counterexample :
    (0 : ℚ) ≤ 1 / 2 ∧ (0 : ℚ) < 900 ∧
    tickProgress (fin 1000) (fin 900) (fin 1900) = fin 1 ∧
    (steps (mount 0 (fin (1 / 2)) (fin 900) true false (fin 1000)) (frames [1900])).pending = [] ∧
    (steps (mount 0 (fin (1 / 2)) (fin 900) true false (fin 1000)) (frames [1900])).emitted
      = [fin 1] ∧
    (steps (mount 0 (fin (1 / 2)) (fin 900) true false (fin 1000)) (frames [1900])).value
      ≠ fin (1 / 2) := by
  refine ⟨by norm_num, by norm_num, ?_, ?_, ?_, ?_⟩
  · rw [tickProgress_fin _ _ _ (by norm_num)]; norm_num
  all_goals
    simp [steps, mount, frames, anyFrames, effect, initial, step, frame, tick, setRaf,
      requestAnimationFrame, setValue, tickProgress_fin, tickValue_fin, tickAgain_fin]
  all_goals norm_num

/-- C1, amended: for every finite target and every `durationMs > 0`, whatever
the rounding of the arithmetic, a tick that requests no further frame sets
`Math.round(target)`; in a run mounted at `start`, after any frames and then a
frame at or after `start + durationMs`, the value is `Math.round(target)`, it
is the last value emitted, and no callback is pending.  That value is exactly
the target when the target is an integer, and only then. -/
theorem C1_final_value_round (R : Rounding) (hR : R.IEEE) (id0 : ℕ) (T d start : ℚ)
    (ts : List ℚ) (t : ℚ) (hT : R.rnd T = fin T) (hdr : R.rnd d = fin d) (hd : 0 < d)
    (ht : start + d ≤ t) :
    (∀ u : ℚ, tickAgain (R.tickProgress (fin start) (fin d) (fin u)) = false →
      R.tickValue (fin T) (R.tickProgress (fin start) (fin d) (fin u))
        = JSNum.round (fin T)) ∧
    (R.steps (mount id0 (fin T) (fin d) true false (fin start)) (frames (ts ++ [t]))).value
      = JSNum.round (fin T) ∧
    (R.steps (mount id0 (fin T) (fin d) true false (fin start))
      (frames (ts ++ [t]))).emitted.getLast? = some (JSNum.round (fin T)) ∧
    (R.steps (mount id0 (fin T) (fin d) true false (fin start)) (frames (ts ++ [t]))).pending
      = [] ∧
    (JSNum.round (fin T) = fin T ↔ ∃ n : ℤ, T = n) ∧
    ((R.steps (mount id0 (fin T) (fin d) true false (fin start)) (frames (ts ++ [t]))).value
      = fin T ↔ ∃ n : ℤ, T = n) := by
  obtain ⟨h1, h2, h3⟩ := rsteps_final hR id0 (fin T) d start ts t hdr hd ht
  rw [tickValue_one hR T hT] at h2 h3
  refine ⟨fun u hu => ?_, h2, h3, h1, round_eq_self_iff T, ?_⟩
  · rw [progress_stop hR start d u hd.ne' hu, tickValue_one hR T hT]
  · rw [h2]; exact round_eq_self_iff T

/-- C1, witness of the amended claim: doubles, target `128`, duration `900`,
start `1000`, frames at `1016`, `1500` and then `1900`. -/
theorem C1_final_value_round_witness :
    (Rounding.binary64.steps (mount 0 (fin 128) (fin 900) true false (fin 1000))
      (frames ([1016, 1500] ++ [1900]))).value = JSNum.round (fin 128) :=
  (C1_final_value_round Rounding.binary64 binary64_IEEE 0 128 900 1000 [1016, 1500] 1900
    (by simpa using binary64_int 128 (by norm_num))
    (by simpa using binary64_int 900 (by norm_num)) (by norm_num) (by norm_num)).2.1

/-! ## C2: the progress and the value of a tick -/

theorem tick_value (s : Hook) (i : ℕ) (r : Run) (t : JSNum) (h : s.runs[i]? = some r) :
    (tick s i t).value = tickValue r.target (tickProgress r.start r.durationMs t) := by
  simp only [tick, h]
  split <;> simp [setRaf, requestAnimationFrame, setValue]

/-- C2, counterexample: with `start = 1000` and `durationMs = 900`, the tick
called with the earlier timestamp `700` uses the progress `-1/3`, which is
outside `[0,1]` and is not the clamped progress `0`; for the target `100` it
sets `-137`, where the clamped progress would give `0`. -/
theorem C2_progress_counterexample :
    tickProgress (fin 1000) (fin 900) (fin 700) = fin (-1 / 3) ∧
    ¬ ((0 : ℚ) ≤ -1 / 3) ∧
    specProgress 1000 900 700 = 0 ∧
    (frame (mount 0 (fin 100) (fin 900) true false (fin 1000)) (fin 700)).value
      = fin (-137) ∧
    tickValue (fin 100) (fin (specProgress 1000 900 700)) = fin 0 := by
  have hs : specProgress 1000 900 700 = 0 := by
    rw [specProgress]; norm_num
  refine ⟨?_, by norm_num, hs, ?_, ?_⟩
  · rw [tickProgress_fin _ _ _ (by norm_num)]; norm_num
  · simp [mount, effect, initial, frame, tick, setRaf,
      requestAnimationFrame, setValue, tickProgress_fin, tickValue_fin, tickAgain_fin]
    norm_num
  · rw [hs, tickValue_fin]; norm_num

/-- C2, amended: for finite `start`, `now`, `target` and a finite `durationMs`
other than zero, whatever the rounding of the arithmetic, the progress of a
tick is `p = Math.min(1, (now - start) / durationMs)`: it is a number and at
most `1`; it is the clamped progress `clamp((now - start) / durationMs, 0, 1)`
exactly when the computed quotient is at least `0`, which it is when
`durationMs > 0` and `now >= start`, where `p` lies in `[0, 1]`; and the value
the tick sets is `Math.round(target * (1 - Math.pow(1 - p, 3)))`, every
operation rounded by the machine. -/
theorem C2_progress_min (R : Rounding) (hR : R.IEEE) (T start d t : ℚ)
    (hT : R.rnd T = fin T) (hd : d ≠ 0) :
    R.tickProgress (fin start) (fin d) (fin t)
      = JSNum.min (fin 1) (R.div (R.sub (fin t) (fin start)) (fin d)) ∧
    JSNum.le (R.tickProgress (fin start) (fin d) (fin t)) (fin 1) = true ∧
    (R.tickProgress (fin start) (fin d) (fin t)
        = specClamp (R.div (R.sub (fin t) (fin start)) (fin d))
      ↔ JSNum.le (fin 0) (R.div (R.sub (fin t) (fin start)) (fin d)) = true) ∧
    (0 < d → start ≤ t →
      JSNum.le (fin 0) (R.tickProgress (fin start) (fin d) (fin t)) = true ∧
      R.tickProgress (fin start) (fin d) (fin t)
        = specClamp (R.div (R.sub (fin t) (fin start)) (fin d))) ∧
    (∀ (s : Hook) (i : ℕ) (r : Run), s.runs[i]? = some r → r.target = fin T →
      r.start = fin start → r.durationMs = fin d →
      (R.tick s i (fin t)).value
        = JSNum.round (R.mul (fin T) (R.sub (fin 1) (R.pow3 (R.sub (fin 1)
            (R.tickProgress (fin start) (fin d) (fin t))))))) := by
  have hq := quotient_ne_nan hR start d t hd
  refine ⟨rfl, progress_le_one hR start d t hd, min_one_clamp _ hq, ?_, ?_⟩
  · intro hpos hle
    have h0 := quotient_nonneg hR start d t hpos hle
    have hc := (min_one_clamp _ hq).mpr h0
    refine ⟨?_, hc⟩
    rw [Rounding.tickProgress]
    cases hx : R.div (R.sub (fin t) (fin start)) (fin d) with
    | fin y =>
      rw [hx] at h0
      simp only [JSNum.le, decide_eq_true_eq] at h0
      simp [JSNum.min, JSNum.le, h0]
    | pinf => simp [JSNum.min, JSNum.le]
    | ninf => rw [hx] at h0; simp [JSNum.le] at h0
    | nan => exact absurd hx hq
  · intro s i r hr h1 h2 h3
    rw [rtick_value R s i r _ hr, h1, h2, h3, tickValue_mul hR T hT]
    rfl

/-- C2, witness of the amended claim: doubles, target `100`, start `1000`,
duration `900`, timestamp `1300`. -/
theorem C2_progress_min_witness :
    JSNum.le (fin 0) (Rounding.binary64.tickProgress (fin 1000) (fin 900) (fin 1300)) = true ∧
    Rounding.binary64.tickProgress (fin 1000) (fin 900) (fin 1300)
      = specClamp (Rounding.binary64.div (Rounding.binary64.sub (fin 1300) (fin 1000))
          (fin 900)) :=
  (C2_progress_min Rounding.binary64 binary64_IEEE 100 1000 900 1300
    (by simpa using binary64_int 100 (by norm_num)) (by norm_num)).2.2.2.1
    (by norm_num) (by norm_num)

/-! ## C3: the exposed sequence -/

/-- C3, counterexample: target `100`, duration `900`, start `1000`; the one
frame with timestamp `700` makes the exposed sequence `0, -137`, which
decreases.  And for the target `0.5` the frame at `1900` makes it `0, 1`,
which exceeds the target. -/
theorem C3_monotone_counterexample :
    exposed (steps (mount 0 (fin 100) (fin 900) true false (fin 1000)) (frames [700]))
      = [fin 0, fin (-137)] ∧
    JSNum.le (fin 0) (fin (-137)) = false ∧
    exposed (steps (mount 0 (fin (1 / 2)) (fin 900) true false (fin 1000)) (frames [1900]))
      = [fin 0, fin 1] ∧
    JSNum.le (fin 1) (fin (1 / 2)) = false := by
  refine ⟨?_, ?_, ?_, ?_⟩
  all_goals
    simp [exposed, steps, mount, frames, anyFrames, effect, initial, step, frame, tick, setRaf,
      requestAnimationFrame, setValue, tickProgress_fin, tickValue_fin, tickAgain_fin, JSNum.le]
  all_goals norm_num

/-- C3, amended: for an integer target `T >= 0`, `durationMs > 0` and frames
whose timestamps are non-decreasing and not before `start`, the exposed
sequence (the initial `0`, then the values set) consists of integers, is
non-decreasing, stays within `[0, T]`, and once it equals `T` every later
value is `T`. -/
theorem C3_monotone_integer (id0 : ℕ) (T : ℤ) (d start : ℚ) (ts : List ℚ)
    (hT : 0 ≤ T) (hd : 0 < d) (hsorted : ts.Pairwise (· ≤ ·)) (hstart : ∀ u ∈ ts, start ≤ u) :
    ∃ vs : List ℤ,
      exposed (steps (mount id0 (fin T) (fin d) true false (fin start)) (frames ts))
        = vs.map (fun v : ℤ => fin (v : ℚ)) ∧
      vs.Pairwise (· ≤ ·) ∧ (∀ v ∈ vs, 0 ≤ v ∧ v ≤ T) ∧
      vs.Pairwise (fun a b => a = T → b = T) := by
  obtain ⟨hl, he, _⟩ := mount_live id0 (fin T) (fin d) (fin start)
  have hem := (steps_frames_live (fin T) start d hd ts _ 0 hl).1
  have hsub := ticked_sublist start d ts
  have hmem : ∀ u ∈ ticked start d ts, start ≤ u := fun u hu => hstart u (hsub.subset hu)
  have hrange : ∀ v ∈ 0 :: (ticked start d ts).map (valueInt T start d), 0 ≤ v ∧ v ≤ T := by
    intro v hv
    rcases List.mem_cons.mp hv with rfl | hv
    · exact ⟨le_rfl, hT⟩
    · obtain ⟨u, hu, rfl⟩ := List.mem_map.mp hv
      exact valueInt_range T start d u hT hd (hmem u hu)
  have hpw : (0 :: (ticked start d ts).map (valueInt T start d)).Pairwise (· ≤ ·) := by
    rw [List.pairwise_cons]
    refine ⟨fun v hv => (hrange v (List.mem_cons_of_mem _ hv)).1, ?_⟩
    rw [List.pairwise_map]
    exact (hsorted.sublist hsub).imp (fun h => valueInt_mono T start d _ _ hT hd h)
  refine ⟨0 :: (ticked start d ts).map (valueInt T start d), ?_, hpw, hrange, ?_⟩
  · rw [exposed, hem, he]
    simp only [List.nil_append, List.map_cons, List.map_map, Int.cast_zero]
    congr 1
    apply List.map_congr_left
    intro u _
    exact valueAt_int T start d u hd.ne'
  · refine hpw.imp_of_mem ?_
    intro a b _ hb hab haT
    exact le_antisymm (hrange b hb).2 (haT ▸ hab)

/-- C3, witness of the amended claim: target `99`, duration `900`, start
`1000`, frames at `1016`, `1500`, `1900` and `2000`. -/
theorem C3_monotone_integer_witness :
    ∃ vs : List ℤ,
      exposed (steps (mount 0 (fin (99 : ℤ)) (fin 900) true false (fin 1000))
        (frames [1016, 1500, 1900, 2000])) = vs.map (fun v : ℤ => fin (v : ℚ)) ∧
      vs.Pairwise (· ≤ ·) ∧ (∀ v ∈ vs, 0 ≤ v ∧ v ≤ 99) ∧
      vs.Pairwise (fun a b => a = 99 → b = 99) :=
  C3_monotone_integer 0 99 900 1000 [1016, 1500, 1900, 2000] (by norm_num) (by norm_num)
    (by simp [List.pairwise_cons]; norm_num)
    (by intro u hu; simp at hu; rcases hu with rfl | rfl | rfl | rfl <;> norm_num)

/-! ## C4: reduced motion -/

/-- C4: with `reduce` and `startWhen` true, the effect calls `setValue` once,
with `target`, and does not call `requestAnimationFrame`: the callback list and
the browser's callback identifier are unchanged and no cleanup is registered.
On mount this leaves exactly the one value `target` emitted, nothing pending,
and any later frames change nothing. -/
theorem C4_reduce_snaps (s : Hook) (id0 : ℕ) (T d now : JSNum) (ts : List JSNum) :
    (effect s T d true true now).emitted = s.emitted ++ [T] ∧
    (effect s T d true true now).value = T ∧
    (effect s T d true true now).pending = s.pending ∧
    (effect s T d true true now).frameId = s.frameId ∧
    (effect s T d true true now).runs = s.runs ∧
    (effect s T d true true now).cleanup = none ∧
    (mount id0 T d true true now).emitted = [T] ∧
    (mount id0 T d true true now).pending = [] ∧
    (mount id0 T d true true now).frameId = id0 ∧
    steps (mount id0 T d true true now) (anyFrames ts) = mount id0 T d true true now := by
  refine ⟨?_, ?_, ?_, ?_, ?_, ?_, ?_, ?_, ?_, ?_⟩
  all_goals try simp [mount, initial, effect, setValue]
  exact steps_anyFrames_idle _ _ (by simp [mount, initial, effect, setValue])

/-! ## C5 and C6: the easing -/

/-- C5: for every `p` in `[0,1]` the easing `1 - (1-p)^3` of the tick is a
finite number in `[0,1]`; it is `0` at `0` and `1` at `1`. -/
theorem C5_ease_range :
    (∀ p : ℚ, 0 ≤ p → p ≤ 1 →
      ∃ e : ℚ, easeOutCubic (fin p) = fin e ∧ e = 1 - (1 - p) ^ 3 ∧ 0 ≤ e ∧ e ≤ 1) ∧
    easeOutCubic (fin 0) = fin 0 ∧ easeOutCubic (fin 1) = fin 1 := by
  refine ⟨fun p h0 h1 => ⟨_, easeOutCubic_fin p, rfl, ease_range p h0 h1⟩, ?_, ?_⟩
  · rw [easeOutCubic_fin]; norm_num
  · rw [easeOutCubic_fin]; norm_num

/-- C5, witness: the easing at `p = 1/2`. -/
theorem C5_ease_range_witness :
    ∃ e : ℚ, easeOutCubic (fin (1 / 2)) = fin e ∧ e = 1 - (1 - 1 / 2) ^ 3 ∧ 0 ≤ e ∧ e ≤ 1 :=
  C5_ease_range.1 (1 / 2) (by norm_num) (by norm_num)

/-- C6: the easing is non-decreasing on `[0,1]`: for `0 <= p <= q <= 1` the
eased values are finite and `ease(p) <= ease(q)`. -/
theorem C6_ease_monotone (p q : ℚ) (h0 : 0 ≤ p) (hpq : p ≤ q) (h1 : q ≤ 1) :
    ∃ a b : ℚ, easeOutCubic (fin p) = fin a ∧ easeOutCubic (fin q) = fin b ∧ a ≤ b ∧
      JSNum.le (easeOutCubic (fin p)) (easeOutCubic (fin q)) = true := by
  have _ := h0
  have _ := h1
  refine ⟨_, _, easeOutCubic_fin p, easeOutCubic_fin q, ease_mono p q hpq, ?_⟩
  rw [easeOutCubic_fin, easeOutCubic_fin]
  simpa [JSNum.le] using ease_mono p q hpq

/-- C6, witness: `p = 1/4` and `q = 3/4`. -/
theorem C6_ease_monotone_witness :
    ∃ a b : ℚ, easeOutCubic (fin (1 / 4)) = fin a ∧ easeOutCubic (fin (3 / 4)) = fin b ∧
      a ≤ b ∧ JSNum.le (easeOutCubic (fin (1 / 4))) (easeOutCubic (fin (3 / 4))) = true :=
  C6_ease_monotone (1 / 4) (3 / 4) (by norm_num) (by norm_num) (by norm_num)

/-! ## C7: when the animation stops scheduling -/

/-- C7: whatever the rounding of the arithmetic, a tick appends a callback to
the browser's list exactly when its progress `p` satisfies `p < 1`, and
otherwise leaves the list and the browser's identifier alone.  For
`durationMs > 0` a tick with a timestamp at or after `start + durationMs` has
`p = 1` and requests nothing, and a tick with a timestamp up to `start`
requests a frame.  So in a run mounted at `start`, after any frames, the frame
at or after `start + durationMs` leaves no callback pending, and any further
frames leave the whole state as it is. -/
theorem C7_stops_at_duration (R : Rounding) (hR : R.IEEE) (id0 : ℕ) (T : JSNum)
    (start d : ℚ) (ts : List ℚ) (t : ℚ) (us : List JSNum) (hdr : R.rnd d = fin d)
    (hd : 0 < d) (ht : start + d ≤ t) :
    (∀ (s : Hook) (i : ℕ) (r : Run) (τ : JSNum), s.runs[i]? = some r →
      (R.tick s i τ).pending
        = (if JSNum.lt (R.tickProgress r.start r.durationMs τ) (fin 1) = true
            then s.pending ++ [{ handle := s.frameId + 1, run := i }] else s.pending) ∧
      (R.tick s i τ).frameId
        = (if JSNum.lt (R.tickProgress r.start r.durationMs τ) (fin 1) = true
            then s.frameId + 1 else s.frameId)) ∧
    (∀ p : ℚ, JSNum.lt (fin p) (fin 1) = true ↔ p < 1) ∧
    (∀ u : ℚ, start + d ≤ u →
      R.tickProgress (fin start) (fin d) (fin u) = fin 1 ∧
      JSNum.lt (R.tickProgress (fin start) (fin d) (fin u)) (fin 1) = false) ∧
    (∀ u : ℚ, u ≤ start →
      JSNum.lt (R.tickProgress (fin start) (fin d) (fin u)) (fin 1) = true) ∧
    (R.steps (mount id0 T (fin d) true false (fin start))
      (frames ts ++ [Event.frame (fin t)])).pending = [] ∧
    R.steps (mount id0 T (fin d) true false (fin start))
        (frames ts ++ Event.frame (fin t) :: anyFrames us)
      = R.steps (mount id0 T (fin d) true false (fin start))
        (frames ts ++ [Event.frame (fin t)]) := by
  have hfr : frames ts ++ [Event.frame (fin t)] = frames (ts ++ [t]) := by
    simp [frames, anyFrames]
  have hdone : (R.steps (mount id0 T (fin d) true false (fin start))
      (frames ts ++ [Event.frame (fin t)])).pending = [] := by
    rw [hfr]; exact (rsteps_final hR id0 T d start ts t hdr hd ht).1
  refine ⟨fun s i r τ h => rtick_pending R s i r τ h, fun p => ?_, fun u hu => ?_,
    fun u hu => progress_before hR start d u hd hu, hdone, ?_⟩
  · simp [JSNum.lt]
  · have h1 := progress_done hR start d u hdr hd hu
    refine ⟨h1, ?_⟩
    rw [h1]; simp [JSNum.lt]
  · have hsplit : frames ts ++ Event.frame (fin t) :: anyFrames us
        = (frames ts ++ [Event.frame (fin t)]) ++ anyFrames us := by simp
    rw [hsplit, rsteps_append, rsteps_idle R _ _ hdone]

/-- C7, witness: doubles, duration `900`, start `1000`, frames at `1016` and
`1500`, then `1900`, then two more frames. -/
theorem C7_stops_at_duration_witness :
    (Rounding.binary64.steps (mount 0 (fin 42) (fin 900) true false (fin 1000))
      (frames [1016, 1500] ++ [Event.frame (fin 1900)])).pending = [] ∧
    Rounding.binary64.steps (mount 0 (fin 42) (fin 900) true false (fin 1000))
        (frames [1016, 1500] ++ Event.frame (fin 1900) :: anyFrames [fin 1916, fin 1933])
      = Rounding.binary64.steps (mount 0 (fin 42) (fin 900) true false (fin 1000))
        (frames [1016, 1500] ++ [Event.frame (fin 1900)]) :=
  (C7_stops_at_duration Rounding.binary64 binary64_IEEE 0 (fin 42) 1000 900 [1016, 1500] 1900
    [fin 1916, fin 1933] (by simpa using binary64_int 900 (by norm_num)) (by norm_num)
    (by norm_num)).2.2.2.2

/-! ## C8: malformed durations -/

/-- C8, counterexample: the duration is not clamped.  With `durationMs = 0` the
tick at the timestamp `start` sets NaN; with `durationMs = -5` the ticks at
`1010` and `1020` set `-2600` and `-12400` for the target `100` and a callback
is still pending, whereas with the duration `1` the tick at `1010` sets `100`
and nothing is pending. -/
theorem C8_duration_counterexample :
    (frame (mount 0 (fin 100) (fin 0) true false (fin 1000)) (fin 1000)).value = nan ∧
    JSNum.isFinite nan = false ∧
    (steps (mount 0 (fin 100) (fin (-5)) true false (fin 1000)) (frames [1010, 1020])).emitted
      = [fin (-2600), fin (-12400)] ∧
    (steps (mount 0 (fin 100) (fin (-5)) true false (fin 1000))
      (frames [1010, 1020])).pending.length = 1 ∧
    (steps (mount 0 (fin 100) (fin 1) true false (fin 1000)) (frames [1010])).emitted
      = [fin 100] ∧
    (steps (mount 0 (fin 100) (fin 1) true false (fin 1000)) (frames [1010])).pending = [] := by
  refine ⟨?_, rfl, ?_, ?_, ?_, ?_⟩
  · simp [mount, effect, initial, frame, tick, setRaf, requestAnimationFrame, setValue,
      tickProgress, tickValue_eq, easeOutCubic, tickAgain, JSNum.sub, JSNum.neg, JSNum.add,
      JSNum.div, JSNum.min, JSNum.pow, JSNum.mul, JSNum.round, JSNum.lt]
  all_goals
    norm_num [steps, mount, frames, anyFrames, effect, initial, step, frame, tick, setRaf,
      requestAnimationFrame, setValue, tickProgress_fin, tickValue_fin, tickAgain_fin]

/-- C8, amended: the duration is not clamped.  Whatever the rounding of the
arithmetic, for `durationMs < 0` every tick with a timestamp not before
`start` requests a further frame, so after any such frames one value per frame
has been set and a callback is still pending.  For `durationMs = +0` a tick
with a timestamp after `start` sets `Math.round(target)` and a tick with the
timestamp `start` sets NaN; both request no further frame. -/
theorem C8_unclamped_duration (R : Rounding) (hR : R.IEEE) (id0 : ℕ) (T d start : ℚ)
    (ts : List ℚ) (t : ℚ) (hT : R.rnd T = fin T) (hs : R.rnd start = fin start)
    (htr : R.rnd t = fin t) (hd : d < 0) (hts : ∀ u ∈ ts, start ≤ u) (ht : start < t) :
    (∀ u : ℚ, start ≤ u →
      JSNum.lt (R.tickProgress (fin start) (fin d) (fin u)) (fin 1) = true) ∧
    (R.steps (mount id0 (fin T) (fin d) true false (fin start)) (frames ts)).pending.length
      = 1 ∧
    (R.steps (mount id0 (fin T) (fin d) true false (fin start)) (frames ts)).emitted.length
      = ts.length ∧
    (R.frame (mount id0 (fin T) (fin 0) true false (fin start)) (fin t)).value
      = JSNum.round (fin T) ∧
    (R.frame (mount id0 (fin T) (fin 0) true false (fin start)) (fin t)).pending = [] ∧
    (R.frame (mount id0 (fin T) (fin 0) true false (fin start)) (fin start)).value = nan ∧
    (R.frame (mount id0 (fin T) (fin 0) true false (fin start)) (fin start)).pending = [] := by
  obtain ⟨hl, he, _⟩ := mount_live id0 (fin T) (fin d) (fin start)
  obtain ⟨hl0, _, _⟩ := mount_live id0 (fin T) (fin 0) (fin start)
  have hp1 : tickAgain (R.tickProgress (fin start) (fin 0) (fin t)) = false := by
    rw [progress_zero_after hR start t hs htr ht]; simp [tickAgain, JSNum.lt]
  have hp2 : tickAgain (R.tickProgress (fin start) (fin 0) (fin start)) = false := by
    rw [progress_zero_at hR]; rfl
  obtain ⟨a1, _, a3⟩ := rframe_live_done R (fin t) hl0 hp1
  obtain ⟨b1, _, b3⟩ := rframe_live_done R (fin start) hl0 hp2
  refine ⟨fun u hu => progress_negative hR start d u hd hu, ?_, ?_, ?_, a1, ?_, b1⟩
  · rcases rsteps_frames_cases R (fin T) (fin d) (fin start) ts _ 0 hl with
      ⟨hlive, _, _⟩ | ⟨_, u, hu, hstop, _⟩
    · obtain ⟨⟨h0, hpend, -⟩, -⟩ := hlive
      rw [hpend]; rfl
    · rw [progress_negative hR start d u hd (hts u hu)] at hstop
      cases hstop
  · rcases rsteps_frames_cases R (fin T) (fin d) (fin start) ts _ 0 hl with
      ⟨_, _, hem⟩ | ⟨_, u, hu, hstop, _⟩
    · rw [hem, he]; simp
    · rw [progress_negative hR start d u hd (hts u hu)] at hstop
      cases hstop
  · rw [a3, progress_zero_after hR start t hs htr ht, tickValue_one hR T hT]
  · rw [b3, progress_zero_at hR, tickValue_of_nan]

/-- C8, witness of the amended claim: doubles, target `100`, duration `-5`,
start `1000`, frames at `1010` and `1020`; and the duration `0` with a frame
at `1016`. -/
theorem C8_unclamped_duration_witness :
    (Rounding.binary64.steps (mount 0 (fin 100) (fin (-5)) true false (fin 1000))
      (frames [1010, 1020])).pending.length = 1 ∧
    (Rounding.binary64.frame (mount 0 (fin 100) (fin 0) true false (fin 1000))
      (fin 1016)).value = JSNum.round (fin 100) :=
  ⟨(C8_unclamped_duration Rounding.binary64 binary64_IEEE 0 100 (-5) 1000 [1010, 1020] 1016
      (by simpa using binary64_int 100 (by norm_num))
      (by simpa using binary64_int 1000 (by norm_num))
      (by simpa using binary64_int 1016 (by norm_num)) (by norm_num)
      (by intro u hu; simp at hu; rcases hu with rfl | rfl <;> norm_num) (by norm_num)).2.1,
   (C8_unclamped_duration Rounding.binary64 binary64_IEEE 0 100 (-5) 1000 [1010, 1020] 1016
      (by simpa using binary64_int 100 (by norm_num))
      (by simpa using binary64_int 1000 (by norm_num))
      (by simpa using binary64_int 1016 (by norm_num)) (by norm_num)
      (by intro u hu; simp at hu; rcases hu with rfl | rfl <;> norm_num)
      (by norm_num)).2.2.2.1⟩

/-! ## C9 and C10: cancellation -/

/-- C9: in every state reachable from a mount by frames, dependency changes and
unmounts, a pending callback is the `tick` of the run whose cleanup React
holds, under the handle in that run's `raf`; so after the unmount no callback
is pending, and any number of further frames leaves the whole state, with the
exposed value and the emitted values, as it was. -/
theorem C9_unmount_freezes (id0 : ℕ) (T d : JSNum) (sw rd : Bool) (now : JSNum)
    (es : List Event) (ts : List JSNum) :
    (∀ c ∈ (steps (mount id0 T d sw rd now) es).pending,
      (steps (mount id0 T d sw rd now) es).cleanup = some c.run ∧
      ∃ r, (steps (mount id0 T d sw rd now) es).runs[c.run]? = some r ∧ r.raf = c.handle) ∧
    (step (steps (mount id0 T d sw rd now) es) Event.unmount).pending = [] ∧
    steps (step (steps (mount id0 T d sw rd now) es) Event.unmount) (anyFrames ts)
      = step (steps (mount id0 T d sw rd now) es) Event.unmount ∧
    (steps (step (steps (mount id0 T d sw rd now) es) Event.unmount) (anyFrames ts)).value
      = (step (steps (mount id0 T d sw rd now) es) Event.unmount).value := by
  have hinv := inv_steps es (inv_mount id0 T d sw rd now)
  have hun := inv_step Event.unmount hinv
  have hpend : (step (steps (mount id0 T d sw rd now) es) Event.unmount).pending = [] := by
    by_cases hm : (steps (mount id0 T d sw rd now) es).mounted = true
    · simp only [step, hm, if_true]
      exact inv_runCleanup hinv
    · apply hun.2
      simp only [step, hm, if_false]
      simpa using hm
  refine ⟨(inv_singlePending hinv).2, hpend, steps_anyFrames_idle _ _ hpend, ?_⟩
  rw [steps_anyFrames_idle _ _ hpend]

/-- C9, witness: target `99`, duration `900`, start `1000`; after the frame at
`1016` the value is `5` and a callback is pending; after the unmount the frames
at `1033` and `1050` leave the value at `5`. -/
theorem C9_unmount_freezes_witness :
    (steps (mount 0 (fin 99) (fin 900) true false (fin 1000))
      [Event.frame (fin 1016)]).pending = [{ handle := 2, run := 0 }] ∧
    (step (steps (mount 0 (fin 99) (fin 900) true false (fin 1000))
      [Event.frame (fin 1016)]) Event.unmount).value = fin 5 ∧
    (steps (step (steps (mount 0 (fin 99) (fin 900) true false (fin 1000))
      [Event.frame (fin 1016)]) Event.unmount) (anyFrames [fin 1033, fin 1050])).value
      = (step (steps (mount 0 (fin 99) (fin 900) true false (fin 1000))
        [Event.frame (fin 1016)]) Event.unmount).value := by
  refine ⟨?_, ?_, (C9_unmount_freezes 0 (fin 99) (fin 900) true false (fin 1000)
    [Event.frame (fin 1016)] [fin 1033, fin 1050]).2.2.2⟩
  · norm_num [steps, mount, effect, initial, step, frame, tick, setRaf,
      requestAnimationFrame, setValue, tickProgress_fin, tickValue_fin, tickAgain_fin]
  · norm_num [steps, mount, effect, initial, step, frame, tick, setRaf, runCleanup,
      cancelAnimationFrame, requestAnimationFrame, setValue, tickProgress_fin, tickValue_fin,
      tickAgain_fin]

/-- C10: in every state reachable from a mount by frames, dependency changes
and unmounts, at most one callback is pending, and it is the `tick` of the run
whose cleanup React holds, under the handle in that run's `raf`.  The cleanup
leaves nothing pending, so after a dependency change a pending callback can
only be the first `tick` of the new run. -/
theorem C10_single_pending (id0 : ℕ) (T d : JSNum) (sw rd : Bool) (now : JSNum)
    (es : List Event) (T1 d1 : JSNum) (sw1 rd1 : Bool) (now1 : JSNum) :
    (steps (mount id0 T d sw rd now) es).pending.length ≤ 1 ∧
    (∀ c ∈ (steps (mount id0 T d sw rd now) es).pending,
      (steps (mount id0 T d sw rd now) es).cleanup = some c.run ∧
      ∃ r, (steps (mount id0 T d sw rd now) es).runs[c.run]? = some r ∧ r.raf = c.handle) ∧
    (runCleanup (steps (mount id0 T d sw rd now) es)).pending = [] ∧
    (step (steps (mount id0 T d sw rd now) es)
      (Event.update T1 d1 sw1 rd1 now1)).pending.length ≤ 1 ∧
    ∀ c ∈ (step (steps (mount id0 T d sw rd now) es) (Event.update T1 d1 sw1 rd1 now1)).pending,
      c.run = (steps (mount id0 T d sw rd now) es).runs.length := by
  have hinv := inv_steps es (inv_mount id0 T d sw rd now)
  have hc := inv_runCleanup hinv
  have hsp := inv_singlePending hinv
  refine ⟨hsp.1, hsp.2, hc,
    (inv_singlePending (inv_step (Event.update T1 d1 sw1 rd1 now1) hinv)).1, ?_⟩
  intro c hcm
  by_cases hm : (steps (mount id0 T d sw rd now) es).mounted = true
  · simp only [step, hm, if_true] at hcm
    rcases (effect_idle_cases _ T1 d1 sw1 rd1 now1 hc).1 with h | h
    · rw [h] at hcm; cases hcm
    · obtain ⟨⟨h0, hpend, -⟩, -⟩ := h
      rw [hpend, List.mem_singleton] at hcm
      rw [hcm, runCleanup_runs]
  · have hp := hinv.2 (by simpa using hm)
    have hst : step (steps (mount id0 T d sw rd now) es) (Event.update T1 d1 sw1 rd1 now1)
        = steps (mount id0 T d sw rd now) es := by
      simp [step, hm]
    rw [hst, hp] at hcm; cases hcm

/-- C10, witness: mount with target `99` at `1000`, a frame at `1016`, then a
change of the target to `50` at `1020`: the one pending callback is the first
`tick` of the new run `1`, under the new handle `3`. -/
theorem C10_single_pending_witness :
    (steps (mount 0 (fin 99) (fin 900) true false (fin 1000))
      [Event.frame (fin 1016)]).pending = [{ handle := 2, run := 0 }] ∧
    (step (steps (mount 0 (fin 99) (fin 900) true false (fin 1000)) [Event.frame (fin 1016)])
      (Event.update (fin 50) (fin 900) true false (fin 1020))).pending
      = [{ handle := 3, run := 1 }] ∧
    (step (steps (mount 0 (fin 99) (fin 900) true false (fin 1000)) [Event.frame (fin 1016)])
      (Event.update (fin 50) (fin 900) true false (fin 1020))).pending.length ≤ 1 := by
  refine ⟨?_, ?_, (C10_single_pending 0 (fin 99) (fin 900) true false (fin 1000)
    [Event.frame (fin 1016)] (fin 50) (fin 900) true false (fin 1020)).2.2.2.1⟩
  · norm_num [steps, mount, effect, initial, step, frame, tick, setRaf,
      requestAnimationFrame, setValue, tickProgress_fin, tickValue_fin, tickAgain_fin]
  · norm_num [steps, mount, effect, initial, step, frame, tick, setRaf, runCleanup,
      cancelAnimationFrame, requestAnimationFrame, setValue, tickProgress_fin, tickValue_fin,
      tickAgain_fin]

/-! ## The carousel: ticks, manual navigation and the index invariant -/

namespace TestimonialCarousel

theorem advance_nat (len v : ℕ) (hlen : 1 ≤ len) :
    advance len (fin v) = fin (((v + 1) % len : ℕ) : ℚ) := by
  have hne : (len : ℚ) ≠ 0 := by
    have : 0 < len := hlen
    exact_mod_cast this.ne'
  have hnn : (0 : ℚ) ≤ ((v + 1 : ℕ) : ℚ) / (len : ℚ) := by positivity
  have hfl : ⌊((v + 1 : ℕ) : ℚ) / (len : ℚ)⌋ = (((v + 1) / len : ℕ) : ℤ) := by
    exact_mod_cast Rat.floor_natCast_div_natCast (v + 1) len
  have hcast : (fin (v : ℚ)).add (fin 1) = fin (((v + 1 : ℕ) : ℚ)) := by
    simp [JSNum.add]
  rw [advance, hcast]
  simp only [JSNum.mod, hne, if_false, JSNum.trunc, hnn, if_true, hfl]
  congr 1
  have := Nat.mod_add_div (v + 1) len
  have hq : (((v + 1) % len : ℕ) : ℚ) + (len : ℚ) * (((v + 1) / len : ℕ) : ℚ)
      = ((v + 1 : ℕ) : ℚ) := by exact_mod_cast this
  rw [Int.cast_natCast]
  linarith

theorem advance_zero (v : JSNum) : advance 0 v = nan := by
  cases v <;> simp [advance, JSNum.add, JSNum.mod]

theorem step_fire_active (len : ℕ) (s : State) (t : ℕ) (h : t ∈ s.timers.map Timer.id) :
    step len s (Event.fire t) = { s with idx := advance len s.idx } := by
  simp only [step, h, if_true]

theorem step_fire_inactive (len : ℕ) (s : State) (t : ℕ) (h : t ∉ s.timers.map Timer.id) :
    step len s (Event.fire t) = s := by
  simp only [step, h, if_false]

theorem steps_fire (len : ℕ) (t k : ℕ) :
    ∀ s : State, t ∈ s.timers.map Timer.id →
      steps len s (List.replicate k (Event.fire t))
        = { s with idx := (advance len)^[k] s.idx } := by
  induction k with
  | zero => intro s _; rfl
  | succ k ih =>
    intro s h
    have hs : steps len s (List.replicate (k + 1) (Event.fire t))
        = steps len (step len s (Event.fire t)) (List.replicate k (Event.fire t)) := rfl
    rw [hs, step_fire_active len s t h]
    exact (ih { s with idx := advance len s.idx } h).trans
      (by simp [Function.iterate_succ_apply])

theorem iterate_advance (len : ℕ) (hlen : 1 ≤ len) (k : ℕ) :
    (advance len)^[k] (fin 0) = fin ((k % len : ℕ) : ℚ) := by
  induction k with
  | zero => simp
  | succ k ih =>
    rw [Function.iterate_succ_apply', ih, advance_nat len _ hlen]
    simp [Nat.add_mod]

theorem mount_running (id0 : ℕ) :
    mount id0 false =
      { idx := fin 0, timers := [{ id := id0 + 1, delay := 5200 }], timerId := id0 + 1,
        cleanup := some (id0 + 1), mounted := true } := by
  simp [mount, effect, initial, setInterval]

theorem mount_reduced (id0 : ℕ) :
    mount id0 true =
      { idx := fin 0, timers := [], timerId := id0, cleanup := none, mounted := true } := by
  simp [mount, effect, initial]

/-- The invariant of the carousel for `len` items: the index is a natural
number below `len`. -/
theorem idx_step (len : ℕ) (hlen : 1 ≤ len) (s : State) (e : Event)
    (h : ∃ n : ℕ, n < len ∧ s.idx = fin n) : ∃ n : ℕ, n < len ∧ (step len s e).idx = fin n := by
  obtain ⟨n, hn, hidx⟩ := h
  cases e with
  | fire t =>
    by_cases ht : t ∈ s.timers.map Timer.id
    · rw [step_fire_active len s t ht]
      exact ⟨(n + 1) % len, Nat.mod_lt _ hlen, by simp [hidx, advance_nat len n hlen]⟩
    · rw [step_fire_inactive len s t ht]; exact ⟨n, hn, hidx⟩
  | goTo i =>
    by_cases hi : (s.mounted && decide (i < len)) = true
    · refine ⟨i, ?_, by simp only [step, hi, if_true]⟩
      simp at hi; exact hi.2
    · refine ⟨n, hn, ?_⟩
      simp only [step, hi]; simpa using hidx
  | update reduce =>
    refine ⟨n, hn, ?_⟩
    cases hm : s.mounted <;> cases reduce <;> cases hc : s.cleanup <;>
      simp [step, hm, effect, runCleanup, hc, setInterval, clearInterval, hidx]
  | unmount =>
    refine ⟨n, hn, ?_⟩
    cases hm : s.mounted <;> cases hc : s.cleanup <;>
      simp [step, hm, runCleanup, hc, clearInterval, hidx]

theorem idx_steps (len : ℕ) (hlen : 1 ≤ len) (es : List Event) :
    ∀ s : State, (∃ n : ℕ, n < len ∧ s.idx = fin n) →
      ∃ n : ℕ, n < len ∧ (steps len s es).idx = fin n := by
  induction es with
  | nil => intro s h; exact h
  | cons e es ih => intro s h; exact ih _ (idx_step len hlen s e h)

theorem idx_mount (id0 : ℕ) (reduce : Bool) : (mount id0 reduce).idx = fin 0 := by
  cases reduce <;> simp [mount, effect, initial, setInterval]

theorem itemAt_nat (its : List Testimonial) (n : ℕ) : itemAt its (fin n) = its[n]? := by
  simp [itemAt]

theorem render_of_idx (its : List Testimonial) (s : State) (n : ℕ) (hn : n < its.length)
    (h : s.idx = fin n) :
    ∃ item, its[n]? = some item ∧ itemAt its s.idx = some item ∧
      render its s = Except.ok (item.quote, item.name, item.org) := by
  refine ⟨its[n], List.getElem?_eq_getElem hn, ?_, ?_⟩
  · rw [h, itemAt_nat, List.getElem?_eq_getElem hn]
  · rw [render, h, itemAt_nat, List.getElem?_eq_getElem hn]

/-- C11: for `len >= 1` the updater of the interval maps an index `v` to
`(v + 1) mod len`; a carousel mounted without reduced motion has one interval
of 5200 ms and the index `0`, and after `k` firings of that interval, with no
other event, the index is `k mod len`. -/
theorem C11_carousel_ticks (len id0 k : ℕ) (hlen : 1 ≤ len) :
    (∀ v : ℕ, advance len (fin v) = fin (((v + 1) % len : ℕ) : ℚ)) ∧
    (mount id0 false).timers = [{ id := id0 + 1, delay := 5200 }] ∧
    (mount id0 false).idx = fin 0 ∧
    (steps len (mount id0 false) (List.replicate k (Event.fire (id0 + 1)))).idx
      = fin ((k % len : ℕ) : ℚ) := by
  refine ⟨fun v => advance_nat len v hlen, by rw [mount_running], by rw [mount_running], ?_⟩
  rw [steps_fire len (id0 + 1) k _ (by simp [mount_running]), mount_running]
  exact iterate_advance len hlen k

/-- C11, witness: the four built-in items and three firings give the index
`3`. -/
theorem C11_carousel_ticks_witness :
    (steps items.length (mount 0 false) (List.replicate 3 (Event.fire 1))).idx = fin 3 := by
  have h := (C11_carousel_ticks items.length 0 3 (by decide)).2.2.2
  simpa [items] using h

/-- C12: a click on the dot of an existing item `i` sets the index to `i` and
leaves the intervals, the timer id, the cleanup and the mounted flag as they
were; a firing of an active interval right after it gives `(i + 1) mod len`. -/
theorem C12_goTo_frame (len : ℕ) (s : State) (i t : ℕ) (hm : s.mounted = true)
    (hi : i < len) (ht : t ∈ s.timers.map Timer.id) :
    (step len s (Event.goTo i)).idx = fin i ∧
    (step len s (Event.goTo i)).timers = s.timers ∧
    (step len s (Event.goTo i)).timerId = s.timerId ∧
    (step len s (Event.goTo i)).cleanup = s.cleanup ∧
    (step len s (Event.goTo i)).mounted = s.mounted ∧
    (step len (step len s (Event.goTo i)) (Event.fire t)).idx
      = fin (((i + 1) % len : ℕ) : ℚ) := by
  have hs : step len s (Event.goTo i) = { s with idx := fin i } := by
    simp [step, hm, hi]
  rw [hs]
  refine ⟨rfl, rfl, rfl, rfl, rfl, ?_⟩
  rw [step_fire_active len { s with idx := fin i } t ht]
  exact advance_nat len i (by omega)

/-- C12, witness: four items, `goTo(1)` on the mounted carousel and then a
firing of its interval give the index `2`. -/
theorem C12_goTo_frame_witness :
    (step 4 (step 4 (mount 0 false) (Event.goTo 1)) (Event.fire 1)).idx = fin 2 := by
  have h := (C12_goTo_frame 4 (mount 0 false) 1 1 (by simp [mount_running]) (by decide)
    (by simp [mount_running])).2.2.2.2.2
  simpa using h

/-- C13: for a non-empty array of items, in every state reachable from the
mount by firings, clicks on dots, changes of the reduced-motion flag and the
unmount, the index is a natural number below `len`, the active item
`items[idx]` exists and the render reads it. -/
theorem C13_index_invariant (its : List Testimonial) (id0 : ℕ) (reduce : Bool)
    (es : List Event) (hlen : 1 ≤ its.length) :
    ∃ n : ℕ, n < its.length ∧ (steps its.length (mount id0 reduce) es).idx = fin n ∧
      ∃ item, its[n]? = some item ∧
        itemAt its (steps its.length (mount id0 reduce) es).idx = some item ∧
        render its (steps its.length (mount id0 reduce) es)
          = Except.ok (item.quote, item.name, item.org) := by
  obtain ⟨n, hn, hidx⟩ := idx_steps its.length hlen es (mount id0 reduce)
    ⟨0, hlen, by rw [idx_mount]; simp⟩
  exact ⟨n, hn, hidx, render_of_idx its _ n hn hidx⟩

/-- C13, witness: the built-in items, a firing, a click on dot `3` and a
firing. -/
theorem C13_index_invariant_witness :
    ∃ n : ℕ, n < items.length ∧
      (steps items.length (mount 0 false)
        [Event.fire 1, Event.goTo 3, Event.fire 1]).idx = fin n ∧
      ∃ item, items[n]? = some item ∧
        itemAt items (steps items.length (mount 0 false)
          [Event.fire 1, Event.goTo 3, Event.fire 1]).idx = some item ∧
        render items (steps items.length (mount 0 false)
          [Event.fire 1, Event.goTo 3, Event.fire 1])
          = Except.ok (item.quote, item.name, item.org) :=
  C13_index_invariant items 0 false [Event.fire 1, Event.goTo 3, Event.fire 1] (by decide)

theorem reduced_step (len : ℕ) (s : State) (e : Event) (he : e ≠ Event.update false)
    (ht : s.timers = []) (hc : s.cleanup = none) :
    (step len s e).timers = [] ∧ (step len s e).cleanup = none ∧
    (step len s e).timerId = s.timerId ∧
    (e ≠ Event.unmount → (step len s e).mounted = s.mounted) ∧
    (step len s e).idx
      = (match e with
        | Event.goTo i => if s.mounted && decide (i < len) then fin i else s.idx
        | _ => s.idx) := by
  cases e with
  | fire t => simp [step, ht, hc]
  | goTo i =>
    by_cases hi : (s.mounted && decide (i < len)) = true
    · simp only [step, hi, if_true]
      simp [ht, hc]
    · simp only [step, hi]
      simp [ht, hc]
  | update reduce =>
    cases reduce with
    | false => exact absurd rfl he
    | true => cases hm : s.mounted <;> simp [step, hm, effect, runCleanup, hc, ht]
  | unmount => cases hm : s.mounted <;> simp [step, hm, runCleanup, hc, ht]

theorem reduced_steps (len : ℕ) (es : List Event) :
    ∀ s : State, (∀ e ∈ es, e ≠ Event.update false) → s.timers = [] → s.cleanup = none →
      (steps len s es).timers = [] ∧ (steps len s es).timerId = s.timerId ∧
      ((steps len s es).idx = s.idx ∨
        ∃ i, Event.goTo i ∈ es ∧ i < len ∧ (steps len s es).idx = fin i) ∧
      (s.mounted = true → (∀ e ∈ es, e ≠ Event.unmount) →
        (steps len s es).idx
          = ((lastGoTo len es).map (fun i : ℕ => fin (i : ℚ))).getD s.idx) := by
  induction es with
  | nil => intro s _ ht _; exact ⟨ht, rfl, Or.inl rfl, fun _ _ => rfl⟩
  | cons e es ih =>
    intro s hred ht hc
    have he := hred e (List.mem_cons_self _ _)
    obtain ⟨h1, h2, h3, h4, h5⟩ := reduced_step len s e he ht hc
    obtain ⟨i1, i2, i3, i4⟩ := ih (step len s e)
      (fun x hx => hred x (List.mem_cons_of_mem _ hx)) h1 h2
    have hs : steps len s (e :: es) = steps len (step len s e) es := rfl
    rw [hs]
    refine ⟨i1, i2.trans h3, ?_, ?_⟩
    · rcases i3 with h | ⟨i, hi, hlt, h⟩
      · rw [h, h5]
        cases e with
        | goTo i =>
          by_cases hi : (s.mounted && decide (i < len)) = true
          · right
            refine ⟨i, List.mem_cons_self _ _, ?_, by simp only [hi, if_true]⟩
            simp at hi; exact hi.2
          · left; simp only [hi]; simp
        | fire t => left; rfl
        | update r => left; rfl
        | unmount => left; rfl
      · exact Or.inr ⟨i, List.mem_cons_of_mem _ hi, hlt, h⟩
    · intro hm hun
      have hne : e ≠ Event.unmount := hun e (List.mem_cons_self _ _)
      have hm2 : (step len s e).mounted = true := by rw [h4 hne]; exact hm
      rw [i4 hm2 (fun x hx => hun x (List.mem_cons_of_mem _ hx)), h5]
      cases e with
      | goTo i =>
        simp only [lastGoTo, hm, Bool.true_and]
        cases hl : lastGoTo len es with
        | some j => simp
        | none =>
          by_cases hi : i < len <;> simp [hi]
      | fire t => simp [lastGoTo]
      | update r => simp [lastGoTo]
      | unmount => exact absurd rfl hne

/-- C14: a carousel mounted with reduced motion has no interval.  Through
any firings, clicks, renders that keep the flag and an unmount, no interval is
ever installed (the list stays empty and the browser's timer id is never
advanced), and the index is the initial `0` or the argument of a click; while
the component is mounted it is the argument of the last click on an existing
dot, or `0` if there was none. -/
theorem C14_reduced_never_advances (len id0 : ℕ) (es : List Event)
    (hred : ∀ e ∈ es, e ≠ Event.update false) :
    (mount id0 true).timers = [] ∧
    (steps len (mount id0 true) es).timers = [] ∧
    (steps len (mount id0 true) es).timerId = id0 ∧
    ((steps len (mount id0 true) es).idx = fin 0 ∨
      ∃ i, Event.goTo i ∈ es ∧ i < len ∧ (steps len (mount id0 true) es).idx = fin i) ∧
    ((∀ e ∈ es, e ≠ Event.unmount) →
      (steps len (mount id0 true) es).idx = fin (((lastGoTo len es).getD 0 : ℕ) : ℚ)) := by
  obtain ⟨h1, h2, h3, h4⟩ := reduced_steps len es (mount id0 true) hred
    (by rw [mount_reduced]) (by rw [mount_reduced])
  have e1 : (mount id0 true).timerId = id0 := by rw [mount_reduced]
  have e2 : (mount id0 true).idx = fin 0 := by rw [mount_reduced]
  have e3 : (mount id0 true).mounted = true := by rw [mount_reduced]
  rw [e1] at h2
  rw [e2] at h3 h4
  refine ⟨by rw [mount_reduced], h1, h2, h3, fun hun => ?_⟩
  rw [h4 e3 hun]
  cases lastGoTo len es <;> simp

/-- C14, witness: four items, reduced motion; firings of any timer id around
a click on dot `2` leave the index at `2`. -/
theorem C14_reduced_never_advances_witness :
    (steps 4 (mount 0 true) [Event.fire 1, Event.goTo 2, Event.fire 1, Event.fire 2]).timers
      = [] ∧
    (steps 4 (mount 0 true) [Event.fire 1, Event.goTo 2, Event.fire 1, Event.fire 2]).idx
      = fin 2 := by
  have h := C14_reduced_never_advances 4 0
    [Event.fire 1, Event.goTo 2, Event.fire 1, Event.fire 2] (by simp)
  refine ⟨h.2.1, ?_⟩
  have h5 := h.2.2.2.2 (by simp)
  simpa [lastGoTo] using h5

theorem commit_items (id0 : ℕ) (reduce : Bool) :
    commit items id0 reduce = Except.ok (mount id0 reduce) := by
  simp [commit, render, itemAt, initial, items]

theorem commit_nonempty (its : List Testimonial) (id0 : ℕ) (reduce : Bool) (h : its ≠ []) :
    commit its id0 reduce = Except.ok (mount id0 reduce) := by
  cases its with
  | nil => exact absurd rfl h
  | cons a l => simp [commit, render, itemAt, initial]

end TestimonialCarousel

/-! ## The orbit layout over the real numbers -/

namespace OrbitIntegrations

theorem layout_getElem? {α : Type} [Field α] (cos sin : α → α) (pi : α) (its : List OrbitItem)
    (i : ℕ) :
    (layout cos sin pi its)[i]? = (its[i]?).map (fun it => (it, node cos sin pi its.length i)) := by
  simp [layout]

theorem layout_length {α : Type} [Field α] (cos sin : α → α) (pi : α) (its : List OrbitItem) :
    (layout cos sin pi its).length = its.length := by
  simp [layout]

theorem layout_positions {α : Type} [Field α] (cos sin : α → α) (pi : α)
    (its : List OrbitItem) :
    (layout cos sin pi its).map Prod.snd
      = (List.range its.length).map (node cos sin pi its.length) := by
  apply List.ext_getElem?
  intro j
  rw [List.getElem?_map, layout_getElem?, List.getElem?_map]
  by_cases hj : j < its.length
  · simp [List.getElem?_eq_getElem hj, List.getElem?_range hj]
  · have h1 : its[j]? = none := List.getElem?_eq_none (not_lt.mp hj)
    have h2 : (List.range its.length)[j]? = none :=
      List.getElem?_eq_none (by simpa using not_lt.mp hj)
    simp [h1, h2]

theorem angle_real (len i : ℕ) :
    angle Real.pi len i = 2 * Real.pi * (i : ℝ) / (len : ℝ) := by
  rw [angle]; ring

theorem radius_real (i : ℕ) : (radius i : ℝ) = if i % 2 = 0 then 44 else 36 := by
  rw [radius]

theorem radius_cases (i : ℕ) : (radius i : ℝ) = 44 ∨ (radius i : ℝ) = 36 := by
  rw [radius]; split
  · exact Or.inl rfl
  · exact Or.inr rfl

theorem mathPI_lt_pi : ((mathPI : ℚ) : ℝ) < Real.pi := by
  have h := Real.pi_gt_d20
  have e : ((mathPI : ℚ) : ℝ) < 3.14159265358979323846 := by
    rw [mathPI]; norm_num
  linarith

theorem mathPI_pos : (0 : ℝ) < ((mathPI : ℚ) : ℝ) := by
  rw [mathPI]; norm_num

theorem pi_sub_mathPI_lt : Real.pi - ((mathPI : ℚ) : ℝ) < 13 / 10 ^ 17 := by
  have h := Real.pi_lt_d20
  have e : (3.14159265358979323847 : ℝ) - ((mathPI : ℚ) : ℝ) < 13 / 10 ^ 17 := by
    rw [mathPI]; norm_num
  linarith

theorem angle_four_of_eight (pi : ℝ) : angle pi 8 4 = pi := by
  rw [angle]; norm_num; ring

theorem sin_mathPI_pos : 0 < Real.sin ((mathPI : ℚ) : ℝ) :=
  Real.sin_pos_of_pos_of_lt_pi mathPI_pos mathPI_lt_pi

theorem sin_mathPI_lt : Real.sin ((mathPI : ℚ) : ℝ) < 13 / 10 ^ 17 := by
  have h1 : Real.sin (Real.pi - ((mathPI : ℚ) : ℝ)) < Real.pi - ((mathPI : ℚ) : ℝ) :=
    Real.sin_lt (sub_pos.mpr mathPI_lt_pi)
  rw [Real.sin_pi_sub] at h1
  linarith [pi_sub_mathPI_lt]

theorem cos_mathPI_bounds :
    -1 ≤ Real.cos ((mathPI : ℚ) : ℝ) ∧ Real.cos ((mathPI : ℚ) : ℝ) < -1 + 1 / 10 ^ 30 := by
  refine ⟨Real.neg_one_le_cos _, ?_⟩
  have h1 := Real.one_sub_sq_div_two_le_cos (x := Real.pi - ((mathPI : ℚ) : ℝ))
  rw [Real.cos_pi_sub] at h1
  have h2 := pi_sub_mathPI_lt
  have h3 : 0 < Real.pi - ((mathPI : ℚ) : ℝ) := sub_pos.mpr mathPI_lt_pi
  have h4 : (Real.pi - ((mathPI : ℚ) : ℝ)) ^ 2 < (13 / 10 ^ 17) ^ 2 :=
    pow_lt_pow_left₀ h2 h3.le (by norm_num)
  have h5 : ((13 : ℝ) / 10 ^ 17) ^ 2 < 1 / 10 ^ 30 := by norm_num
  linarith

/-- C16, counterexample: `Math.PI` is a double below `π`, so for the eight
built-in items the angle of node `4` is `Math.PI` and its sine is positive:
the node is rendered above `y = 50`, not at `(6, 50)`. -/
theorem C16_node_four_counterexample :
    ((mathPI : ℚ) : ℝ) < Real.pi ∧
    angle ((mathPI : ℚ) : ℝ) items.length 4 = ((mathPI : ℚ) : ℝ) ∧
    50 < (node Real.cos Real.sin ((mathPI : ℚ) : ℝ) items.length 4).2 ∧
    node Real.cos Real.sin ((mathPI : ℚ) : ℝ) items.length 4 ≠ (6, 50) ∧
    (layout Real.cos Real.sin ((mathPI : ℚ) : ℝ) items)[4]?
      ≠ some ({ name := "GCP", tint := "#00F5FF" }, 6, 50) := by
  have hlen : items.length = 8 := rfl
  have hy : 50 < (node Real.cos Real.sin ((mathPI : ℚ) : ℝ) items.length 4).2 := by
    rw [hlen]
    simp only [node, angle_four_of_eight, radius]
    have := sin_mathPI_pos
    norm_num
    exact this
  have hne : node Real.cos Real.sin ((mathPI : ℚ) : ℝ) items.length 4 ≠ (6, 50) := by
    intro h
    rw [h] at hy
    exact lt_irrefl _ hy
  refine ⟨mathPI_lt_pi, by rw [hlen]; exact angle_four_of_eight _, hy, hne, ?_⟩
  rw [layout_getElem?]
  intro h
  apply hne
  simpa [items] using h

/-- C16, amended: the layout has one entry per item, in item order; the
position of node `i` of `N` is the code's
`x = 50 + Math.cos(angle) * r`, `y = 50 + Math.sin(angle) * r` with
`angle = (i / N) * Math.PI * 2` and `r = 44` for even `i`, `36` for odd `i`,
whatever the library functions and the constant are; the positions are the
image of `0 .. N-1` under a function of `N` and `i` only.  For the eight
built-in items node `0` is at `(94, 50)` as soon as `cos 0 = 1` and
`sin 0 = 0`; and with the double `Math.PI` node `4` is within `10^-13` of
`(6, 50)` but above `y = 50`. -/
theorem C16_orbit_formula (cos sin : ℝ → ℝ) (pi : ℝ) (its : List OrbitItem) (i : ℕ)
    (hi : i < its.length) :
    (layout cos sin pi its).length = its.length ∧
    (layout cos sin pi its).map Prod.fst = its ∧
    (∃ it, its[i]? = some it ∧
      (layout cos sin pi its)[i]? = some (it,
        50 + cos (((i : ℝ) / (its.length : ℝ)) * pi * 2) * (if i % 2 = 0 then 44 else 36),
        50 + sin (((i : ℝ) / (its.length : ℝ)) * pi * 2) * (if i % 2 = 0 then 44 else 36))) ∧
    (layout cos sin pi its).map Prod.snd
      = (List.range its.length).map (node cos sin pi its.length) ∧
    (cos 0 = 1 → sin 0 = 0 →
      (layout cos sin pi items)[0]? = some ({ name := "Slack", tint := "#00F5FF" }, 94, 50)) ∧
    (∃ x y : ℝ,
      (layout Real.cos Real.sin ((mathPI : ℚ) : ℝ) items)[4]?
        = some ({ name := "GCP", tint := "#00F5FF" }, x, y) ∧
      6 ≤ x ∧ x < 6 + 1 / 10 ^ 13 ∧ 50 < y ∧ y < 50 + 1 / 10 ^ 13) := by
  refine ⟨layout_length _ _ _ _, ?_, ⟨its[i], List.getElem?_eq_getElem hi, ?_⟩,
    layout_positions _ _ _ _, ?_, ?_⟩
  · apply List.ext_getElem?
    intro j
    rw [List.getElem?_map, layout_getElem?]
    cases its[j]? <;> simp
  · rw [layout_getElem?, List.getElem?_eq_getElem hi]
    simp only [Option.map_some', node, angle, radius]
  · intro h0 h1
    rw [layout_getElem?]
    simp only [items, List.length_cons, List.length_nil, List.getElem?_cons_zero,
      Option.map_some', node, angle, radius]
    norm_num [h0, h1]
  · refine ⟨(node Real.cos Real.sin ((mathPI : ℚ) : ℝ) 8 4).1,
      (node Real.cos Real.sin ((mathPI : ℚ) : ℝ) 8 4).2, ?_, ?_, ?_, ?_, ?_⟩
    · rw [layout_getElem?]
      simp [items]
    all_goals simp only [node, angle_four_of_eight, radius]
    all_goals norm_num
    · linarith [cos_mathPI_bounds.1]
    · linarith [cos_mathPI_bounds.2]
    · exact sin_mathPI_pos
    · linarith [sin_mathPI_lt]

/-- C16, witness: the eight built-in items and node `4`, with the real cosine
and sine and the double `Math.PI`. -/
theorem C16_orbit_formula_witness :
    (layout Real.cos Real.sin ((mathPI : ℚ) : ℝ) items).length = items.length ∧
    (layout Real.cos Real.sin ((mathPI : ℚ) : ℝ) items)[0]?
      = some ({ name := "Slack", tint := "#00F5FF" }, 94, 50) :=
  ⟨(C16_orbit_formula Real.cos Real.sin ((mathPI : ℚ) : ℝ) items 4 (by decide)).1,
   (C16_orbit_formula Real.cos Real.sin ((mathPI : ℚ) : ℝ) items 4 (by decide)).2.2.2.2.1
     Real.cos_zero Real.sin_zero⟩

theorem node_bounds (len i : ℕ) :
    50 - (radius i : ℝ) ≤ (node Real.cos Real.sin Real.pi len i).1 ∧
    (node Real.cos Real.sin Real.pi len i).1 ≤ 50 + (radius i : ℝ) ∧
    50 - (radius i : ℝ) ≤ (node Real.cos Real.sin Real.pi len i).2 ∧
    (node Real.cos Real.sin Real.pi len i).2 ≤ 50 + (radius i : ℝ) := by
  have hr : (0 : ℝ) ≤ radius i := by
    rcases radius_cases i with h | h <;> rw [h] <;> norm_num
  have c1 := Real.neg_one_le_cos (angle Real.pi len i)
  have c2 := Real.cos_le_one (angle Real.pi len i)
  have s1 := Real.neg_one_le_sin (angle Real.pi len i)
  have s2 := Real.sin_le_one (angle Real.pi len i)
  simp only [node]
  refine ⟨?_, ?_, ?_, ?_⟩ <;> nlinarith

/-- C17: for every node `i` of a layout of `N` items, both coordinates lie in
`[50 - r, 50 + r]` for the radius `r` of that node, which is `44` for even `i`
and `36` for odd `i`; hence in `[6, 94]` and in `[0, 100]`. -/
theorem C17_orbit_bounds (its : List OrbitItem) (i : ℕ) (hi : i < its.length) :
    ∃ it x y, (layout Real.cos Real.sin Real.pi its)[i]? = some (it, x, y) ∧
      (radius i : ℝ) = (if i % 2 = 0 then 44 else 36) ∧
      50 - radius i ≤ x ∧ x ≤ 50 + radius i ∧ 50 - radius i ≤ y ∧ y ≤ 50 + radius i ∧
      6 ≤ x ∧ x ≤ 94 ∧ 6 ≤ y ∧ y ≤ 94 ∧
      0 ≤ x ∧ x ≤ 100 ∧ 0 ≤ y ∧ y ≤ 100 := by
  obtain ⟨b1, b2, b3, b4⟩ := node_bounds its.length i
  refine ⟨its[i], (node Real.cos Real.sin Real.pi its.length i).1,
    (node Real.cos Real.sin Real.pi its.length i).2, ?_, radius_real i, b1, b2, b3, b4, ?_⟩
  · rw [layout_getElem?, List.getElem?_eq_getElem hi]; rfl
  · rcases radius_cases i with h | h <;> rw [h] at b1 b2 b3 b4 <;>
      refine ⟨?_, ?_, ?_, ?_, ?_, ?_, ?_, ?_⟩ <;> linarith

/-- C17, witness: node `3` of the eight built-in items. -/
theorem C17_orbit_bounds_witness :
    ∃ it x y, (layout Real.cos Real.sin Real.pi items)[3]? = some (it, x, y) ∧
      (radius 3 : ℝ) = (if 3 % 2 = 0 then 44 else 36) ∧
      50 - radius 3 ≤ x ∧ x ≤ 50 + radius 3 ∧ 50 - radius 3 ≤ y ∧ y ≤ 50 + radius 3 ∧
      6 ≤ x ∧ x ≤ 94 ∧ 6 ≤ y ∧ y ≤ 94 ∧
      0 ≤ x ∧ x ≤ 100 ∧ 0 ≤ y ∧ y ≤ 100 :=
  C17_orbit_bounds items 3 (by decide)

/-- C18: the layout of an empty array of items is the empty sequence, whatever
the library functions are; and an entry of a layout exists only for an index
below the number of items, so the divisor `items.length` of an evaluated node
is never zero. -/
theorem C18_orbit_empty (α : Type) [Field α] (cos sin : α → α) (pi : α) :
    layout cos sin pi [] = [] ∧
    (layout cos sin pi []).length = 0 ∧
    layout Real.cos Real.sin Real.pi [] = [] ∧
    ∀ (its : List OrbitItem) (i : ℕ), (layout cos sin pi its)[i]? ≠ none →
      its.length ≠ 0 ∧ i < its.length := by
  refine ⟨rfl, rfl, rfl, fun its i h => ?_⟩
  rw [layout_getElem?] at h
  have hi : i < its.length := by
    by_contra hn
    exact h (by rw [List.getElem?_eq_none (not_lt.mp hn)]; rfl)
  exact ⟨by omega, hi⟩

end OrbitIntegrations

/-! ## The particle field -/

namespace Particles

theorem loop_length (rand : ℕ → ℚ) (count : ℚ) :
    ∀ (n i k : ℕ) (arr : List Particle), (⌈count⌉ - (i : ℤ)).toNat = n →
      (loop rand count i k arr).length = arr.length + n := by
  intro n
  induction n with
  | zero =>
    intro i k arr h
    have hle : ⌈count⌉ ≤ (i : ℤ) := by omega
    have hnot : ¬ ((i : ℚ) < count) := by
      have := Int.ceil_le.mp hle
      push_cast at this
      exact not_lt.mpr this
    rw [loop, if_neg hnot]; rfl
  | succ n ih =>
    intro i k arr h
    have hlt : (i : ℤ) < ⌈count⌉ := by omega
    have hpos : (i : ℚ) < count := by
      have := Int.lt_ceil.mp hlt
      exact_mod_cast this
    rw [loop, if_pos hpos, ih (i + 1) (k + 5) _ (by push_cast; omega)]
    simp [Nat.add_assoc, Nat.add_comm 1 n]

theorem loop_mem (rand : ℕ → ℚ) (count : ℚ) :
    ∀ (n i k : ℕ) (arr : List Particle), (⌈count⌉ - (i : ℤ)).toNat = n →
      ∀ p ∈ loop rand count i k arr, p ∈ arr ∨ ∃ j m, p = particle rand j m := by
  intro n
  induction n with
  | zero =>
    intro i k arr h p hp
    have hle : ⌈count⌉ ≤ (i : ℤ) := by omega
    have hnot : ¬ ((i : ℚ) < count) := by
      have := Int.ceil_le.mp hle
      push_cast at this
      exact not_lt.mpr this
    rw [loop, if_neg hnot] at hp
    exact Or.inl hp
  | succ n ih =>
    intro i k arr h p hp
    have hlt : (i : ℤ) < ⌈count⌉ := by omega
    have hpos : (i : ℚ) < count := by
      have := Int.lt_ceil.mp hlt
      exact_mod_cast this
    rw [loop, if_pos hpos] at hp
    rcases ih (i + 1) (k + 5) _ (by push_cast; omega) p hp with h1 | h1
    · rcases List.mem_append.mp h1 with h2 | h2
      · exact Or.inl h2
      · exact Or.inr ⟨i, k, List.mem_singleton.mp h2⟩
    · exact Or.inr h1

theorem particles_length (rand : ℕ → ℚ) (count : ℚ) :
    (particles rand (some count)).length = ⌈count⌉.toNat := by
  rw [particles, loop_length rand _ ⌈count⌉.toNat 0 0 [] (by simp)]
  simp

/-- C19: the loop terminates for every finite count.  For an integer count
the array has `max(count, 0)` elements: exactly `count` for `count >= 0`, none
for a negative count; the default count gives `28` elements. -/
theorem C19_particles_length (rand : ℕ → ℚ) (c : ℤ) :
    (particles rand (some (c : ℚ))).length = c.toNat ∧
    (0 ≤ c → ((particles rand (some (c : ℚ))).length : ℤ) = c) ∧
    (c < 0 → particles rand (some (c : ℚ)) = []) ∧
    (particles rand none).length = 28 ∧
    (particles rand (some 28)).length = 28 := by
  have h0 : (particles rand (some (c : ℚ))).length = c.toNat := by
    rw [particles_length, Int.ceil_intCast]
  have h28 : (particles rand (some 28)).length = 28 := by
    have := particles_length rand ((28 : ℤ) : ℚ)
    rw [Int.ceil_intCast] at this
    simpa using this
  refine ⟨h0, fun hc => ?_, fun hc => ?_, ?_, h28⟩
  · rw [h0]; exact Int.toNat_of_nonneg hc
  · apply List.eq_nil_of_length_eq_zero
    rw [h0]; omega
  · exact h28

/-- C19, witness: the count `3` gives three particles, the count `-2`
none. -/
theorem C19_particles_length_witness :
    ((particles (fun _ => 1 / 2) (some ((3 : ℤ) : ℚ))).length : ℤ) = 3 ∧
    particles (fun _ => 1 / 2) (some ((-2 : ℤ) : ℚ)) = [] :=
  ⟨(C19_particles_length (fun _ => 1 / 2) 3).2.1 (by norm_num),
   (C19_particles_length (fun _ => 1 / 2) (-2)).2.2.1 (by norm_num)⟩

/-- C20: when every draw of the random source lies in `[0, 1)`, every particle
of the array, for every count, has `x` and `y` in `[0, 100]`, `s` in
`[1, 3.2]`, `o` in `[0.15, 0.5]` and `d` in `[6, 16]`. -/
theorem C20_particle_ranges (rand : ℕ → ℚ) (count : Option ℚ)
    (hr : ∀ k, 0 ≤ rand k ∧ rand k < 1) (p : Particle) (hp : p ∈ particles rand count) :
    0 ≤ p.x ∧ p.x ≤ 100 ∧ 0 ≤ p.y ∧ p.y ≤ 100 ∧ 1 ≤ p.s ∧ p.s ≤ 3.2 ∧
    0.15 ≤ p.o ∧ p.o ≤ 0.5 ∧ 6 ≤ p.d ∧ p.d ≤ 16 := by
  rcases loop_mem rand (count.getD 28) _ 0 0 [] rfl p hp with h | ⟨j, m, rfl⟩
  · cases h
  · have a0 := hr m
    have a1 := hr (m + 1)
    have a2 := hr (m + 2)
    have a3 := hr (m + 3)
    have a4 := hr (m + 4)
    simp only [particle]
    norm_num
    refine ⟨?_, ?_, ?_, ?_, ?_, ?_, ?_, ?_, ?_, ?_⟩ <;> linarith [a0.1, a0.2, a1.1, a1.2,
      a2.1, a2.2, a3.1, a3.2, a4.1, a4.2]

/-- C20, witness: the first particle of a field of one, with every draw equal
to `1/2`. -/
theorem C20_particle_ranges_witness :
    particle (fun _ => 1 / 2) 0 0 ∈ particles (fun _ => 1 / 2) (some 1) ∧
    0 ≤ (particle (fun _ => 1 / 2) 0 0).x ∧ (particle (fun _ => 1 / 2) 0 0).x ≤ 100 := by
  have hmem : particle (fun _ => 1 / 2) 0 0 ∈ particles (fun _ => 1 / 2) (some 1) := by
    rw [particles]
    simp only [Option.getD_some]
    rw [loop, if_pos (by norm_num), loop, if_neg (by norm_num)]
    simp
  have h := C20_particle_ranges (fun _ => 1 / 2) (some 1) (by intro k; norm_num) _ hmem
  exact ⟨hmem, h.1, h.2.1⟩

end Particles

/-! ## The telemetry series -/

theorem jsRound_bounds (q : ℚ) (a b : ℤ) (ha : (a : ℚ) ≤ q) (hb : q ≤ (b : ℚ)) :
    a ≤ jsRound q ∧ jsRound q ≤ b := by
  constructor
  · rw [jsRound, Int.le_floor]; linarith
  · have h : jsRound q < b + 1 := by
      rw [jsRound, Int.floor_lt]; push_cast; linarith
    omega

theorem round_fin (q : ℚ) : JSNum.round (fin q) = fin (jsRound q) := rfl

namespace DemoConsole

theorem render_initial (rand : ℕ → ℚ) (k : ℕ) :
    (render rand (initial k)).2.heat = (heatSeries rand k).1 ∧
    (render rand (initial k)).2.spark = (sparkSeries rand (k + 12)).1 ∧
    (render rand (initial k)).2.signal = (signalSeries rand (k + 30)).1 ∧
    (render rand (initial k)).1.draws = k + 44 ∧
    (render rand (initial k)).1.heat = some (heatSeries rand k).1 ∧
    (render rand (initial k)).1.spark = some (sparkSeries rand (k + 12)).1 := by
  simp [render, initial, useMemo, heatSeries, sparkSeries, signalSeries]

theorem render_again (rand : ℕ → ℚ) (s : State) (h : List HeatSample) (sp : List SparkSample)
    (hh : s.heat = some h) (hs : s.spark = some sp) :
    (render rand s).2.heat = h ∧ (render rand s).2.spark = sp ∧
    (render rand s).2.signal = (signalSeries rand s.draws).1 ∧
    (render rand s).1.draws = s.draws + 14 ∧
    (render rand s).1.heat = some h ∧ (render rand s).1.spark = some sp := by
  simp [render, useMemo, hh, hs, signalSeries]

/-- C21, the code at the failing input: after the first render of an instance
and a switch of the tab, the second render hands the charts the same `heat` and
`spark`, but evaluates the `data` expression of Signal Correlation again: it
makes 14 further draws and reads the series from the new position of the
random stream.  With the draws `0` up to position 43 and `1/2` from position
44 the first series starts with `20`, the second with `55`.  The memoised
`line` of `Hero` is the same on a second render, which makes no draw. -/
theorem C21_signal_regenerated (rand : ℕ → ℚ) (k : ℕ) (t : String) :
    (render rand (setTab (render rand (initial k)).1 t)).2.heat
      = (render rand (initial k)).2.heat ∧
    (render rand (setTab (render rand (initial k)).1 t)).2.spark
      = (render rand (initial k)).2.spark ∧
    (render rand (initial k)).2.signal = (signalSeries rand (k + 30)).1 ∧
    (render rand (setTab (render rand (initial k)).1 t)).2.signal
      = (signalSeries rand (k + 44)).1 ∧
    (render rand (setTab (render rand (initial k)).1 t)).1.draws
      = (render rand (initial k)).1.draws + 14 ∧
    ((render (fun j => if j < 44 then 0 else 1 / 2) (initial 0)).2.signal)[0]?
      = some { x := 0, a := 20 } ∧
    ((render (fun j => if j < 44 then 0 else 1 / 2)
      (setTab (render (fun j => if j < 44 then 0 else 1 / 2) (initial 0)).1
        "Pipelines")).2.signal)[0]? = some { x := 0, a := 55 } ∧
    (Hero.render rand (Hero.render rand (Hero.initial k)).1).2
      = (Hero.render rand (Hero.initial k)).2 ∧
    (Hero.render rand (Hero.render rand (Hero.initial k)).1).1.draws
      = (Hero.render rand (Hero.initial k)).1.draws := by
  obtain ⟨a1, a2, a3, a4, a5, a6⟩ := render_initial rand k
  have b := render_again rand (setTab (render rand (initial k)).1 t) _ _
    (by simpa [setTab] using a5) (by simpa [setTab] using a6)
  have hd : (setTab (render rand (initial k)).1 t).draws = k + 44 := by
    simpa [setTab] using a4
  rw [hd] at b
  refine ⟨by rw [b.1, a1], by rw [b.2.1, a2], a3, b.2.2.1, by rw [b.2.2.2.1, a4], ?_, ?_,
    by simp [Hero.render, Hero.initial, useMemo], by simp [Hero.render, Hero.initial, useMemo]⟩
  · rw [(render_initial _ 0).2.2.1]
    simp only [signalSeries]
    norm_num [jsRound, List.range_succ_eq_map]
  · obtain ⟨c1, c2, c3, c4, c5, c6⟩ := render_initial (fun j => if j < 44 then (0 : ℚ) else 1 / 2) 0
    have c := render_again (fun j => if j < 44 then (0 : ℚ) else 1 / 2)
      (setTab (render (fun j => if j < 44 then (0 : ℚ) else 1 / 2) (initial 0)).1 "Pipelines")
      _ _ (by simpa [setTab] using c5) (by simpa [setTab] using c6)
    have hd0 : (setTab (render (fun j => if j < 44 then (0 : ℚ) else 1 / 2) (initial 0)).1
        "Pipelines").draws = 44 := by
      simpa [setTab] using c4
    rw [c.2.2.1, hd0]
    simp only [signalSeries]
    norm_num [jsRound, List.range_succ_eq_map]

end DemoConsole

theorem range_map_getElem? {α : Type} (f : ℕ → α) (n i : ℕ) (hi : i < n) :
    ((List.range n).map f)[i]? = some (f i) := by
  simp [List.getElem?_range hi]

/-- C22: each telemetry generator returns exactly its number of samples (12
for Load Heat, 18 for Stability Index, 14 for Signal Correlation, 18 for
Reliability Trend), and the sample at position `i` carries `i`: the label
`S(i+1)` for Load Heat, `x = i` or `name = i` for the others; its magnitude is
computed from the `i`-th draw of the generator. -/
theorem C22_series_shape (rand : ℕ → ℚ) (k i : ℕ) :
    (DemoConsole.heatSeries rand k).1.length = 12 ∧
    (DemoConsole.sparkSeries rand k).1.length = 18 ∧
    (DemoConsole.signalSeries rand k).1.length = 14 ∧
    (Hero.lineSeries rand k).1.length = 18 ∧
    (i < 12 → (DemoConsole.heatSeries rand k).1[i]?
      = some { name := "S" ++ toString (i + 1), v := jsRound (30 + rand (k + i) * 70) }) ∧
    (i < 18 → (DemoConsole.sparkSeries rand k).1[i]?
      = some { x := i, y := jsRound (40 + rand (k + i) * 50) }) ∧
    (i < 14 → (DemoConsole.signalSeries rand k).1[i]?
      = some { x := i, a := jsRound (20 + rand (k + i) * 70) }) ∧
    (i < 18 → (Hero.lineSeries rand k).1[i]?
      = some { name := i, v := jsRound (30 + rand (k + i) * 60) }) ∧
    ((DemoConsole.heatSeries rand k).1.map HeatSample.name)[0]? = some "S1" ∧
    ((DemoConsole.heatSeries rand k).1.map HeatSample.name)[11]? = some "S12" := by
  refine ⟨by simp [DemoConsole.heatSeries], by simp [DemoConsole.sparkSeries],
    by simp [DemoConsole.signalSeries], by simp [Hero.lineSeries],
    fun h => range_map_getElem? _ 12 i h, fun h => range_map_getElem? _ 18 i h,
    fun h => range_map_getElem? _ 14 i h, fun h => range_map_getElem? _ 18 i h, ?_, ?_⟩
  · simp only [DemoConsole.heatSeries, List.map_map]
    rw [range_map_getElem? _ 12 0 (by norm_num)]
    rfl
  · simp only [DemoConsole.heatSeries, List.map_map]
    rw [range_map_getElem? _ 12 11 (by norm_num)]
    rfl

/-- C22, witness: the sample at position `3` of each series. -/
theorem C22_series_shape_witness :
    (DemoConsole.sparkSeries (fun _ => 1 / 2) 0).1[3]?
      = some { x := 3, y := jsRound (40 + (fun _ => (1 / 2 : ℚ)) (0 + 3) * 50) } ∧
    (Hero.lineSeries (fun _ => 1 / 2) 0).1[3]?
      = some { name := 3, v := jsRound (30 + (fun _ => (1 / 2 : ℚ)) (0 + 3) * 60) } :=
  ⟨(C22_series_shape (fun _ => 1 / 2) 0 3).2.2.2.2.2.1 (by norm_num),
   (C22_series_shape (fun _ => 1 / 2) 0 3).2.2.2.2.2.2.2.1 (by norm_num)⟩

/-- C23: when every draw lies in `[0, 1)`, every magnitude is an integer in
the range of its widget: Load Heat in `[30, 100]`, Stability Index in
`[40, 90]`, Signal Correlation in `[20, 90]`, Reliability Trend in `[30, 90]`;
so every magnitude lies in `[20, 100]`, inside the Y domain `[0, 100]`. -/
theorem C23_magnitude_bounds (rand : ℕ → ℚ) (k : ℕ) (hr : ∀ j, 0 ≤ rand j ∧ rand j < 1) :
    (∀ p ∈ (DemoConsole.heatSeries rand k).1, 30 ≤ p.v ∧ p.v ≤ 100) ∧
    (∀ p ∈ (DemoConsole.sparkSeries rand k).1, 40 ≤ p.y ∧ p.y ≤ 90) ∧
    (∀ p ∈ (DemoConsole.signalSeries rand k).1, 20 ≤ p.a ∧ p.a ≤ 90) ∧
    (∀ p ∈ (Hero.lineSeries rand k).1, 30 ≤ p.v ∧ p.v ≤ 90) ∧
    (∀ p ∈ (DemoConsole.heatSeries rand k).1, 20 ≤ p.v ∧ p.v ≤ 100 ∧ 0 ≤ p.v) ∧
    (∀ p ∈ (DemoConsole.sparkSeries rand k).1, 20 ≤ p.y ∧ p.y ≤ 100 ∧ 0 ≤ p.y) ∧
    (∀ p ∈ (DemoConsole.signalSeries rand k).1, 20 ≤ p.a ∧ p.a ≤ 100 ∧ 0 ≤ p.a) ∧
    (∀ p ∈ (Hero.lineSeries rand k).1, 20 ≤ p.v ∧ p.v ≤ 100 ∧ 0 ≤ p.v) := by
  have h1 : ∀ p ∈ (DemoConsole.heatSeries rand k).1, 30 ≤ p.v ∧ p.v ≤ 100 := by
    intro p hp
    simp only [DemoConsole.heatSeries, List.mem_map, List.mem_range] at hp
    obtain ⟨i, _, rfl⟩ := hp
    have := hr (k + i)
    exact jsRound_bounds _ 30 100 (by push_cast; nlinarith) (by push_cast; nlinarith)
  have h2 : ∀ p ∈ (DemoConsole.sparkSeries rand k).1, 40 ≤ p.y ∧ p.y ≤ 90 := by
    intro p hp
    simp only [DemoConsole.sparkSeries, List.mem_map, List.mem_range] at hp
    obtain ⟨i, _, rfl⟩ := hp
    have := hr (k + i)
    exact jsRound_bounds _ 40 90 (by push_cast; nlinarith) (by push_cast; nlinarith)
  have h3 : ∀ p ∈ (DemoConsole.signalSeries rand k).1, 20 ≤ p.a ∧ p.a ≤ 90 := by
    intro p hp
    simp only [DemoConsole.signalSeries, List.mem_map, List.mem_range] at hp
    obtain ⟨i, _, rfl⟩ := hp
    have := hr (k + i)
    exact jsRound_bounds _ 20 90 (by push_cast; nlinarith) (by push_cast; nlinarith)
  have h4 : ∀ p ∈ (Hero.lineSeries rand k).1, 30 ≤ p.v ∧ p.v ≤ 90 := by
    intro p hp
    simp only [Hero.lineSeries, List.mem_map, List.mem_range] at hp
    obtain ⟨i, _, rfl⟩ := hp
    have := hr (k + i)
    exact jsRound_bounds _ 30 90 (by push_cast; nlinarith) (by push_cast; nlinarith)
  refine ⟨h1, h2, h3, h4, fun p hp => ?_, fun p hp => ?_, fun p hp => ?_, fun p hp => ?_⟩
  · have := h1 p hp; omega
  · have := h2 p hp; omega
  · have := h3 p hp; omega
  · have := h4 p hp; omega

/-- C23, witness: every draw equal to `1/2`. -/
theorem C23_magnitude_bounds_witness :
    20 ≤ jsRound (20 + (fun _ => (1 / 2 : ℚ)) (0 + 0) * 70) ∧
    jsRound (20 + (fun _ => (1 / 2 : ℚ)) (0 + 0) * 70) ≤ 90 :=
  (C23_magnitude_bounds (fun _ => 1 / 2) 0 (by intro j; norm_num)).2.2.1
    { x := 0, a := jsRound (20 + (fun _ => (1 / 2 : ℚ)) (0 + 0) * 70) }
    (List.mem_map.mpr ⟨0, by simp, rfl⟩)

/-! ## The cursor glow -/

namespace CursorGlow

theorem percent_fin (cx cy l t w h : ℚ) (hw : w ≠ 0) (hh : h ≠ 0) :
    percent { clientX := fin cx, clientY := fin cy }
        { left := fin l, top := fin t, width := fin w, height := fin h }
      = (fin ((cx - l) / w * 100), fin ((cy - t) / h * 100)) := by
  simp [percent, sub_fin, JSNum.div, JSNum.mul, hw, hh]

theorem mount_subscribed : mount false
    = { x := none, y := none, subscribed := true, cleanup := true, mounted := true } := by
  simp [mount, effect, initial]

theorem glow_mount_reduced : mount true = initial := by
  simp [mount, effect, initial]

theorem step_mousemove (s : State) (e : MouseEvent) (r : Rect) (hs : s.subscribed = true) :
    step s (Event.mousemove e r) = onMove s e r := by
  simp [step, hs]

theorem inside_range (c l w : ℚ) (hw : 0 < w) (h1 : l ≤ c) (h2 : c ≤ l + w) :
    0 ≤ (c - l) / w * 100 ∧ (c - l) / w * 100 ≤ 100 := by
  have h0 : 0 ≤ (c - l) / w := div_nonneg (by linarith) hw.le
  have h3 : (c - l) / w ≤ 1 := by rw [div_le_one hw]; linarith
  constructor <;> nlinarith

/-- C24, counterexample: the listener is on the window and nothing is
clamped.  For a box with `left = 0` and `width = 100` the pointer at
`clientX = 300` publishes `xPct = 300`; for a box with `left = 100` the pointer
at `clientX = 50` publishes `-25`; for a box of width `0` the pointer at
`clientX = 50` publishes `+Infinity`. -/
theorem C24_range_counterexample :
    (step (mount false) (Event.mousemove { clientX := fin 300, clientY := fin 20 }
      { left := fin 0, top := fin 0, width := fin 100, height := fin 100 })).x
        = some (fin 300) ∧
    ¬ ((300 : ℚ) ≤ 100) ∧
    (step (mount false) (Event.mousemove { clientX := fin 50, clientY := fin 20 }
      { left := fin 100, top := fin 0, width := fin 200, height := fin 100 })).x
        = some (fin (-25)) ∧
    ¬ ((0 : ℚ) ≤ -25) ∧
    (step (mount false) (Event.mousemove { clientX := fin 50, clientY := fin 20 }
      { left := fin 0, top := fin 0, width := fin 0, height := fin 100 })).x = some pinf := by
  refine ⟨?_, by norm_num, ?_, by norm_num, ?_⟩
  · rw [step_mousemove _ _ _ (by rw [mount_subscribed]), onMove,
      percent_fin _ _ _ _ _ _ (by norm_num) (by norm_num)]
    norm_num
  · rw [step_mousemove _ _ _ (by rw [mount_subscribed]), onMove,
      percent_fin _ _ _ _ _ _ (by norm_num) (by norm_num)]
    norm_num
  · rw [step_mousemove _ _ _ (by rw [mount_subscribed]), onMove]
    simp [percent, sub_fin, JSNum.div, JSNum.signedInf, JSNum.mul]

/-- C24, amended: for a bounding box of positive width and height and a
pointer inside it, the percentages the subscribed tracker publishes are finite
and lie in `[0, 100]`. -/
theorem C24_range_inside_box (s : State) (cx cy l t w h : ℚ) (hs : s.subscribed = true)
    (hw : 0 < w) (hh : 0 < h) (hx1 : l ≤ cx) (hx2 : cx ≤ l + w) (hy1 : t ≤ cy)
    (hy2 : cy ≤ t + h) :
    ∃ px py : ℚ,
      (step s (Event.mousemove { clientX := fin cx, clientY := fin cy }
        { left := fin l, top := fin t, width := fin w, height := fin h })).x = some (fin px) ∧
      (step s (Event.mousemove { clientX := fin cx, clientY := fin cy }
        { left := fin l, top := fin t, width := fin w, height := fin h })).y = some (fin py) ∧
      0 ≤ px ∧ px ≤ 100 ∧ 0 ≤ py ∧ py ≤ 100 := by
  refine ⟨(cx - l) / w * 100, (cy - t) / h * 100, ?_, ?_,
    (inside_range cx l w hw hx1 hx2).1, (inside_range cx l w hw hx1 hx2).2,
    (inside_range cy t h hh hy1 hy2).1, (inside_range cy t h hh hy1 hy2).2⟩
  · rw [step_mousemove _ _ _ hs, onMove, percent_fin _ _ _ _ _ _ hw.ne' hh.ne']
  · rw [step_mousemove _ _ _ hs, onMove, percent_fin _ _ _ _ _ _ hw.ne' hh.ne']

/-- C24, witness of the amended claim: a box at `(100, 40)` of size
`200 x 100` and the pointer at `(150, 60)`. -/
theorem C24_range_inside_box_witness :
    ∃ px py : ℚ,
      (step (mount false) (Event.mousemove { clientX := fin 150, clientY := fin 60 }
        { left := fin 100, top := fin 40, width := fin 200, height := fin 100 })).x
          = some (fin px) ∧
      (step (mount false) (Event.mousemove { clientX := fin 150, clientY := fin 60 }
        { left := fin 100, top := fin 40, width := fin 200, height := fin 100 })).y
          = some (fin py) ∧
      0 ≤ px ∧ px ≤ 100 ∧ 0 ≤ py ∧ py ≤ 100 :=
  C24_range_inside_box (mount false) 150 60 100 40 200 100 (by rw [mount_subscribed])
    (by norm_num) (by norm_num) (by norm_num) (by norm_num) (by norm_num) (by norm_num)

/-- C25: a tracker mounted without reduced motion is subscribed, and on every
`mousemove` a subscribed tracker sets `--x` to
`(clientX - left) / width * 100` and `--y` to `(clientY - top) / height * 100`,
for the bounding box read when the event is handled, and changes nothing
else. -/
theorem C25_cursor_formula (s : State) (e : MouseEvent) (r : Rect) (cx cy l t w h : ℚ)
    (hs : s.subscribed = true) (hw : w ≠ 0) (hh : h ≠ 0) :
    (mount false).subscribed = true ∧
    step s (Event.mousemove e r)
      = { s with
          x := some (JSNum.mul (JSNum.div (JSNum.sub e.clientX r.left) r.width) (fin 100)),
          y := some (JSNum.mul (JSNum.div (JSNum.sub e.clientY r.top) r.height) (fin 100)) } ∧
    step s (Event.mousemove { clientX := fin cx, clientY := fin cy }
        { left := fin l, top := fin t, width := fin w, height := fin h })
      = { s with x := some (fin ((cx - l) / w * 100)), y := some (fin ((cy - t) / h * 100)) } := by
  refine ⟨by rw [mount_subscribed], ?_, ?_⟩
  · rw [step_mousemove _ _ _ hs]; rfl
  · rw [step_mousemove _ _ _ hs, onMove, percent_fin _ _ _ _ _ _ hw hh]

/-- C25, witness: a box at `(100, 40)` of size `200 x 100` and the pointer at
`(150, 60)` publish `25` and `20`. -/
theorem C25_cursor_formula_witness :
    step (mount false) (Event.mousemove { clientX := fin 150, clientY := fin 60 }
        { left := fin 100, top := fin 40, width := fin 200, height := fin 100 })
      = { mount false with x := some (fin 25), y := some (fin 20) } := by
  have h := (C25_cursor_formula (mount false) { clientX := fin 150, clientY := fin 60 }
    { left := fin 100, top := fin 40, width := fin 200, height := fin 100 }
    150 60 100 40 200 100 (by rw [mount_subscribed]) (by norm_num) (by norm_num)).2.2
  rw [h]
  norm_num

theorem glow_reduced_step (s : State) (e : Event) (he : e ≠ Event.update false)
    (h : s.subscribed = false ∧ s.cleanup = false ∧ s.x = none ∧ s.y = none) :
    (step s e).subscribed = false ∧ (step s e).cleanup = false ∧
    (step s e).x = none ∧ (step s e).y = none := by
  obtain ⟨h1, h2, h3, h4⟩ := h
  cases e with
  | mousemove ev r => simp [step, h1, h2, h3, h4]
  | update reduce =>
    cases reduce with
    | false => exact absurd rfl he
    | true => cases hm : s.mounted <;> simp [step, hm, effect, runCleanup, h1, h2, h3, h4]
  | unmount => cases hm : s.mounted <;> simp [step, hm, runCleanup, h1, h2, h3, h4]

theorem glow_reduced_steps (es : List Event) :
    ∀ s : State, (∀ e ∈ es, e ≠ Event.update false) →
      (s.subscribed = false ∧ s.cleanup = false ∧ s.x = none ∧ s.y = none) →
      (steps s es).subscribed = false ∧ (steps s es).cleanup = false ∧
      (steps s es).x = none ∧ (steps s es).y = none := by
  induction es with
  | nil => intro s _ h; exact h
  | cons e es ih =>
    intro s hred h
    exact ih (step s e) (fun x hx => hred x (List.mem_cons_of_mem _ hx))
      (glow_reduced_step s e (hred e (List.mem_cons_self _ _)) h)

/-- C26: a tracker mounted with reduced motion is not subscribed.  Through any
pointer moves, renders that keep the flag and an unmount it stays
unsubscribed, `--x` and `--y` are never set, and the coordinate in effect is
the fallback `(50%, 30%)`. -/
theorem C26_reduced_fallback (es : List Event) (hred : ∀ e ∈ es, e ≠ Event.update false) :
    (mount true).subscribed = false ∧
    (steps (mount true) es).subscribed = false ∧
    (steps (mount true) es).x = none ∧ (steps (mount true) es).y = none ∧
    effective (steps (mount true) es) = (fin 50, fin 30) := by
  obtain ⟨h1, _, h3, h4⟩ := glow_reduced_steps es (mount true) hred
    (by rw [glow_mount_reduced]; simp [initial])
  refine ⟨by rw [glow_mount_reduced]; rfl, h1, h3, h4, ?_⟩
  rw [effective, h3, h4]; rfl

/-- C26, witness: two pointer moves on a tracker mounted with reduced
motion. -/
theorem C26_reduced_fallback_witness :
    effective (steps (mount true)
      [Event.mousemove { clientX := fin 150, clientY := fin 60 }
        { left := fin 100, top := fin 40, width := fin 200, height := fin 100 },
       Event.mousemove { clientX := fin 300, clientY := fin 10 }
        { left := fin 100, top := fin 40, width := fin 200, height := fin 100 }])
      = (fin 50, fin 30) :=
  (C26_reduced_fallback _ (by simp)).2.2.2.2

/-- C30: for a bounding box of positive width and height and a pointer inside
it, the published `xPct` is `(clientX - left) / width * 100` and the published
`yPct` is `(clientY - top) / height * 100`, both finite and in `[0, 100]`.  A
pointer on the left edge gives `xPct = 0` and one on the right edge gives
`xPct = 100`, wherever it is vertically; a pointer on the top edge gives
`yPct = 0` and one on the bottom edge gives `yPct = 100`, wherever it is
horizontally.  And `xPct` is non-decreasing in `clientX` whatever the two
values of `clientY` are, as `yPct` is in `clientY` whatever the two values of
`clientX` are. -/
theorem C30_cursor_inside (cx cy l t w h : ℚ) (hw : 0 < w) (hh : 0 < h)
    (hx1 : l ≤ cx) (hx2 : cx ≤ l + w) (hy1 : t ≤ cy) (hy2 : cy ≤ t + h) :
    (∃ px py : ℚ,
      percent { clientX := fin cx, clientY := fin cy }
        { left := fin l, top := fin t, width := fin w, height := fin h } = (fin px, fin py) ∧
      px = (cx - l) / w * 100 ∧ py = (cy - t) / h * 100 ∧
      0 ≤ px ∧ px ≤ 100 ∧ 0 ≤ py ∧ py ≤ 100) ∧
    (∀ y : ℚ,
      (percent { clientX := fin l, clientY := fin y }
        { left := fin l, top := fin t, width := fin w, height := fin h }).1 = fin 0 ∧
      (percent { clientX := fin (l + w), clientY := fin y }
        { left := fin l, top := fin t, width := fin w, height := fin h }).1 = fin 100) ∧
    (∀ x : ℚ,
      (percent { clientX := fin x, clientY := fin t }
        { left := fin l, top := fin t, width := fin w, height := fin h }).2 = fin 0 ∧
      (percent { clientX := fin x, clientY := fin (t + h) }
        { left := fin l, top := fin t, width := fin w, height := fin h }).2 = fin 100) ∧
    (∀ cx2 y1 y2 : ℚ, cx ≤ cx2 →
      ∃ px qx : ℚ,
        (percent { clientX := fin cx, clientY := fin y1 }
          { left := fin l, top := fin t, width := fin w, height := fin h }).1 = fin px ∧
        (percent { clientX := fin cx2, clientY := fin y2 }
          { left := fin l, top := fin t, width := fin w, height := fin h }).1 = fin qx ∧
        px ≤ qx) ∧
    (∀ cy2 x1 x2 : ℚ, cy ≤ cy2 →
      ∃ py qy : ℚ,
        (percent { clientX := fin x1, clientY := fin cy }
          { left := fin l, top := fin t, width := fin w, height := fin h }).2 = fin py ∧
        (percent { clientX := fin x2, clientY := fin cy2 }
          { left := fin l, top := fin t, width := fin w, height := fin h }).2 = fin qy ∧
        py ≤ qy) := by
  have e1 : (l + w - l) / w * 100 = 100 := by field_simp
  have e2 : (t + h - t) / h * 100 = 100 := by field_simp
  refine ⟨⟨_, _, percent_fin _ _ _ _ _ _ hw.ne' hh.ne', rfl, rfl,
    (inside_range cx l w hw hx1 hx2).1, (inside_range cx l w hw hx1 hx2).2,
    (inside_range cy t h hh hy1 hy2).1, (inside_range cy t h hh hy1 hy2).2⟩, ?_, ?_, ?_, ?_⟩
  · intro y
    constructor
    · rw [percent_fin _ _ _ _ _ _ hw.ne' hh.ne']; simp
    · rw [percent_fin _ _ _ _ _ _ hw.ne' hh.ne', e1]
  · intro x
    constructor
    · rw [percent_fin _ _ _ _ _ _ hw.ne' hh.ne']; simp
    · rw [percent_fin _ _ _ _ _ _ hw.ne' hh.ne', e2]
  · intro cx2 y1 y2 hx
    refine ⟨_, _, by rw [percent_fin _ _ _ _ _ _ hw.ne' hh.ne'],
      by rw [percent_fin _ _ _ _ _ _ hw.ne' hh.ne'], ?_⟩
    exact mul_le_mul_of_nonneg_right
      (div_le_div_of_nonneg_right (by linarith) hw.le) (by norm_num)
  · intro cy2 x1 x2 hy
    refine ⟨_, _, by rw [percent_fin _ _ _ _ _ _ hw.ne' hh.ne'],
      by rw [percent_fin _ _ _ _ _ _ hw.ne' hh.ne'], ?_⟩
    exact mul_le_mul_of_nonneg_right
      (div_le_div_of_nonneg_right (by linarith) hh.le) (by norm_num)

/-- C30, witness: a box at `(100, 40)` of size `200 x 100`; a pointer on its
left edge at the height `77` publishes `xPct = 0`, and one on its bottom edge
at the abscissa `123` publishes `yPct = 100`. -/
theorem C30_cursor_inside_witness :
    (percent { clientX := fin 100, clientY := fin 77 }
      { left := fin 100, top := fin 40, width := fin 200, height := fin 100 }).1 = fin 0 ∧
    (percent { clientX := fin 123, clientY := fin (40 + 100) }
      { left := fin 100, top := fin 40, width := fin 200, height := fin 100 }).2 = fin 100 :=
  ⟨((C30_cursor_inside 150 60 100 40 200 100 (by norm_num) (by norm_num) (by norm_num)
      (by norm_num) (by norm_num) (by norm_num)).2.1 77).1,
   ((C30_cursor_inside 150 60 100 40 200 100 (by norm_num) (by norm_num) (by norm_num)
      (by norm_num) (by norm_num) (by norm_num)).2.2.1 123).2⟩

end CursorGlow

/-! ## C27 and C28: the count-up again -/

/-- C27: for an integer target `T >= 0`, `durationMs > 0` and a timestamp not
before `start`, the value a tick sets is an integer `v` with `0 <= v <= T`, and
`v = T` when the timestamp is at or after `start + durationMs`. -/
theorem C27_value_in_range (T : ℤ) (d start t : ℚ) (hT : 0 ≤ T) (hd : 0 < d)
    (ht : start ≤ t) :
    ∃ v : ℤ, tickValue (fin T) (tickProgress (fin start) (fin d) (fin t)) = fin v ∧
      0 ≤ v ∧ v ≤ T ∧ (start + d ≤ t → v = T) ∧
      ∀ (s : Hook) (i : ℕ) (r : Run), s.runs[i]? = some r → r.target = fin T →
        r.start = fin start → r.durationMs = fin d → (tick s i (fin t)).value = fin v := by
  have hv := valueAt_int T start d t hd.ne'
  rw [valueAt] at hv
  obtain ⟨h0, h1⟩ := valueInt_range T start d t hT hd ht
  refine ⟨valueInt T start d t, hv, h0, h1, fun h => valueInt_final T start d t hd h, ?_⟩
  intro s i r hr e1 e2 e3
  rw [tick_value s i r _ hr, e1, e2, e3, hv]

/-- C27, witness: target `99`, duration `900`, start `1000`, timestamp
`1300`. -/
theorem C27_value_in_range_witness :
    ∃ v : ℤ, tickValue (fin (99 : ℤ)) (tickProgress (fin 1000) (fin 900) (fin 1300)) = fin v ∧
      0 ≤ v ∧ v ≤ 99 ∧ ((1000 : ℚ) + 900 ≤ 1300 → v = 99) ∧
      ∀ (s : Hook) (i : ℕ) (r : Run), s.runs[i]? = some r → r.target = fin (99 : ℤ) →
        r.start = fin 1000 → r.durationMs = fin 900 → (tick s i (fin 1300)).value = fin v :=
  C27_value_in_range 99 900 1000 1300 (by norm_num) (by norm_num) (by norm_num)

/-- C28: for every integer target `T` and `durationMs > 0`, the value on which
the animated run terminates (frames before `start + durationMs`, then the first
frame at or after it) is the value the reduced-motion run snaps to on mount,
namely `T`; neither leaves a callback pending. -/
theorem C28_animate_snap_agree (id0 : ℕ) (T : ℤ) (d start : ℚ) (ts : List ℚ) (t : ℚ)
    (now : JSNum) (hd : 0 < d) (hts : ∀ u ∈ ts, u < start + d) (ht : start + d ≤ t) :
    (steps (mount id0 (fin T) (fin d) true false (fin start)) (frames (ts ++ [t]))).value
      = (mount id0 (fin T) (fin d) true true now).value ∧
    (mount id0 (fin T) (fin d) true true now).value = fin T ∧
    (steps (mount id0 (fin T) (fin d) true false (fin start)) (frames (ts ++ [t]))).pending
      = [] ∧
    (mount id0 (fin T) (fin d) true true now).pending = [] := by
  have hsnap : (mount id0 (fin T) (fin d) true true now).value = fin T := by
    simp [mount, effect, initial, setValue]
  have hsplit : steps (mount id0 (fin T) (fin d) true false (fin start)) (frames (ts ++ [t]))
      = frame (steps (mount id0 (fin T) (fin d) true false (fin start)) (frames ts)) (fin t) := by
    simp [frames, anyFrames, steps, step, List.foldl_append]
  have hl := ((steps_frames_live (fin T) start d hd ts _ 0
    (mount_live id0 (fin T) (fin d) (fin start)).1).2.2.1) hts
  have hp : tickAgain (tickProgress (fin start) (fin d) (fin t)) = false := by
    rw [tickAgain_progress _ _ _ hd]; simpa using ht
  obtain ⟨h1, _, h3, _⟩ := frame_live_done (fin t) hl hp
  have hv := valueAt_int T start d t hd.ne'
  rw [valueAt, valueInt_final T start d t hd ht] at hv
  refine ⟨?_, hsnap, by rw [hsplit, h1], by simp [mount, effect, initial, setValue]⟩
  rw [hsplit, h3, hv, hsnap]

/-- C28, witness: target `42`, duration `900`, start `1000`, frames at `1016`
and `1500`, then `1900`. -/
theorem C28_animate_snap_agree_witness :
    (steps (mount 0 (fin (42 : ℤ)) (fin 900) true false (fin 1000))
      (frames ([1016, 1500] ++ [1900]))).value
      = (mount 0 (fin (42 : ℤ)) (fin 900) true true (fin 1000)).value :=
  (C28_animate_snap_agree 0 42 900 1000 [1016, 1500] 1900 (fin 1000) (by norm_num)
    (by intro u hu; simp at hu; rcases hu with rfl | rfl <;> norm_num) (by norm_num)).1

/-! ## C29: the orbit nodes are distinct -/

namespace OrbitIntegrations

theorem angle_inj (len i j : ℕ) (hi : i < len) (hj : j < len)
    (hc : Real.cos (angle Real.pi len i) = Real.cos (angle Real.pi len j))
    (hs : Real.sin (angle Real.pi len i) = Real.sin (angle Real.pi len j)) : i = j := by
  have hlen : (0 : ℝ) < (len : ℝ) := by
    have : 0 < len := by omega
    exact_mod_cast this
  obtain ⟨k, hk⟩ := Real.Angle.angle_eq_iff_two_pi_dvd_sub.mp (Real.Angle.cos_sin_inj hc hs)
  rw [angle_real, angle_real] at hk
  have hpi := Real.pi_pos
  have hk2 : ((i : ℝ) - (j : ℝ)) = (k : ℝ) * (len : ℝ) := by
    have h2pi : (2 * Real.pi) ≠ 0 := by positivity
    field_simp at hk
    have : 2 * Real.pi * ((i : ℝ) - (j : ℝ)) = 2 * Real.pi * ((k : ℝ) * (len : ℝ)) := by
      linarith
    exact mul_left_cancel₀ h2pi this
  have hk3 : ((i : ℤ) - (j : ℤ)) = k * (len : ℤ) := by exact_mod_cast hk2
  have hk0 : k = 0 := by
    by_contra hne
    rcases lt_or_gt_of_ne hne with hlt | hgt
    · have : k * (len : ℤ) ≤ -1 * (len : ℤ) :=
        mul_le_mul_of_nonneg_right (by omega) (by omega)
      omega
    · have : 1 * (len : ℤ) ≤ k * (len : ℤ) :=
        mul_le_mul_of_nonneg_right (by omega) (by omega)
      omega
  rw [hk0] at hk3
  omega

/-- C29: for two different indices below `N`, the positions of the two nodes
are different points, both as values of the node function and as entries of
the layout. -/
theorem C29_nodes_distinct (its : List OrbitItem) (i j : ℕ) (hi : i < its.length)
    (hj : j < its.length) (hij : i ≠ j) :
    node Real.cos Real.sin Real.pi its.length i ≠ node Real.cos Real.sin Real.pi its.length j ∧
    ((layout Real.cos Real.sin Real.pi its)[i]?).map Prod.snd
      ≠ ((layout Real.cos Real.sin Real.pi its)[j]?).map Prod.snd := by
  have hne : node Real.cos Real.sin Real.pi its.length i
      ≠ node Real.cos Real.sin Real.pi its.length j := by
    intro heq
    simp only [node, Prod.mk.injEq] at heq
    obtain ⟨hx, hy⟩ := heq
    have hx2 : Real.cos (angle Real.pi its.length i) * radius i
        = Real.cos (angle Real.pi its.length j) * radius j := by linarith
    have hy2 : Real.sin (angle Real.pi its.length i) * radius i
        = Real.sin (angle Real.pi its.length j) * radius j := by linarith
    have hsq : (radius i : ℝ) ^ 2 = (radius j : ℝ) ^ 2 := by
      have e1 := Real.cos_sq_add_sin_sq (angle Real.pi its.length i)
      have e2 := Real.cos_sq_add_sin_sq (angle Real.pi its.length j)
      have h1 : (Real.cos (angle Real.pi its.length i) * radius i) ^ 2
          + (Real.sin (angle Real.pi its.length i) * radius i) ^ 2 = (radius i : ℝ) ^ 2 := by
        rw [mul_pow, mul_pow, ← add_mul, e1, one_mul]
      have h2 : (Real.cos (angle Real.pi its.length j) * radius j) ^ 2
          + (Real.sin (angle Real.pi its.length j) * radius j) ^ 2 = (radius j : ℝ) ^ 2 := by
        rw [mul_pow, mul_pow, ← add_mul, e2, one_mul]
      rw [← h1, ← h2, hx2, hy2]
    have hr : (radius i : ℝ) = radius j := by
      rcases radius_cases i with a | a <;> rcases radius_cases j with b | b <;>
        rw [a, b] at hsq ⊢ <;> norm_num at hsq
    have hpos : (radius j : ℝ) ≠ 0 := by
      rcases radius_cases j with b | b <;> rw [b] <;> norm_num
    rw [hr] at hx2 hy2
    exact hij (angle_inj its.length i j hi hj (mul_right_cancel₀ hpos hx2)
      (mul_right_cancel₀ hpos hy2))
  refine ⟨hne, ?_⟩
  rw [layout_getElem?, layout_getElem?, List.getElem?_eq_getElem hi,
    List.getElem?_eq_getElem hj]
  simpa using hne

/-- C29, witness: nodes `0` and `4` of the eight built-in items. -/
theorem C29_nodes_distinct_witness :
    node Real.cos Real.sin Real.pi items.length 0
      ≠ node Real.cos Real.sin Real.pi items.length 4 :=
  (C29_nodes_distinct items 0 4 (by decide) (by decide) (by decide)).1

end OrbitIntegrations

end NeonOps
